import Mathlib

/-!
# The IRC client protocol engine of `lib/irc/irc.js`

A shallow embedding of the line parser (`parseMessage`), of the raw-message
dispatcher (the `"raw"` listener installed by the `Client` constructor), of the
send pipeline (`Client.prototype.send`) and of `Client.prototype.disconnect`,
followed by theorems about them.

Conventions of the embedding.

* A JavaScript string is a `List Char` (`Str`).  Every operation of the source
  that is embedded here inspects a string one character at a time and compares
  the characters with fixed characters of the Basic Multilingual Plane, so the
  unit of a string (UTF-16 code unit there, character here) makes no difference.
* A regular expression of the source is embedded as the function computing its
  match; its doc comment quotes the expression.
* A JavaScript object used as a dictionary is an association list holding the
  own properties in insertion order; properties inherited from
  `Object.prototype` are outside the embedding.
* `undefined` is `none`.  A `TypeError` raised by the source (a property of
  `undefined` or `null` is read) is `none` for the pure parser and
  `Result.throw` for the stateful operations.
* What the client does to the outside world (events emitted, bytes written to
  the socket, the socket destroyed, timers armed and cleared) is recorded, in
  order, in the `trace` of the client state.  Listeners of the emitted events
  are application code and are outside the embedding.
-/

namespace Irc

/-- JavaScript strings. -/
abbrev Str := List Char

/-! ## String primitives -/

/-- `xs.join(sep)` for an array of strings. -/
def join (sep : Str) : List Str → Str
  | [] => []
  | [x] => x
  | x :: y :: rest => x ++ sep ++ join sep (y :: rest)

/-- `s.split(re)` for a regular expression `re` of the shape `c+`, where `c` is
the class of characters recognised by `p` (` +` and `\s+` in the source): the
string is cut at every maximal run of characters of the class.  The result is
never empty; a run at the very start or the very end of the string yields an
empty first or last piece, and the empty string yields one empty piece. -/
def splitRuns (p : Char → Bool) : Str → List Str
  | [] => [[]]
  | c :: cs =>
    if p c then
      match cs with
      | [] => [[], []]
      | d :: _ => if p d then splitRuns p cs else [] :: splitRuns p cs
    else
      match splitRuns p cs with
      | [] => [[c]]
      | w :: ws => (c :: w) :: ws

/-- The class ` ` (a single space character). -/
def isSpace (c : Char) : Bool := c == ' '

/-- `s.split(/ +/)`. -/
def splitSpaces (s : Str) : List Str := splitRuns isSpace s

/-- `s.replace(/ +$/, "")`: the trailing run of spaces is removed. -/
def stripTrailingSpaces (s : Str) : Str :=
  (s.reverse.dropWhile isSpace).reverse

/-- The characters that `.` does not match in a regular expression without the
`s` flag: the line terminators LF, CR, U+2028 and U+2029. -/
def isLineTerminator (c : Char) : Bool :=
  c == '\n' || c == '\r' || c == Char.ofNat 0x2028 || c == Char.ofNat 0x2029

/-- The class `\d`. -/
def isDigit (c : Char) : Bool := '0' ≤ c && c ≤ '9'

/-- The class `[_a-zA-Z0-9\[\]\\BACKTICK^{}|-]` of the nick part of a prefix
(BACKTICK standing for the character U+0060). -/
def isNickChar (c : Char) : Bool :=
  c == '_' || ('a' ≤ c && c ≤ 'z') || ('A' ≤ c && c ≤ 'Z') || isDigit c ||
  c == '[' || c == ']' || c == '\\' || c == Char.ofNat 0x60 || c == '^' ||
  c == Char.ofNat 0x7b || c == Char.ofNat 0x7d || c == '|' || c == '-'

/-! ## `parseMessage` -/

/-- The characters removed one by one by the first alternative
`[\x02\x1f\x16\x0f]` of the colour-stripping expression. -/
def isFormatChar (c : Char) : Bool :=
  c == '\x02' || c == '\x1f' || c == '\x16' || c == '\x0f'

/-- How many characters `\d{0,2}` consumes at the head of `s` (greedy). -/
def digits2 : Str → Nat
  | a :: b :: _ => if isDigit a then (if isDigit b then 2 else 1) else 0
  | [a] => if isDigit a then 1 else 0
  | [] => 0

/-- How many characters `\d{0,2}(?:,\d{0,2})?` consumes at the head of `s`: the
part of the second alternative of the colour-stripping expression that
follows the colour character `\x03`. -/
def colourLen (s : Str) : Nat :=
  match s.drop (digits2 s) with
  | ',' :: r => digits2 s + 1 + digits2 r
  | _ => digits2 s

/-- `line.replace(/[\x02\x1f\x16\x0f]|\x03\d{0,2}(?:,\d{0,2})?/g, "")`, with a
counter of the characters of the current match still to be dropped. -/
def stripFrom : Nat → Str → Str
  | _, [] => []
  | n + 1, _ :: cs => stripFrom n cs
  | 0, c :: cs =>
    if isFormatChar c then stripFrom 0 cs
    else if c == '\x03' then stripFrom (colourLen cs) cs
    else c :: stripFrom 0 cs

/-- The replacement done when `stripColors` is set. -/
def stripColorCodes (line : Str) : Str := stripFrom 0 line

/-- `line.match(/^:([^ ]+) +/)` together with
`line.replace(/^:[^ ]+ +/, '')`: the captured token and the line left after
the match, or `none` when the expression does not match. -/
def matchPrefix : Str → Option (Str × Str)
  | ':' :: rest =>
    let tok := rest.takeWhile (fun c => !isSpace c)
    let after := rest.dropWhile (fun c => !isSpace c)
    if !tok.isEmpty && !after.isEmpty then some (tok, after.dropWhile isSpace)
    else none
  | _ => none

/-- `p.match(/^([_a-zA-Z0-9\[\]\\BACKTICK^{}|-]*)(!([^@]+)@(.*))?$/)`: the
groups 1 (nick), 3 (user) and 4 (host) of the match, the last two `undefined`
when the optional group takes no part, or `none` when there is no match. -/
def matchNickUserHost (p : Str) : Option (Str × Option Str × Option Str) :=
  let nick := p.takeWhile isNickChar
  match p.dropWhile isNickChar with
  | [] => some (nick, none, none)
  | '!' :: r =>
    let user := r.takeWhile (fun c => c != '@')
    match r.dropWhile (fun c => c != '@') with
    | '@' :: host =>
      if !user.isEmpty && host.all (fun c => !isLineTerminator c)
      then some (nick, some user, some host) else none
    | _ => none
  | _ => none

/-- `line.match(/^([^ ]+) */)`: group 1, or `none` when the expression does not
match (the line is empty or starts with a space). -/
def matchCommand (line : Str) : Option Str :=
  let tok := line.takeWhile (fun c => !isSpace c)
  if tok.isEmpty then none else some tok

/-- `line.replace(/^[^ ]+ +/, '')`: the leading token is removed together with
the spaces after it when at least one space follows it; otherwise the line is
returned as it is. -/
def dropCommand (line : Str) : Str :=
  let tok := line.takeWhile (fun c => !isSpace c)
  let after := line.dropWhile (fun c => !isSpace c)
  if !tok.isEmpty && !after.isEmpty then after.dropWhile isSpace else line

/-- A row `{name, type}` of the command table `replyFor` (`require('./codes')`). -/
structure Reply where
  name : Str
  type : Str
  deriving DecidableEq, Repr

/-- The object returned by `parseMessage` (field `pfx` is `message.prefix`). -/
structure Message where
  pfx : Option Str
  nick : Option Str
  user : Option Str
  host : Option Str
  server : Option Str
  command : Str
  rawCommand : Str
  commandType : Str
  args : List Str
  deriving DecidableEq, Repr

/-- The parameter part of `parseMessage`: `line` is what is left of the line
after the command has been removed. -/
def parseArgs (line : Str) : List Str :=
  let middle : Str :=
    if line.contains ':' then stripTrailingSpaces (line.takeWhile (fun c => c != ':'))
    else line
  let trailing : Option Str :=
    if line.contains ':' then some ((line.dropWhile (fun c => c != ':')).drop 1)
    else none
  let args : List Str := if middle.isEmpty then [] else splitSpaces middle
  match trailing with
  | some t => if t.isEmpty then args else args ++ [t]
  | none => args

/-- `parseMessage(line, stripColors)`, over the command table `replyFor`.
The result is `none` when the source raises a `TypeError`, which it does at
`match[1]` when the command expression does not match. -/
def parseMessage (replyFor : Str → Option Reply) (line : Str) (stripColors : Bool) :
    Option Message :=
  let line := if stripColors then stripColorCodes line else line
  -- Parse prefix
  let pre : Option Str := (matchPrefix line).map Prod.fst
  let line := match matchPrefix line with
    | some (_, rest) => rest
    | none => line
  let who : Option (Str × Option Str × Option Str) := pre.bind matchNickUserHost
  -- Parse command
  match matchCommand line with
  | none => none
  | some raw =>
    let line := dropCommand line
    some
      { pfx := pre
        nick := who.map (fun w => w.1)
        user := who.bind (fun w => w.2.1)
        host := who.bind (fun w => w.2.2)
        server := match who with
          | some _ => none
          | none => pre
        command := match replyFor raw with
          | some r => r.name
          | none => raw
        rawCommand := raw
        commandType := match replyFor raw with
          | some r => r.type
          | none => "normal".toList
        args := parseArgs line }

/-- A command table with no rows, for examples in which the table plays no part. -/
def noReplies : Str → Option Reply := fun _ => none

/-! ## Dictionaries -/

/-- `k in obj` for a dictionary. -/
def hasKey {β : Type} (k : Str) : List (Str × β) → Bool
  | [] => false
  | (k', _) :: rest => k' == k || hasKey k rest

/-- The own property `k` of a dictionary, `none` when there is none. -/
def lookup {β : Type} (k : Str) : List (Str × β) → Option β
  | [] => none
  | (k', v) :: rest => if k' == k then some v else lookup k rest

/-- `obj[k] = v`: an existing property is overwritten in place, a new one is
added after the others. -/
def setKey {β : Type} (k : Str) (v : β) : List (Str × β) → List (Str × β)
  | [] => [(k, v)]
  | (k', v') :: rest => if k' == k then (k, v) :: rest else (k', v') :: setKey k v rest

/-- `delete obj[k]`. -/
def delKey {β : Type} (k : Str) : List (Str × β) → List (Str × β)
  | [] => []
  | (k', v') :: rest => if k' == k then rest else (k', v') :: delKey k rest

/-- The property name that a value used as a key is converted to: `undefined`
becomes the string `"undefined"`. -/
def keyOf (k : Option Str) : Str := k.getD "undefined".toList

/-- The names of the properties that an object `{}` inherits from
`Object.prototype`.  For such a name `obj[k]` is not `undefined` although the
object has no own property `k`. -/
def inheritedKey (k : Str) : Bool :=
  (["constructor", "toString", "toLocaleString", "valueOf", "hasOwnProperty",
    "isPrototypeOf", "propertyIsEnumerable", "__proto__", "__defineGetter__",
    "__defineSetter__", "__lookupGetter__", "__lookupSetter__"].map String.toList).contains k

/-- The mode-prefix tables `prefixForMode` and `modeForPrefix`: string keys, and
values that are strings or `undefined`. -/
abbrev Table := List (Str × Option Str)

/-- `table[k]` as a value: `undefined` when the key is missing. -/
def Table.get (t : Table) (k : Str) : Option Str := (lookup k t).join

/-! ## Whitespace -/

/-- The class `\s`, which is also what `trim()` removes: the WhiteSpace and
LineTerminator characters of ECMAScript. -/
def isWhiteSpace (c : Char) : Bool :=
  let n := c.toNat
  n == 0x09 || n == 0x0a || n == 0x0b || n == 0x0c || n == 0x0d || n == 0x20 ||
  n == 0xa0 || n == 0x1680 || (0x2000 ≤ n && n ≤ 0x200a) || n == 0x2028 ||
  n == 0x2029 || n == 0x202f || n == 0x205f || n == 0x3000 || n == 0xfeff

/-- `s.trim()`. -/
def trim (s : Str) : Str :=
  ((s.dropWhile isWhiteSpace).reverse.dropWhile isWhiteSpace).reverse

/-- `s.split(/\s+/)`. -/
def splitWhiteSpace (s : Str) : List Str := splitRuns isWhiteSpace s

/-! ## Client state -/

/-- The value stored under a key of a WHOIS record. -/
inductive Field where
  | undef
  | str (s : Str)
  | strs (l : List Str)
  deriving DecidableEq, Repr

/-- `undefined` or a string, as a field. -/
def Field.ofOpt : Option Str → Field
  | none => Field.undef
  | some s => Field.str s

/-- A WHOIS record under construction. -/
abbrev Record := List (Str × Field)

/-- The values carried by events. -/
inductive Val where
  | undef
  | null
  | str (s : Str)
  | msg (m : Message)
  | record (r : Record)
  | names (t : Table)
  | num (n : Nat)
  | records (l : List Record)
  /-- The exception caught by the line handler. -/
  | exception
  deriving DecidableEq, Repr

/-- `undefined` or a string, as a value. -/
def Val.ofOpt : Option Str → Val
  | none => Val.undef
  | some s => Val.str s

/-- The timers of a client. -/
inductive Timer where
  | heartbeat
  | ping
  | retry
  | flood
  deriving DecidableEq, Repr

/-- What the client does to the outside world. -/
inductive Effect where
  /-- `self.emit(name, args...)`. -/
  | emit (name : Str) (args : List Val)
  /-- `conn.write(data)`. -/
  | write (data : Str)
  /-- `conn.destroy()`. -/
  | destroy
  /-- `setInterval` or `setTimeout` with the given delay. -/
  | arm (t : Timer) (ms : Nat)
  /-- `clearTimeout`. -/
  | clear (t : Timer)
  /-- The callback passed to `disconnect` is invoked. -/
  | callback
  /-- A socket is created (`net.createConnection` or `tls.connect`). -/
  | socket
  deriving DecidableEq, Repr

/-- The part of the socket object `self.conn` that the client reads and sets. -/
structure Conn where
  requestedDisconnect : Bool
  readyState : Str
  deriving DecidableEq, Repr

/-- The object `self.opt`.  `nickMod` is the collision counter that the
dispatcher adds to it; it is a JavaScript number that only ever holds a count
of replies, and is embedded as a natural number. -/
structure Options where
  server : Str
  nick : Str
  password : Option Str
  userName : Str
  realName : Str
  cloakUser : Option Str
  cloakPasswd : Option Str
  ircvHost : Option Str
  port : Nat
  debug : Bool
  showErrors : Bool
  autoRejoin : Bool
  autoConnect : Bool
  retryCount : Option Nat
  retryDelay : Nat
  secure : Bool
  floodProtection : Bool
  floodProtectionDelay : Nat
  stripColors : Bool
  nickMod : Option Nat
  deriving DecidableEq, Repr

/-- The state of a `Client`.

* `heartbeatTimeout`, `pingTimeout`, `retryTimeout` say whether the field of
  that name holds a timer handle.
* `cmdQueue` is the queue of `activateFloodProtection`: `none` when flood
  protection has not been activated, in which case `self.send` is
  `Client.prototype.send`.
* `_whoisData` is `none` when the property is `undefined`.
* `trace` lists the effects so far, oldest first.
* `motd` and `channellist` are `none` when the property is `undefined`.
* `attempt` is the value of `retryCount` in the call of `connect` that created
  the current connection: the value that the `close` listener of that
  connection has captured.
* `retryArg` is the argument with which the pending retry timer will call
  `connect`. -/
structure Client where
  opt : Options
  nick : Option Str
  hostname : Option Str
  conn : Option Conn
  prefixForMode : Table
  modeForPrefix : Table
  _whoisData : Option (List (Str × Record))
  heartbeatTimeout : Bool
  pingTimeout : Bool
  retryTimeout : Bool
  cmdQueue : Option (List (Str × List Str))
  trace : List Effect
  motd : Option Str := none
  channellist : Option (List Record) := none
  attempt : Nat := 0
  retryArg : Nat := 0
  deriving DecidableEq, Repr

/-- The defaults of `self.opt` for `new Client(server, nick)`. -/
def Options.defaults (server nick : Str) : Options :=
  { server := server, nick := nick, password := none,
    userName := "nodebot".toList, realName := "nodeJS IRC client".toList,
    cloakUser := none, cloakPasswd := none, ircvHost := none, port := 6667,
    debug := false, showErrors := false, autoRejoin := true, autoConnect := true,
    retryCount := none, retryDelay := 10000, secure := false,
    floodProtection := false, floodProtectionDelay := 1000, stripColors := false,
    nickMod := none }

/-- A client as the source leaves it right after construction with
`autoConnect` off: no connection, empty mode-prefix tables (those of the
prototype), no `_whoisData` property (nothing in the source creates it), no
timer. -/
def Client.fresh (server nick : Str) : Client :=
  { opt := { Options.defaults server nick with autoConnect := false },
    nick := none, hostname := none, conn := none,
    prefixForMode := [], modeForPrefix := [], _whoisData := none,
    heartbeatTimeout := false, pingTimeout := false, retryTimeout := false,
    cmdQueue := none, trace := [] }

/-- The outcome of an operation on a client: it returns, or it raises an
exception; in both cases the state reached is given. -/
inductive Result where
  | ok (c : Client)
  | throw (c : Client)
  deriving DecidableEq, Repr

/-- The state reached. -/
def Result.state : Result → Client
  | Result.ok c => c
  | Result.throw c => c

/-- Sequencing: the next operation runs only if the previous one returned. -/
def Result.andThen (r : Result) (f : Client → Result) : Result :=
  match r with
  | Result.ok c => f c
  | Result.throw c => Result.throw c

/-- Sequencing of operations that may be outside the embedding (`none`): the
next operation runs only if the previous one is embedded and returned. -/
def andThenSome (r : Option Result) (f : Client → Option Result) : Option Result :=
  match r with
  | some (Result.ok c) => f c
  | some (Result.throw c) => some (Result.throw c)
  | none => none

/-- The effect `e` is recorded. -/
def Client.record (c : Client) (e : Effect) : Client :=
  { c with trace := c.trace ++ [e] }

/-- `self.emit(name, args...)`. -/
def Client.emit (c : Client) (name : Str) (args : List Val) : Client :=
  c.record (Effect.emit name args)

/-! ## The send pipeline -/

/-- `args[args.length-1] = ":" + args[args.length-1]` on a non-empty array. -/
def markLast : List Str → List Str
  | [] => []
  | [x] => [(':' :: x)]
  | x :: y :: rest => x :: markLast (y :: rest)

/-- The text `commandText` built by `Client.prototype.send` from its arguments
`command, rest...`: the last of all the arguments is marked with a colon, the
command is removed from the front, and the command, a space and the rest joined
by spaces are put together. -/
def commandText (command : Str) (rest : List Str) : Str :=
  command ++ " ".toList ++ join " ".toList ((markLast (command :: rest)).drop 1)

/-- `Client.prototype.send(command, rest...)`.  Reading
`this.conn.requestedDisconnect` raises when there is no connection. -/
def protoSend (c : Client) (command : Str) (rest : List Str) : Result :=
  match c.conn with
  | none => Result.throw c
  | some conn =>
    if !conn.requestedDisconnect then
      Result.ok (((c.emit "sendLine".toList [Val.str (commandText command rest)])).record
        (Effect.write (commandText command rest ++ "\r\n".toList)))
    else Result.ok c

/-- `self.send(command, rest...)`: the wrapper installed by
`activateFloodProtection`, which only queues the call, when flood protection is
active, and `Client.prototype.send` otherwise. -/
def send (c : Client) (command : Str) (rest : List Str) : Result :=
  match c.cmdQueue with
  | some q => Result.ok { c with cmdQueue := some (q ++ [(command, rest)]) }
  | none => protoSend c command rest

/-! ## Timers and `disconnect` -/

/-- `Client.prototype.stopHeartbeat`. -/
def stopHeartbeat (c : Client) : Client :=
  if c.heartbeatTimeout then
    { c.record (Effect.clear Timer.heartbeat) with heartbeatTimeout := false }
  else c

/-- `Client.prototype.startHeartbeat`. -/
def startHeartbeat (c : Client) : Client :=
  { (stopHeartbeat c).record (Effect.arm Timer.heartbeat 120000) with
    heartbeatTimeout := true }

/-- `Client.prototype.stopPingTimeout`. -/
def stopPingTimeout (c : Client) : Client :=
  if c.pingTimeout then
    { c.record (Effect.clear Timer.ping) with pingTimeout := false }
  else c

/-- The message used by `disconnect` when none is given. -/
def goodbye : Str := "node-irc says goodbye".toList

/-- `Client.prototype.disconnect(message, callback)`; `callback` says whether a
callback function is passed.  `message || "node-irc says goodbye"` replaces a
missing message and the empty string. -/
def disconnect (c : Client) (message : Option Str) (callback : Bool) : Result :=
  let c := stopHeartbeat c
  let c := if c.retryTimeout then
      { c.record (Effect.clear Timer.retry) with retryTimeout := false }
    else c
  match c.conn with
  | none => Result.ok (if callback then c.record Effect.callback else c)
  | some conn =>
    let c := { c with conn := some { conn with requestedDisconnect := true } }
    let message := match message with
      | some m => if m.isEmpty then goodbye else m
      | none => goodbye
    let r := if conn.readyState = "open".toList then send c "QUIT".toList [message]
      else Result.ok c
    r.andThen fun c =>
      let c := c.record Effect.destroy
      Result.ok (if callback then c.record Effect.callback else c)

/-! ## The raw-message dispatcher -/

/-- The `"001"` case. -/
def case001 (c : Client) (message : Message) : Result :=
  let c := { c with hostname := message.pfx }
  let c := { c with nick := message.args[0]? }
  let c := c.emit "registered".toList [Val.msg message]
  Result.ok (startHeartbeat c)

/-- The `"err_nicknameinuse"` case. -/
def caseNicknameInUse (c : Client) (_message : Message) : Result :=
  let nickMod := c.opt.nickMod.getD 0 + 1
  let c := { c with opt := { c.opt with nickMod := some nickMod } }
  (send c "NICK".toList [c.opt.nick ++ Nat.toDigits 10 nickMod]).andThen fun c =>
    Result.ok { c with nick := some (c.opt.nick ++ Nat.toDigits 10 nickMod) }

/-- The name of the event of a mode change. -/
def modeEvent (adding : Bool) : Str := if adding then "+mode".toList else "-mode".toList

/-- `mode.match(/^[bkl]$/)` for a one-character string. -/
def isBKL (mode : Char) : Bool := mode == 'b' || mode == 'k' || mode == 'l'

/-- The loop `modeList.forEach(...)` of the `"MODE"` case over the characters
still to be visited, with the variables `adding` and `modeArgs` it updates;
`message` is the message after `splice`. -/
def modeLoop (message : Message) : List Char → Bool → List Str → Client → Result
  | [], _, _, c => Result.ok c
  | mode :: rest, adding, modeArgs, c =>
    if mode == '+' then modeLoop message rest true modeArgs c
    else if mode == '-' then modeLoop message rest false modeArgs c
    else if hasKey [mode] c.prefixForMode then
      -- user modes
      modeLoop message rest adding (modeArgs.drop 1)
        (c.emit (modeEvent adding)
          [Val.ofOpt message.args[0]?, Val.ofOpt message.nick, Val.str [mode],
           Val.ofOpt modeArgs.head?, Val.msg message])
    else if isBKL mode then
      -- channel modes that take an argument
      match modeArgs with
      | [] => Result.throw c
      | a :: as =>
        modeLoop message rest adding as
          (c.emit (modeEvent adding)
            [Val.ofOpt message.args[0]?, Val.ofOpt message.nick, Val.str [mode],
             Val.ofOpt (if a.length = 0 then none else some a), Val.msg message])
    else
      modeLoop message rest adding modeArgs
        (c.emit (modeEvent adding)
          [Val.ofOpt message.args[0]?, Val.ofOpt message.nick, Val.str [mode],
           Val.undef, Val.msg message])

/-- The `"MODE"` case.  `message.args[1].split('')` raises when there is no
second argument; `message.args.splice(2)` leaves the first two arguments in the
message and returns the others. -/
def caseMode (c : Client) (message : Message) : Result :=
  match message.args[1]? with
  | none => Result.throw c
  | some flags =>
    modeLoop { message with args := message.args.take 2 } flags true
      (message.args.drop 2) c

/-- The pair `[nick, prefix]` computed for one entry of a names reply. -/
def namePair (modeForPrefix : Table) (user : Str) : Str × Option Str :=
  if hasKey (keyOf (user.head?.map fun ch => [ch])) modeForPrefix then
    (user.drop 1, modeForPrefix.get (keyOf (user.head?.map fun ch => [ch])))
  else (user, some [])

/-- `_.object(pairs)` of the underscore library: `result[key] = value` is done
on the object `{}` for every pair, in the order of the pairs.  The assignment
to the key `__proto__` of a value that is a string or `undefined`, as the
values of the pairs are here, leaves the object as it is: it creates no
property. -/
def object {β : Type} (pairs : List (Str × β)) : List (Str × β) :=
  pairs.foldl
    (fun acc p => if p.1 = "__proto__".toList then acc else setKey p.1 p.2 acc) []

/-- The `"rpl_namreply"` case.  `message.args[3].trim()` raises when there is no
fourth argument. -/
def caseNamReply (c : Client) (message : Message) : Result :=
  match message.args[3]? with
  | none => Result.throw c
  | some list =>
    Result.ok (c.emit "names".toList
      [Val.ofOpt message.args[2]?,
       Val.names (object ((splitSpaces (trim list)).map (namePair c.modeForPrefix))),
       Val.msg message])

/-- `Client.prototype._addWhoisData(nick, key, value, onlyIfExists)`.  Reading
`this._whoisData[nick]` raises when `_whoisData` is `undefined`, which it is on
every client that the constructor creates: nothing in the source assigns the
property.  When `_whoisData` is an object, `some data` lists its own
properties; for a nick that names a property inherited from `Object.prototype`
the function works on the inherited value, which is outside the embedding
(`none`). -/
def _addWhoisData (c : Client) (nick : Option Str) (key : Str) (value : Field)
    (onlyIfExists : Bool) : Option Result :=
  match c._whoisData with
  | none => some (Result.throw c)
  | some data =>
    if inheritedKey (keyOf nick) then none
    else if onlyIfExists && !hasKey (keyOf nick) data then some (Result.ok c)
    else
      some (Result.ok { c with _whoisData := some (setKey (keyOf nick)
        (setKey key value
          ((lookup (keyOf nick) data).getD [("nick".toList, Field.ofOpt nick)])) data) })

/-- `Client.prototype._clearWhoisData(nick)`: the outcome and the value
returned.  Reading `this._whoisData[nick]` raises when `_whoisData` is
`undefined`; the result is `none` for a nick that names an inherited property
of an object `_whoisData`, as in `_addWhoisData`. -/
def _clearWhoisData (c : Client) (nick : Option Str) : Option (Result × Option Record) :=
  match c._whoisData with
  | none => some (Result.throw c, none)
  | some data =>
    if inheritedKey (keyOf nick) then none
    else
      some (Result.ok { c with _whoisData := some (delKey (keyOf nick) data) },
        lookup (keyOf nick) data)

/-- The `"rpl_away"` case. -/
def caseAway (c : Client) (message : Message) : Option Result :=
  _addWhoisData c message.args[1]? "away".toList (Field.ofOpt message.args[2]?) true

/-- The `"rpl_whoisuser"` case. -/
def caseWhoisUser (c : Client) (message : Message) : Option Result :=
  andThenSome
    (_addWhoisData c message.args[1]? "user".toList (Field.ofOpt message.args[2]?) false)
    fun c =>
  andThenSome
    (_addWhoisData c message.args[1]? "host".toList (Field.ofOpt message.args[3]?) false)
    fun c =>
  _addWhoisData c message.args[1]? "realname".toList (Field.ofOpt message.args[5]?) false

/-- The `"rpl_whoisidle"` case. -/
def caseWhoisIdle (c : Client) (message : Message) : Option Result :=
  _addWhoisData c message.args[1]? "idle".toList (Field.ofOpt message.args[2]?) false

/-- The `"rpl_whoischannels"` case.  `message.args[2].trim()` raises when there
is no third argument. -/
def caseWhoisChannels (c : Client) (message : Message) : Option Result :=
  match message.args[2]? with
  | none => some (Result.throw c)
  | some list =>
    _addWhoisData c message.args[1]? "channels".toList
      (Field.strs (splitWhiteSpace (trim list))) false

/-- The `"rpl_whoisserver"` case. -/
def caseWhoisServer (c : Client) (message : Message) : Option Result :=
  andThenSome
    (_addWhoisData c message.args[1]? "server".toList (Field.ofOpt message.args[2]?) false)
    fun c =>
  _addWhoisData c message.args[1]? "serverinfo".toList (Field.ofOpt message.args[3]?) false

/-- The `"rpl_whoisoperator"` case. -/
def caseWhoisOperator (c : Client) (message : Message) : Option Result :=
  _addWhoisData c message.args[1]? "operator".toList (Field.ofOpt message.args[2]?) false

/-- The `"330"` case. -/
def case330 (c : Client) (message : Message) : Option Result :=
  andThenSome
    (_addWhoisData c message.args[1]? "account".toList (Field.ofOpt message.args[2]?) false)
    fun c =>
  _addWhoisData c message.args[1]? "accountinfo".toList (Field.ofOpt message.args[3]?) false

/-- The `"rpl_endofwhois"` case. -/
def caseEndOfWhois (c : Client) (message : Message) : Option Result :=
  (_clearWhoisData c message.args[1]?).map fun p =>
    p.1.andThen fun c =>
      Result.ok (c.emit "whois".toList
        [match p.2 with
         | some r => Val.record r
         | none => Val.undef])

/-! ### More string primitives -/

/-- The conversion of a value to a string in a concatenation:
`undefined` becomes the string `"undefined"`. -/
def strOf (v : Option Str) : Str := v.getD "undefined".toList

/-- `s.split(sep)` for a one-character string `sep`: the pieces between the
occurrences of the character, the empty ones included. -/
def splitChar (sep : Char) : Str → List Str
  | [] => [[]]
  | c :: cs =>
    if c == sep then [] :: splitChar sep cs
    else
      match splitChar sep cs with
      | [] => [[c]]
      | w :: ws => (c :: w) :: ws

/-- `s.split(/\r?\n/)`. -/
def splitLines : Str → List Str
  | [] => [[]]
  | '\r' :: '\n' :: cs => [] :: splitLines cs
  | '\n' :: cs => [] :: splitLines cs
  | c :: cs =>
    match splitLines cs with
    | [] => [[c]]
    | w :: ws => (c :: w) :: ws

/-- `s.toLowerCase()` for a string of ASCII characters; `none` for a string that
holds another character, for which the conversion is not embedded. -/
def toLowerCase (s : Str) : Option Str :=
  if s.all (fun ch => ch.toNat < 128) then some (s.map Char.toLower) else none

/-- `text[0] === '\1' && text.lastIndexOf('\1') > 0`: the text starts with the
delimiter U+0001 and holds the delimiter once more. -/
def isCTCP : Str → Bool
  | [] => false
  | ch :: rest => ch == '\x01' && rest.contains '\x01'

/-! ### The capabilities reply -/

/-- The part of `/PREFIX=\((.*?)\)(.*)/` after `PREFIX=(`, matched at the head
of `rest`: the groups 1 and 2.  Group 1 runs up to the first `)` and group 2 up
to the end of the string, and `.` matches no line terminator. -/
def matchModes (rest : Str) : Option (Str × Str) :=
  match rest.dropWhile (fun ch => ch != ')' && !isLineTerminator ch) with
  | ')' :: r =>
    some (rest.takeWhile (fun ch => ch != ')' && !isLineTerminator ch),
      r.takeWhile (fun ch => !isLineTerminator ch))
  | _ => none

/-- `arg.match(/PREFIX=\((.*?)\)(.*)/)`: the groups 1 and 2 of the leftmost
match, or `none` when there is no match. -/
def matchPrefixToken : Str → Option (Str × Str)
  | [] => none
  | c :: cs =>
    match (if "PREFIX=(".toList.isPrefixOf (c :: cs) then matchModes ((c :: cs).drop 8)
      else none) with
    | some m => some m
    | none => matchPrefixToken cs

/-- The loop `while ( match[1].length )` of the `"005"` case over the mode
letters and the symbols still to be paired; the state is the pair of
`prefixForMode` and `modeForPrefix`. -/
def pairModes : List Char → List Char → Table × Table → Table × Table
  | [], _, t => t
  | m :: ms, symbols, t =>
    pairModes ms (symbols.drop 1)
      (setKey [m] (symbols.head?.map fun ch => [ch]) t.1,
       setKey (keyOf (symbols.head?.map fun ch => [ch])) (some [m]) t.2)

/-- The body of `message.args.forEach` in the `"005"` case. -/
def learnPrefixToken (c : Client) (arg : Str) : Client :=
  match matchPrefixToken arg with
  | none => c
  | some (modes, symbols) =>
    { c with
      prefixForMode := (pairModes modes symbols (c.prefixForMode, c.modeForPrefix)).1
      modeForPrefix := (pairModes modes symbols (c.prefixForMode, c.modeForPrefix)).2 }

/-- The `"005"` case. -/
def case005 (c : Client) (message : Message) : Result :=
  Result.ok (message.args.foldl learnPrefixToken c)

/-! ### Sending messages -/

/-- `Client.prototype.notice(target, text)`. -/
def notice (c : Client) (target : Option Str) (text : Str) : Result :=
  send c "NOTICE".toList [strOf target, text]

/-- The loop of `Client.prototype.say` over the lines still to be sent. -/
def sayLines (target : Option Str) : List Str → Client → Result
  | [], c => Result.ok c
  | line :: lines, c =>
    (send c "PRIVMSG".toList [strOf target, line]).andThen fun c =>
      sayLines target lines
        (c.emit "selfMessage".toList [Val.ofOpt target, Val.str line])

/-- `Client.prototype.say(target, text)`. -/
def say (c : Client) (target : Option Str) (text : Option Str) : Result :=
  match text with
  | none => Result.ok c
  | some t => sayLines target ((splitLines t).filter fun line => !line.isEmpty) c

/-- `Client.prototype.ctcp(to, type, text)`; `dest` is `to`. -/
def ctcp (c : Client) (dest : Option Str) (type : Str) (text : Str) : Result :=
  if type = "privmsg".toList then say c dest (some ('\x01' :: (text ++ ['\x01'])))
  else notice c dest ('\x01' :: (text ++ ['\x01']))

/-- The text between the delimiters, as `_handleCTCP` computes it:
`text.slice(1)` and then `text.slice(0, text.indexOf('\1'))`, which drops the
last character when there is no delimiter left. -/
def ctcpText (text : Str) : Str :=
  if (text.drop 1).contains '\x01' then (text.drop 1).takeWhile (fun ch => ch != '\x01')
  else (text.drop 1).dropLast

/-- `Client.prototype._handleCTCP(from, to, text, type)`; `sender` is `from` and
`dest` is `to`. -/
def _handleCTCP (c : Client) (sender : Option Str) (dest : Val) (text : Str) (type : Str) :
    Result :=
  let text := ctcpText text
  let parts := splitChar ' ' text
  let c := c.emit "ctcp".toList [Val.ofOpt sender, dest, Val.str text, Val.str type]
  let c := c.emit ("ctcp-".toList ++ type) [Val.ofOpt sender, dest, Val.str text]
  let c := if type = "privmsg".toList ∧ text = "VERSION".toList then
      c.emit "ctcp-version".toList [Val.ofOpt sender, dest]
    else c
  let c := if parts.head? = some "ACTION".toList ∧ parts.length > 1 then
      c.emit "action".toList [Val.ofOpt sender, dest, Val.str (join [' '] (parts.drop 1))]
    else c
  if parts.head? = some "PING".toList ∧ type = "privmsg".toList ∧ parts.length > 1 then
    ctcp c sender "notice".toList text
  else Result.ok c

/-! ### The other cases of the dispatcher -/

/-- The `"PING"` case. -/
def casePing (c : Client) (message : Message) : Result :=
  send c "PONG".toList [strOf message.args[0]?]

/-- The `"NOTICE"` case.  `to` is replaced by `null` when it is missing or
empty; `text[0]` raises when there is no second argument. -/
def caseNotice (c : Client) (message : Message) : Result :=
  match message.args[1]? with
  | none => Result.throw c
  | some text =>
    if isCTCP text then
      _handleCTCP c message.nick
        (match message.args[0]? with
         | some t => if t.isEmpty then Val.null else Val.str t
         | none => Val.null)
        text "notice".toList
    else
      Result.ok (c.emit "notice".toList
        [Val.ofOpt message.nick,
         (match message.args[0]? with
          | some t => if t.isEmpty then Val.null else Val.str t
          | none => Val.null),
         Val.str text, Val.msg message])

/-- The `"NICK"` case.  A message without a nick is given the nick of the
client before it is used. -/
def caseNick (c : Client) (message : Message) : Result :=
  let message : Message :=
    match message.nick with
    | some _ => message
    | none => { message with nick := c.nick }
  if message.nick = c.nick then
    Result.ok ({ c with nick := message.args[0]? }.emit "selfNick".toList
      [Val.ofOpt message.nick, Val.ofOpt message.args[0]?, Val.msg message])
  else
    Result.ok (c.emit "nick".toList
      [Val.ofOpt message.nick, Val.ofOpt message.args[0]?, Val.msg message])

/-- The `"rpl_motdstart"` case. -/
def caseMotdStart (c : Client) (message : Message) : Result :=
  Result.ok { c with motd := some (strOf message.args[1]? ++ ['\n']) }

/-- The `"rpl_motd"` case. -/
def caseMotd (c : Client) (message : Message) : Result :=
  Result.ok { c with motd := some (strOf c.motd ++ (strOf message.args[1]? ++ ['\n'])) }

/-- The `"rpl_endofmotd"` and `"err_nomotd"` cases. -/
def caseEndOfMotd (c : Client) (message : Message) : Result :=
  Result.ok ({ c with motd := some (strOf c.motd ++ (strOf message.args[1]? ++ ['\n'])) }.emit
    "motd".toList [Val.str (strOf c.motd ++ (strOf message.args[1]? ++ ['\n']))])

/-- The `"rpl_endofnames"` case. -/
def caseEndOfNames (c : Client) (message : Message) : Result :=
  send (c.emit "end_of_names".toList [Val.ofOpt message.args[1]?, Val.msg message])
    "MODE".toList [strOf message.args[1]?]

/-- The `"rpl_topic"` case. -/
def caseTopicReply (c : Client) (message : Message) : Result :=
  Result.ok (c.emit "topic".toList
    [Val.ofOpt message.args[1]?, Val.ofOpt message.args[2]?, Val.null, Val.null])

/-- The `"rpl_notopic"` case. -/
def caseNoTopic (c : Client) (message : Message) : Result :=
  Result.ok (c.emit "topic".toList
    [Val.ofOpt message.args[1]?, Val.null, Val.null, Val.null])

/-- The `"rpl_liststart"` case. -/
def caseListStart (c : Client) (_message : Message) : Result :=
  Result.ok ({ c with channellist := some [] }.emit "channellist_start".toList [])

/-- The record `{name, users, topic}` of the `"rpl_list"` case. -/
def channelRecord (message : Message) : Record :=
  [("name".toList, Field.ofOpt message.args[1]?),
   ("users".toList, Field.ofOpt message.args[2]?),
   ("topic".toList, Field.ofOpt message.args[3]?)]

/-- The `"rpl_list"` case.  `self.channellist.push` raises, after the event, when
`channellist` is `undefined`. -/
def caseList (c : Client) (message : Message) : Result :=
  match c.channellist with
  | none =>
    Result.throw (c.emit "channellist_item".toList [Val.record (channelRecord message)])
  | some l =>
    Result.ok { c.emit "channellist_item".toList [Val.record (channelRecord message)] with
      channellist := some (l ++ [channelRecord message]) }

/-- The `"rpl_listend"` case. -/
def caseListEnd (c : Client) (_message : Message) : Result :=
  Result.ok (c.emit "channellist".toList
    [match c.channellist with
     | some l => Val.records l
     | none => Val.undef])

/-- The `"TOPIC"` case. -/
def caseTopic (c : Client) (message : Message) : Result :=
  Result.ok (c.emit "topic".toList
    [Val.ofOpt message.args[0]?, Val.ofOpt message.args[1]?, Val.ofOpt message.nick,
     Val.msg message])

/-- The `"rpl_channelmodeis"` case. -/
def caseChannelModeIs (c : Client) (message : Message) : Result :=
  Result.ok (c.emit "mode".toList
    [Val.ofOpt message.args[1]?, Val.ofOpt message.args[2]?, Val.msg message])

/-- The `"329"` case. -/
def case329 (c : Client) (message : Message) : Result :=
  Result.ok (c.emit "created".toList
    [Val.ofOpt message.args[1]?, Val.ofOpt message.args[2]?, Val.msg message])

/-- The channel-scoped events of the `"JOIN"`, `"PART"` and `"KICK"` cases:
`self.emit(name + channel, args...)` and then, when the channel differs from
its lower-case form, the same for that form.  `channel.toLowerCase()` raises
when there is no channel; the result is `none` when the conversion to lower
case is not embedded. -/
def emitScoped (c : Client) (name : Str) (channel : Option Str) (args : List Val) :
    Option Result :=
  match channel with
  | none => some (Result.throw (c.emit (name ++ strOf channel) args))
  | some ch =>
    (toLowerCase ch).map fun l =>
      Result.ok (if ch ≠ l then ((c.emit (name ++ ch) args).emit (name ++ l) args)
        else c.emit (name ++ ch) args)

/-- The `"JOIN"` case. -/
def caseJoin (c : Client) (message : Message) : Option Result :=
  emitScoped
    (c.emit "join".toList
      [Val.ofOpt message.args[0]?, Val.ofOpt message.nick, Val.msg message])
    "join".toList message.args[0]? [Val.ofOpt message.nick, Val.msg message]

/-- The `"PART"` case. -/
def casePart (c : Client) (message : Message) : Option Result :=
  emitScoped
    (c.emit "part".toList
      [Val.ofOpt message.args[0]?, Val.ofOpt message.nick, Val.ofOpt message.args[1]?,
       Val.msg message])
    "part".toList message.args[0]?
    [Val.ofOpt message.nick, Val.ofOpt message.args[1]?, Val.msg message]

/-- The `"KICK"` case. -/
def caseKick (c : Client) (message : Message) : Option Result :=
  emitScoped
    (c.emit "kick".toList
      [Val.ofOpt message.args[0]?, Val.ofOpt message.args[1]?, Val.ofOpt message.nick,
       Val.ofOpt message.args[2]?, Val.msg message])
    "kick".toList message.args[0]?
    [Val.ofOpt message.args[1]?, Val.ofOpt message.nick, Val.ofOpt message.args[2]?,
     Val.msg message]

/-- The `"KILL"` case. -/
def caseKill (c : Client) (message : Message) : Result :=
  Result.ok (c.emit "kill".toList
    [Val.ofOpt message.args[0]?, Val.ofOpt message.args[1]?, Val.msg message])

/-- `to.match(/^[&#]/)`. -/
def isChannelName : Str → Bool
  | [] => false
  | ch :: _ => ch == '&' || ch == '#'

/-- The sender `from` of the `"PRIVMSG"` case: the nick of the message, or
`message.server.split('!')[0]` when there is no nick; `none` when that raises
(the message has neither a nick nor a server). -/
def privmsgSender (message : Message) : Option Str :=
  match message.nick with
  | some n => some n
  | none => message.server.map fun s => s.takeWhile fun ch => ch != '!'

/-- The part of the `"PRIVMSG"` case that follows the CTCP test, for the sender
`sender`. -/
def plainPrivmsg (c : Client) (message : Message) (sender : Str) : Option Result :=
  match message.args[0]? with
  | none =>
    some (Result.throw (c.emit "message".toList
      [Val.str sender, Val.undef, Val.ofOpt message.args[1]?, Val.msg message]))
  | some dest =>
    (if isChannelName dest then
        (toLowerCase dest).map fun l =>
          if dest ≠ l then
            (((c.emit "message".toList
              [Val.str sender, Val.str dest, Val.ofOpt message.args[1]?, Val.msg message]).emit
              "message#".toList
              [Val.str sender, Val.str dest, Val.ofOpt message.args[1]?, Val.msg message]).emit
              ("message".toList ++ dest)
              [Val.str sender, Val.ofOpt message.args[1]?, Val.msg message]).emit
              ("message".toList ++ l)
              [Val.str sender, Val.ofOpt message.args[1]?, Val.msg message]
          else
            ((c.emit "message".toList
              [Val.str sender, Val.str dest, Val.ofOpt message.args[1]?, Val.msg message]).emit
              "message#".toList
              [Val.str sender, Val.str dest, Val.ofOpt message.args[1]?, Val.msg message]).emit
              ("message".toList ++ dest)
              [Val.str sender, Val.ofOpt message.args[1]?, Val.msg message]
      else
        some (c.emit "message".toList
          [Val.str sender, Val.str dest, Val.ofOpt message.args[1]?, Val.msg message])).map
      fun c =>
        Result.ok (if some dest = c.nick then
            c.emit "pm".toList [Val.str sender, Val.ofOpt message.args[1]?, Val.msg message]
          else c)

/-- The `"PRIVMSG"` case. -/
def casePrivmsg (c : Client) (message : Message) : Option Result :=
  match privmsgSender message with
  | none => some (Result.throw c)
  | some sender =>
    match message.args[1]? with
    | some text =>
      if isCTCP text then
        some (_handleCTCP c (some sender) (Val.ofOpt message.args[0]?) text "privmsg".toList)
      else plainPrivmsg c message sender
    | none => plainPrivmsg c message sender

/-- The `"INVITE"` case. -/
def caseInvite (c : Client) (message : Message) : Result :=
  Result.ok (c.emit "invite".toList
    [Val.ofOpt message.args[1]?, Val.ofOpt message.nick, Val.msg message])

/-- The `"QUIT"` case. -/
def caseQuit (c : Client) (message : Message) : Result :=
  if c.nick = message.nick then
    Result.ok (c.emit "selfQuit".toList [Val.ofOpt message.args[0]?])
  else
    Result.ok (c.emit "quit".toList
      [Val.ofOpt message.nick, Val.ofOpt message.args[0]?, Val.msg message])

/-- The `"ERROR"` case. -/
def caseError (c : Client) (message : Message) : Result :=
  Result.ok (c.emit "error".toList [Val.msg message])

/-- The `default` case. -/
def caseDefault (c : Client) (message : Message) : Result :=
  if message.commandType = "error".toList then
    Result.ok (c.emit "error".toList [Val.msg message])
  else Result.ok c

/-- The labels of the `switch` of the dispatcher. -/
def caseLabels : List Str :=
  ["001", "002", "003", "004", "005", "rpl_luserclient", "rpl_luserop",
   "rpl_luserchannels", "rpl_luserme", "rpl_localusers", "rpl_globalusers",
   "rpl_statsconn", "err_nicknameinuse", "PING", "PONG", "NOTICE", "MODE", "NICK",
   "rpl_motdstart", "rpl_motd", "rpl_endofmotd", "err_nomotd", "rpl_namreply",
   "rpl_endofnames", "rpl_topic", "rpl_notopic", "rpl_away", "rpl_whoisuser",
   "rpl_whoisidle", "rpl_whoischannels", "rpl_whoisserver", "rpl_whoisoperator", "330",
   "rpl_endofwhois", "rpl_liststart", "rpl_list", "rpl_listend", "333", "TOPIC",
   "rpl_channelmodeis", "329", "JOIN", "PART", "KICK", "KILL", "PRIVMSG", "INVITE",
   "QUIT", "ERROR", "err_umodeunknownflag"].map String.toList

/-- The listener of `"raw"` installed by the constructor: the `switch` on
`message.command`.  The result is `none` only where a case needs the lower-case
form of a channel name that is not embedded (see `toLowerCase`), or works on an
inherited property of the WHOIS dictionary (see `_addWhoisData`). -/
def rawListener (c : Client) (message : Message) : Option Result :=
  if message.command = "001".toList then some (case001 c message)
  else if message.command = "002".toList then some (Result.ok c)
  else if message.command = "003".toList then some (Result.ok c)
  else if message.command = "004".toList then some (Result.ok c)
  else if message.command = "005".toList then some (case005 c message)
  else if message.command = "rpl_luserclient".toList then some (Result.ok c)
  else if message.command = "rpl_luserop".toList then some (Result.ok c)
  else if message.command = "rpl_luserchannels".toList then some (Result.ok c)
  else if message.command = "rpl_luserme".toList then some (Result.ok c)
  else if message.command = "rpl_localusers".toList then some (Result.ok c)
  else if message.command = "rpl_globalusers".toList then some (Result.ok c)
  else if message.command = "rpl_statsconn".toList then some (Result.ok c)
  else if message.command = "err_nicknameinuse".toList then some (caseNicknameInUse c message)
  else if message.command = "PING".toList then some (casePing c message)
  else if message.command = "PONG".toList then some (Result.ok (stopPingTimeout c))
  else if message.command = "NOTICE".toList then some (caseNotice c message)
  else if message.command = "MODE".toList then some (caseMode c message)
  else if message.command = "NICK".toList then some (caseNick c message)
  else if message.command = "rpl_motdstart".toList then some (caseMotdStart c message)
  else if message.command = "rpl_motd".toList then some (caseMotd c message)
  else if message.command = "rpl_endofmotd".toList then some (caseEndOfMotd c message)
  else if message.command = "err_nomotd".toList then some (caseEndOfMotd c message)
  else if message.command = "rpl_namreply".toList then some (caseNamReply c message)
  else if message.command = "rpl_endofnames".toList then some (caseEndOfNames c message)
  else if message.command = "rpl_topic".toList then some (caseTopicReply c message)
  else if message.command = "rpl_notopic".toList then some (caseNoTopic c message)
  else if message.command = "rpl_away".toList then caseAway c message
  else if message.command = "rpl_whoisuser".toList then caseWhoisUser c message
  else if message.command = "rpl_whoisidle".toList then caseWhoisIdle c message
  else if message.command = "rpl_whoischannels".toList then caseWhoisChannels c message
  else if message.command = "rpl_whoisserver".toList then caseWhoisServer c message
  else if message.command = "rpl_whoisoperator".toList then caseWhoisOperator c message
  else if message.command = "330".toList then case330 c message
  else if message.command = "rpl_endofwhois".toList then caseEndOfWhois c message
  else if message.command = "rpl_liststart".toList then some (caseListStart c message)
  else if message.command = "rpl_list".toList then some (caseList c message)
  else if message.command = "rpl_listend".toList then some (caseListEnd c message)
  else if message.command = "333".toList then some (Result.ok c)
  else if message.command = "TOPIC".toList then some (caseTopic c message)
  else if message.command = "rpl_channelmodeis".toList then some (caseChannelModeIs c message)
  else if message.command = "329".toList then some (case329 c message)
  else if message.command = "JOIN".toList then caseJoin c message
  else if message.command = "PART".toList then casePart c message
  else if message.command = "KICK".toList then caseKick c message
  else if message.command = "KILL".toList then some (caseKill c message)
  else if message.command = "PRIVMSG".toList then casePrivmsg c message
  else if message.command = "INVITE".toList then some (caseInvite c message)
  else if message.command = "QUIT".toList then some (caseQuit c message)
  else if message.command = "ERROR".toList then some (caseError c message)
  else if message.command = "err_umodeunknownflag".toList then some (Result.ok c)
  else some (caseDefault c message)

/-- The messages of a sequence are dispatched one after the other, for as long
as the dispatch returns; the result is that of the first dispatch that raises
or is not embedded, if there is one. -/
def dispatchAll : Client → List Message → Option Result
  | c, [] => some (Result.ok c)
  | c, m :: ms =>
    match rawListener c m with
    | some (Result.ok c') => dispatchAll c' ms
    | r => r

/-! ## The connection lifecycle -/

/-- Whether an option holds a value that counts as true in a condition:
a string that is not empty. -/
def isSet (v : Option Str) : Bool :=
  match v with
  | some s => !s.isEmpty
  | none => false

/-- `Client.prototype.connect(retryCount)`, without the callback.  The call is
ignored while there is a connection that is not closed.  Otherwise
`connecting` is emitted, a socket is created, which reports `opening`, its
flag `requestedDisconnect` is set to `false`, and its listeners capture the
value of `retryCount || 0`. -/
def connect (c : Client) (retryCount : Option Nat) : Result :=
  if (match c.conn with
      | some conn => conn.readyState != "closed".toList
      | none => false) then Result.ok c
  else
    Result.ok
      { (c.emit "connecting".toList []).record Effect.socket with
        conn := some { requestedDisconnect := false, readyState := "opening".toList }
        attempt := retryCount.getD 0 }

/-- The handler of `line` installed by `finishConnecting`, over the command
table `replyFor`.  What `parseMessage` raises leaves the handler; what the
dispatch raises is caught, and is reported by an `error` event unless the
connection is flagged `requestedDisconnect`.  The result is `none` when the
dispatch is not embedded. -/
def onLine (replyFor : Str → Option Reply) (c : Client) (line : Str) : Option Result :=
  match parseMessage replyFor line c.opt.stripColors with
  | none => some (Result.throw (c.emit "recvLine".toList [Val.str line]))
  | some message =>
    match rawListener (c.emit "recvLine".toList [Val.str line]) message with
    | none => none
    | some (Result.ok c) => some (Result.ok c)
    | some (Result.throw c) =>
      match c.conn with
      | none => some (Result.throw c)
      | some conn =>
        if !conn.requestedDisconnect then
          some (Result.ok (c.emit "error".toList [Val.exception]))
        else some (Result.ok c)

/-- `Client.prototype.finishConnecting`, after the handler of `line` has been
installed. -/
def finishConnecting (c : Client) : Result :=
  (if isSet c.opt.password then send c "PASS".toList [strOf c.opt.password]
    else Result.ok c).andThen fun c =>
  (if isSet c.opt.cloakUser && isSet c.opt.cloakPasswd && isSet c.opt.ircvHost then
      send c "WEBIRC".toList
        [strOf c.opt.cloakUser, strOf c.opt.cloakPasswd, strOf c.opt.ircvHost,
         "127.0.0.1".toList]
    else Result.ok c).andThen fun c =>
  (send c "NICK".toList [c.opt.nick]).andThen fun c =>
  (send { c with nick := some c.opt.nick } "USER".toList
    [c.opt.userName, "8".toList, "*".toList, c.opt.realName]).andThen fun c =>
  Result.ok (c.emit "connect".toList [])

/-- The retry timer is armed by the listener of `close`: it will call `connect`
with the captured `retryCount` plus one. -/
def scheduleRetry (c : Client) : Client :=
  { c.record (Effect.arm Timer.retry c.opt.retryDelay) with
    retryTimeout := true
    retryArg := c.attempt + 1 }

/-- The listener of `close` installed by `connect`. -/
def closeListener (c : Client) : Result :=
  match c.conn with
  | none => Result.throw (c.emit "close".toList [])
  | some conn =>
    if conn.requestedDisconnect then Result.ok (c.emit "close".toList [])
    else
      match c.opt.retryCount with
      | some n =>
        if c.attempt ≥ n then
          Result.ok ((c.emit "close".toList []).emit "abort".toList [Val.num n])
        else Result.ok (scheduleRetry (c.emit "close".toList []))
      | none => Result.ok (scheduleRetry (c.emit "close".toList []))

/-- The transport closes: the socket reports `closed` and emits `close`. -/
def transportClose (c : Client) : Result :=
  closeListener
    { c with conn := c.conn.map fun conn => { conn with readyState := "closed".toList } }

/-- The function run by the retry timer. -/
def retryTimer (c : Client) : Result :=
  connect { c with retryTimeout := false } (some c.retryArg)

/-! ## Flood protection -/

/-- The function `dequeue` of `activateFloodProtection`, which the flood timer
runs at every tick: the oldest queued call, if there is one, is made on
`Client.prototype.send`. -/
def dequeue (c : Client) : Result :=
  match c.cmdQueue with
  | some (call :: queue) => protoSend { c with cmdQueue := some queue } call.1 call.2
  | _ => Result.ok c

/-- `Client.prototype.activateFloodProtection(interval)` on a client on which
flood protection has not been activated: the queue is created empty, `send`
becomes the wrapper that queues, the timer is armed with
`interval || this.opt.floodProtectionDelay`, and `dequeue` is called once.  The
result is `none` on a client on which flood protection is active already,
which is not embedded. -/
def activateFloodProtection (c : Client) (interval : Option Nat) : Option Result :=
  match c.cmdQueue with
  | some _ => none
  | none =>
    some (dequeue
      ({ c with cmdQueue := some [] }.record
        (Effect.arm Timer.flood
          (match interval with
           | some n => if n = 0 then c.opt.floodProtectionDelay else n
           | none => c.opt.floodProtectionDelay))))

/-- `new Client(server, nick, opt)`, for the options `opt` that result from the
defaults and the third argument.  `nickMod` is not an option that the
constructor copies. -/
def construct (opt : Options) : Option Result :=
  let c : Client :=
    { opt := { opt with nickMod := none }, nick := none, hostname := none, conn := none,
      prefixForMode := [], modeForPrefix := [], _whoisData := none,
      heartbeatTimeout := false, pingTimeout := false, retryTimeout := false,
      cmdQueue := none, trace := [] }
  (if opt.floodProtection then activateFloodProtection c none
    else some (Result.ok c)).map fun r =>
    r.andThen fun c => if opt.autoConnect then connect c none else Result.ok c

/-- What a client with flood protection does at a step of a run: a call of
`send`, or a tick of the flood timer. -/
inductive FloodAction where
  | send (command : Str) (rest : List Str)
  | tick
  deriving DecidableEq, Repr

/-- One step of a run. -/
def floodStep (c : Client) : FloodAction → Result
  | FloodAction.send command rest => send c command rest
  | FloodAction.tick => dequeue c

/-- A run: the steps are taken one after the other for as long as they return. -/
def floodRun : Client → List FloodAction → Result
  | c, [] => Result.ok c
  | c, a :: rest => (floodStep c a).andThen fun c => floodRun c rest

/-! ## The heartbeat and the ping timeout -/

/-- `Client.prototype.startPingTimeout`. -/
def startPingTimeout (c : Client) : Client :=
  { (stopPingTimeout c).record (Effect.arm Timer.ping 30000) with pingTimeout := true }

/-- The function that `startHeartbeat` passes to `setInterval`:
`self.send('PING ' + self.hostname)`, a call with the command as its only
argument, and then `self.startPingTimeout()`. -/
def heartbeat (c : Client) : Result :=
  (send c ("PING ".toList ++ strOf c.hostname) []).andThen fun c =>
    Result.ok (startPingTimeout c)

/-- The function that `startPingTimeout` passes to `setTimeout`.
`self.conn.destroy()` raises when there is no connection. -/
def pingTimeoutExpired (c : Client) : Result :=
  let c := { c with pingTimeout := false }
  let c := c.emit "netError".toList [Val.str "ping timeout, reconnecting".toList]
  match c.conn with
  | none => Result.throw c
  | some _ => Result.ok (c.record Effect.destroy)

/-! ## Notions used in the statements -/

/-- A word: a non-empty string without a space and without a colon. -/
def IsWord (w : Str) : Prop := w ≠ [] ∧ ' ' ∉ w ∧ ':' ∉ w

instance (w : Str) : Decidable (IsWord w) :=
  inferInstanceAs (Decidable (w ≠ [] ∧ ' ' ∉ w ∧ ':' ∉ w))

/-! ## Clients used in examples -/

/-- A client with an open connection that is not flagged, without flood
protection, configured with the nick `base`, and with an empty object as its
WHOIS dictionary. -/
def openClient : Client :=
  { Client.fresh "irc.example.com".toList "base".toList with
    conn := some { requestedDisconnect := false, readyState := "open".toList }
    _whoisData := some [] }

/-- The client `openClient` after `disconnect` has flagged its connection. -/
def flaggedClient : Client :=
  { openClient with conn := some { requestedDisconnect := true, readyState := "open".toList } }

/-- The client `openClient` with flood protection activated and an empty queue. -/
def floodClient : Client :=
  { openClient with cmdQueue := some [] }

/-- The tokens of a string for a class `p` of separators: the maximal runs of
characters outside the class, in order. -/
def tokens (p : Char → Bool) : Str → List Str
  | [] => []
  | c :: cs =>
    if p c then tokens p cs
    else
      match cs with
      | [] => [[c]]
      | d :: _ =>
        if p d then [c] :: tokens p cs
        else
          match tokens p cs with
          | [] => [[c]]
          | w :: ws => (c :: w) :: ws

/-- The nick that an entry `t` of a names reply stands for: `t` without its
first character when that character is a key of the table, `t` otherwise. -/
def nickOfToken (modeForPrefix : Table) : Str → Str
  | [] => []
  | ch :: r => if hasKey [ch] modeForPrefix then r else ch :: r

/-- The mode that an entry `t` of a names reply carries: what the table holds for
its first character when that character is a key of the table, the empty
string otherwise. -/
def modeOfToken (modeForPrefix : Table) : Str → Option Str
  | [] => some []
  | ch :: _ => if hasKey [ch] modeForPrefix then modeForPrefix.get [ch] else some []

/-- A message from the server `irc.example.com`. -/
def serverMessage (command : Str) (args : List Str) : Message :=
  { pfx := some "irc.example.com".toList, nick := none, user := none, host := none,
    server := some "irc.example.com".toList, command := command, rawCommand := command,
    commandType := "reply".toList, args := args }

/-- A message from the user `op!u@h`. -/
def userMessage (command : Str) (args : List Str) : Message :=
  { pfx := some "op!u@h".toList, nick := some "op".toList, user := some "u".toList,
    host := some "h".toList, server := none, command := command, rawCommand := command,
    commandType := "normal".toList, args := args }

/-- The client `openClient` after the server has announced `PREFIX=(ov)@+`. -/
def namesClient : Client :=
  { openClient with
    modeForPrefix := [("@".toList, some "o".toList), ("+".toList, some "v".toList)]
    prefixForMode := [("o".toList, some "@".toList), ("v".toList, some "+".toList)] }

/-- The sign characters of a mode string. -/
def isSign (ch : Char) : Bool := ch == '+' || ch == '-'

/-- The letters that take a mode argument: the keys of `prefixForMode` and the
letters `b`, `k` and `l`. -/
def takesArg (prefixForMode : Table) (ch : Char) : Bool :=
  hasKey [ch] prefixForMode || isBKL ch

/-- Whether modes are being added after the characters `pre` of a mode string:
they are, unless the last sign character of `pre` is `-`. -/
def addingAfter (pre : List Char) : Bool :=
  (pre.filter isSign).getLast? != some '-'

/-- How many mode arguments the characters `pre` of a mode string consume: one
for each letter that takes an argument. -/
def argsUsed (prefixForMode : Table) (pre : List Char) : Nat :=
  (pre.filter (fun ch => !isSign ch && takesArg prefixForMode ch)).length

/-- The event for the letter `ch` at position `i` of the mode string `flags`,
for the mode arguments `modeArgs`; `message` is the message carried. -/
def modeEventAt (prefixForMode : Table) (message : Message) (flags : List Char)
    (modeArgs : List Str) (i : Nat) (ch : Char) : Effect :=
  Effect.emit (if addingAfter (flags.take i) then "+mode".toList else "-mode".toList)
    [Val.ofOpt message.args[0]?, Val.ofOpt message.nick, Val.str [ch],
     (if hasKey [ch] prefixForMode then
        Val.ofOpt modeArgs[argsUsed prefixForMode (flags.take i)]?
      else if isBKL ch then
        match modeArgs[argsUsed prefixForMode (flags.take i)]? with
        | some a => if a = [] then Val.undef else Val.str a
        | none => Val.undef
      else Val.undef),
     Val.msg message]

/-- The events for the positions `n`, `n + 1`, ... of the mode string `flags`,
which hold the characters `rest`: one for each character that is not a sign. -/
def modeEventsFrom (prefixForMode : Table) (message : Message) (flags : List Char)
    (modeArgs : List Str) (n : Nat) (rest : List Char) : List Effect :=
  ((rest.enumFrom n).filter (fun p => !isSign p.2)).map
    (fun p => modeEventAt prefixForMode message flags modeArgs p.1 p.2)


/-! ## More notions used in the statements -/

/-- The data written to the socket, in order, among the effects of a trace. -/
def writes : List Effect → List Str
  | [] => []
  | Effect.write data :: rest => data :: writes rest
  | _ :: rest => writes rest

/-- The effects of a wire line that goes out: the `sendLine` event with the text
and the write of the text followed by CR LF. -/
def wire (text : Str) : List Effect :=
  [Effect.emit "sendLine".toList [Val.str text], Effect.write (text ++ ['\r', '\n'])]

/-- What is written for a call `send(command, rest...)`: the wire text followed
by CR LF. -/
def lineOf (call : Str × List Str) : Str := commandText call.1 call.2 ++ ['\r', '\n']

/-- The lines passed to `send` in a run, in the order of the calls. -/
def sentLines : List FloodAction → List Str
  | [] => []
  | FloodAction.send command rest :: acts => lineOf (command, rest) :: sentLines acts
  | FloodAction.tick :: acts => sentLines acts

/-- The retry timer fires, if it is armed. -/
def retryFire (c : Client) : Result :=
  if c.retryTimeout then retryTimer c else Result.ok c

/-- A connection attempt ends: the transport closes and then the retry timer
fires, if the listener of `close` has armed it. -/
def retryCycle (c : Client) : Result :=
  (transportClose c).andThen retryFire

/-- A run of `k` connection attempts that end one after the other. -/
def retryCycles : Nat → Client → Result
  | 0, c => Result.ok c
  | k + 1, c => (retryCycle c).andThen (retryCycles k)

/-- The effects of one connection attempt that ends and is retried after the
delay `ms`: `close`, the retry timer armed, `connecting`, a new socket. -/
def cycleTrace (ms : Nat) : List Effect :=
  [Effect.emit "close".toList [], Effect.arm Timer.retry ms,
   Effect.emit "connecting".toList [], Effect.socket]

/-- An error reply from the server `irc.example.com`. -/
def errorReply (command : Str) (args : List Str) : Message :=
  { serverMessage command args with commandType := "error".toList }

/-- The options of `new Client(server, nick, opt)` when `opt` sets
`floodProtection: true` and `floodProtectionDelay: 1000`. -/
def floodOptions : Options :=
  { Options.defaults "irc.example.com".toList "base".toList with
    floodProtection := true, floodProtectionDelay := 1000 }

/-- The names of the events emitted, in order, among the effects of a trace. -/
def eventNames : List Effect → List Str
  | [] => []
  | Effect.emit name _ :: rest => name :: eventNames rest
  | _ :: rest => eventNames rest

/-- The heartbeat interval fires, if it is armed. -/
def heartbeatFire (c : Client) : Result :=
  if c.heartbeatTimeout then heartbeat c else Result.ok c

/-- The ping timeout fires, if it is armed. -/
def pingFire (c : Client) : Result :=
  if c.pingTimeout then pingTimeoutExpired c else Result.ok c

/-- The client `openClient` after the welcome of `irc.example.com` and a
heartbeat that has not been answered yet: the heartbeat interval and the ping
timeout are armed. -/
def pingedClient : Client :=
  { openClient with
    hostname := some "irc.example.com".toList
    nick := some "base".toList
    heartbeatTimeout := true
    pingTimeout := true }

/-- The grammar of a prefix, as the expression of `parseMessage` has it: `p` is
`nick`, or `nick!user@host`, where `nick` is a possibly empty string of nick
characters, `user` is not empty and holds no `@`, and `host` holds no line
terminator.  `user` and `host` are `none` in the first form. -/
def FitsGrammar (p nick : Str) (user host : Option Str) : Prop :=
  (∀ ch ∈ nick, isNickChar ch = true) ∧
  ((user = none ∧ host = none ∧ p = nick) ∨
   (∃ u h, user = some u ∧ host = some h ∧ u ≠ [] ∧ '@' ∉ u ∧
     (∀ ch ∈ h, isLineTerminator ch = false) ∧ p = nick ++ '!' :: (u ++ '@' :: h)))

/-- The line that `parseMessage` takes apart: the line it is given, after the
removal of the colour codes when `stripColors` is set. -/
def parsedLine (line : Str) (stripColors : Bool) : Str :=
  if stripColors then stripColorCodes line else line

/-- Up to `n` digits are dropped from the head of a string. -/
def dropDigits : Nat → Str → Str
  | n + 1, c :: cs => if isDigit c then dropDigits n cs else c :: cs
  | _, s => s

/-- What follows the colour character in a colour sequence is dropped from the
head of a string: up to two digits, and then, if a comma follows, the comma and
up to two digits. -/
def dropColourArgs (s : Str) : Str :=
  match dropDigits 2 s with
  | ',' :: r => dropDigits 2 r
  | r => r

/-- The line without its formatting, in the words of the amended claim C23:
each of the characters `\x02`, `\x1f`, `\x16` and `\x0f` is removed, each colour
sequence (the colour character `\x03`, up to two digits, and optionally a comma
followed by up to two digits) is removed, and every other character is kept. -/
def clean : Str → Str
  | [] => []
  | c :: cs =>
    if isFormatChar c then clean cs
    else if c == '\x03' then clean (dropColourArgs cs)
    else c :: clean cs
termination_by s => s.length
decreasing_by
  all_goals simp_wf
  · have h : ∀ (n : Nat) (s : Str), (dropDigits n s).length ≤ s.length := by
      intro n
      induction n with
      | zero => intro s; simp [dropDigits]
      | succ n ih =>
        intro s
        cases s with
        | nil => simp [dropDigits]
        | cons x xs =>
          simp only [dropDigits]
          split
          · exact Nat.le_succ_of_le (ih xs)
          · exact Nat.le_refl _
    have h2 : (dropColourArgs cs).length ≤ cs.length := by
      unfold dropColourArgs
      split
      · rename_i r heq
        have h3 := h 2 cs
        rw [heq] at h3
        have h4 := h 2 r
        simp only [List.length_cons] at h3
        omega
      · exact h 2 cs
    omega

/-! # Theorems -/

/-! ## Lemmas on lists of characters -/

theorem takeWhile_append_stop (p : Char → Bool) (w r : Str) (d : Char)
    (hw : ∀ c ∈ w, p c = true) (hd : p d = false) :
    (w ++ d :: r).takeWhile p = w := by
  induction w with
  | nil => simp [List.takeWhile, hd]
  | cons x xs ih =>
    have hx := hw x (by simp)
    have := ih (fun c hc => hw c (by simp [hc]))
    simp [List.takeWhile_cons, hx, this]

theorem dropWhile_append_stop (p : Char → Bool) (w r : Str) (d : Char)
    (hw : ∀ c ∈ w, p c = true) (hd : p d = false) :
    (w ++ d :: r).dropWhile p = d :: r := by
  induction w with
  | nil => simp [List.dropWhile, hd]
  | cons x xs ih =>
    have hx := hw x (by simp)
    have := ih (fun c hc => hw c (by simp [hc]))
    simp [List.dropWhile_cons, hx, this]

theorem takeWhile_all (p : Char → Bool) (w : Str) (hw : ∀ c ∈ w, p c = true) :
    w.takeWhile p = w := by
  induction w with
  | nil => rfl
  | cons x xs ih =>
    have hx := hw x (by simp)
    have := ih (fun c hc => hw c (by simp [hc]))
    simp [List.takeWhile_cons, hx, this]

theorem dropWhile_all (p : Char → Bool) (w : Str) (hw : ∀ c ∈ w, p c = true) :
    w.dropWhile p = [] := by
  induction w with
  | nil => rfl
  | cons x xs ih =>
    have hx := hw x (by simp)
    have := ih (fun c hc => hw c (by simp [hc]))
    simp [List.dropWhile_cons, hx, this]

theorem dropWhile_stop (p : Char → Bool) (w : Str) (hne : w ≠ [])
    (hw : ∀ c ∈ w, p c = false) (r : Str) : (w ++ r).dropWhile p = w ++ r := by
  cases w with
  | nil => exact absurd rfl hne
  | cons x xs => simp [List.dropWhile_cons, hw x (by simp)]

theorem splitRuns_cons (p : Char → Bool) (c : Char) (cs : Str) :
    splitRuns p (c :: cs) =
      if p c then
        match cs with
        | [] => [[], []]
        | d :: _ => if p d then splitRuns p cs else [] :: splitRuns p cs
      else
        match splitRuns p cs with
        | [] => [[c]]
        | w :: ws => (c :: w) :: ws := by
  cases cs <;> rfl

theorem splitRuns_ne_nil (p : Char → Bool) (s : Str) : splitRuns p s ≠ [] := by
  induction s with
  | nil => simp [splitRuns]
  | cons c cs ih =>
    rw [splitRuns_cons]
    split
    · split
      · simp
      · split
        · exact ih
        · simp
    · split <;> simp

theorem splitRuns_word (p : Char → Bool) (w : Str) (hw : ∀ c ∈ w, p c = false) :
    splitRuns p w = [w] := by
  induction w with
  | nil => rfl
  | cons x xs ih =>
    have hx := hw x (by simp)
    rw [splitRuns_cons]
    simp [hx, ih (fun c hc => hw c (by simp [hc]))]

theorem splitRuns_word_sep (p : Char → Bool) (w r : Str) (d e : Char)
    (hw : ∀ c ∈ w, p c = false) (hd : p d = true) (he : p e = false) :
    splitRuns p (w ++ d :: e :: r) = w :: splitRuns p (e :: r) := by
  induction w with
  | nil =>
    rw [List.nil_append, splitRuns_cons]
    simp [hd, he]
  | cons x xs ih =>
    have hx := hw x (by simp)
    rw [List.cons_append, splitRuns_cons]
    simp [hx, ih (fun c hc => hw c (by simp [hc]))]

theorem isSpace_false_of_not_mem {w : Str} (h : ' ' ∉ w) : ∀ c ∈ w, isSpace c = false := by
  intro c hc
  simp only [isSpace, beq_eq_false_iff_ne, ne_eq]
  rintro rfl
  exact h hc

theorem join_snoc (sep x : Str) (ws : List Str) (hne : ws ≠ []) :
    join sep (ws ++ [x]) = join sep ws ++ sep ++ x := by
  induction ws with
  | nil => exact absurd rfl hne
  | cons w rest ih =>
    cases rest with
    | nil => simp [join]
    | cons y rest => 
      have := ih (by simp)
      simp only [List.cons_append] at this ⊢
      simp [join, this]

theorem join_words_head (w : Str) (rest : List Str) (hw : IsWord w) :
    ∃ e r, join [' '] (w :: rest) = e :: r ∧ isSpace e = false := by
  obtain ⟨hne, hsp, _⟩ := hw
  cases w with
  | nil => exact absurd rfl hne
  | cons e r =>
    have he : isSpace e = false := isSpace_false_of_not_mem hsp e (by simp)
    cases rest with
    | nil => exact ⟨e, r, rfl, he⟩
    | cons y ys => exact ⟨e, r ++ [' '] ++ join [' '] (y :: ys), by simp [join], he⟩

theorem splitSpaces_join (ws : List Str) (hne : ws ≠ []) (hws : ∀ w ∈ ws, IsWord w) :
    splitSpaces (join [' '] ws) = ws := by
  induction ws with
  | nil => exact absurd rfl hne
  | cons w rest ih =>
    have hw := hws w (by simp)
    cases rest with
    | nil => exact splitRuns_word _ _ (isSpace_false_of_not_mem hw.2.1)
    | cons y ys =>
      obtain ⟨e, r, hj, he⟩ := join_words_head y ys (hws y (by simp))
      have ih' := ih (by simp) (fun v hv => hws v (by simp [hv]))
      unfold splitSpaces at ih' ⊢
      have : join [' '] (w :: y :: ys) = w ++ ' ' :: e :: r := by
        simp [join, ← hj]
      rw [this, splitRuns_word_sep _ _ _ _ _ (isSpace_false_of_not_mem hw.2.1) (by rfl) he,
        ← hj, ih']

theorem join_words_not_colon (ws : List Str) (hws : ∀ w ∈ ws, IsWord w) :
    ∀ c ∈ join [' '] ws, (c != ':') = true := by
  induction ws with
  | nil => simp [join]
  | cons w rest ih =>
    have hw := hws w (by simp)
    have hwc : ∀ c ∈ w, (c != ':') = true := by
      intro c hc
      simp only [bne_iff_ne, ne_eq]
      rintro rfl
      exact hw.2.2 hc
    cases rest with
    | nil => simpa [join] using hwc
    | cons y ys =>
      have ih' := ih (fun v hv => hws v (by simp [hv]))
      intro c hc
      simp only [join, List.mem_append, List.mem_singleton] at hc
      rcases hc with (hc | hc) | hc
      · exact hwc c hc
      · subst hc; decide
      · exact ih' c hc

theorem join_words_last (ws : List Str) (hne : ws ≠ []) (hws : ∀ w ∈ ws, IsWord w) :
    ∃ s w, join [' '] ws = s ++ w ∧ w ≠ [] ∧ ' ' ∉ w := by
  induction ws with
  | nil => exact absurd rfl hne
  | cons x rest ih =>
    have hx := hws x (by simp)
    cases rest with
    | nil => exact ⟨[], x, by simp [join], hx.1, hx.2.1⟩
    | cons y ys =>
      obtain ⟨s, w, hj, h1, h2⟩ := ih (by simp) (fun v hv => hws v (by simp [hv]))
      exact ⟨x ++ [' '] ++ s, w, by simp [join, hj], h1, h2⟩

theorem stripTrailingSpaces_word (s w : Str) (hne : w ≠ []) (hsp : ' ' ∉ w) :
    stripTrailingSpaces (s ++ w ++ [' ']) = s ++ w := by
  unfold stripTrailingSpaces
  have h1 : (s ++ w ++ [' ']).reverse = ' ' :: (w.reverse ++ s.reverse) := by simp
  rw [h1, List.dropWhile_cons]
  have h2 : isSpace ' ' = true := rfl
  simp only [h2, if_true]
  rw [dropWhile_stop isSpace w.reverse (by simpa using hne)
    (fun c hc => isSpace_false_of_not_mem hsp c (by simpa using hc))]
  simp

/-- The parameters of a framed line are read back: words separated by single
spaces and followed by a non-empty trailing parameter after ` :`. -/
theorem parseArgs_framed (ws : List Str) (trailing : Str) (hws : ∀ w ∈ ws, IsWord w)
    (ht : trailing ≠ []) :
    parseArgs (join [' '] (ws ++ [(':' :: trailing)])) = ws ++ [trailing] := by
  cases ws with
  | nil =>
    cases trailing with
    | nil => exact absurd rfl ht
    | cons t ts => simp [join, parseArgs, stripTrailingSpaces]
  | cons x rest =>
    rw [join_snoc _ _ _ (by simp)]
    have hcol := join_words_not_colon (x :: rest) hws
    obtain ⟨s, w, hj, h1, h2⟩ := join_words_last (x :: rest) (by simp) hws
    have hsplit := splitSpaces_join (x :: rest) (by simp) hws
    generalize join [' '] (x :: rest) = J at hcol hj hsplit
    have hJne : J ≠ [] := by
      rw [hj]
      simp [h1]
    have hline : J ++ [' '] ++ ':' :: trailing = (J ++ [' ']) ++ ':' :: trailing := by simp
    have hpre : ∀ c ∈ J ++ [' '], (c != ':') = true := by
      intro c hc
      rcases List.mem_append.1 hc with hc | hc
      · exact hcol c hc
      · simp only [List.mem_singleton] at hc
        subst hc
        decide
    have htake := takeWhile_append_stop (fun c => c != ':') (J ++ [' ']) trailing ':' hpre
      (by decide)
    have hdrop := dropWhile_append_stop (fun c => c != ':') (J ++ [' ']) trailing ':' hpre
      (by decide)
    have hcont : (J ++ [' '] ++ ':' :: trailing).contains ':' = true := by
      simp
    have hstrip : stripTrailingSpaces (J ++ [' ']) = J := by
      rw [hj]
      simpa using stripTrailingSpaces_word s w h1 h2
    have hemp : J.isEmpty = false := by
      cases J with
      | nil => exact absurd rfl hJne
      | cons _ _ => rfl
    have hemp2 : trailing.isEmpty = false := by
      cases trailing with
      | nil => exact absurd rfl ht
      | cons _ _ => rfl
    unfold parseArgs
    simp only [hcont, if_true]
    rw [hline, htake, hdrop, hstrip]
    simp [hemp, hemp2, hsplit]


/-- The message built by `parseMessage` for a line with the prefix `p`. -/
theorem parseMessage_prefixed (replyFor : Str → Option Reply) (line p rest raw : Str)
    (hpre : matchPrefix line = some (p, rest)) (hmc : matchCommand rest = some raw) :
    parseMessage replyFor line false = some
      { pfx := some p
        nick := (matchNickUserHost p).map (fun w => w.1)
        user := (matchNickUserHost p).bind (fun w => w.2.1)
        host := (matchNickUserHost p).bind (fun w => w.2.2)
        server := match matchNickUserHost p with
          | some _ => none
          | none => some p
        command := match replyFor raw with
          | some r => r.name
          | none => raw
        rawCommand := raw
        commandType := match replyFor raw with
          | some r => r.type
          | none => "normal".toList
        args := parseArgs (dropCommand rest) } := by
  unfold parseMessage
  simp only [Bool.false_eq_true, if_false, hpre, hmc, Option.map_some', Option.some_bind]

/-- The message built by `parseMessage` for a line without a prefix. -/
theorem parseMessage_unprefixed (replyFor : Str → Option Reply) (line raw : Str)
    (hpre : matchPrefix line = none) (hmc : matchCommand line = some raw) :
    parseMessage replyFor line false = some
      { pfx := none, nick := none, user := none, host := none, server := none
        command := match replyFor raw with
          | some r => r.name
          | none => raw
        rawCommand := raw
        commandType := match replyFor raw with
          | some r => r.type
          | none => "normal".toList
        args := parseArgs (dropCommand line) } := by
  unfold parseMessage
  simp only [Bool.false_eq_true, if_false, hpre, hmc, Option.map_none', Option.none_bind]

/-- Claim C1, as amended.  A line `:nick!user@host COMMAND a b :trailing` is
parsed into its parts: the prefix is `nick!user@host`, the nick, the user and
the host are its three components, there is no server, the raw command is
`COMMAND` and the arguments are `a`, `b` and the whole trailing text.  The nick
is made of nick characters; the user is not empty and holds neither `@` nor a
space; the host holds neither a space nor a line terminator (the characters
that `.` does not match); the command is not empty and holds no space; `a` and
`b` are words; the trailing text is not empty. -/
theorem parseMessage_full_line (replyFor : Str → Option Reply)
    (nick user host cmd a b trailing : Str)
    (hnick : ∀ c ∈ nick, isNickChar c = true)
    (huser : user ≠ [] ∧ '@' ∉ user ∧ ' ' ∉ user)
    (hhost : ' ' ∉ host ∧ ∀ c ∈ host, isLineTerminator c = false)
    (hcmd : cmd ≠ [] ∧ ' ' ∉ cmd)
    (ha : IsWord a) (hb : IsWord b) (ht : trailing ≠ []) :
    ∃ m, parseMessage replyFor
        (':' :: (nick ++ '!' :: (user ++ '@' :: (host ++ ' ' :: (cmd ++ ' ' ::
          (a ++ ' ' :: (b ++ ' ' :: ':' :: trailing))))))) false = some m ∧
      m.pfx = some (nick ++ '!' :: (user ++ '@' :: host)) ∧
      m.nick = some nick ∧ m.user = some user ∧ m.host = some host ∧
      m.server = none ∧ m.rawCommand = cmd ∧ m.args = [a, b, trailing] := by
  -- the prefix token holds no space
  have hP : ∀ c ∈ nick ++ '!' :: (user ++ '@' :: host), (!isSpace c) = true := by
    intro c hc
    simp only [List.mem_append, List.mem_cons] at hc
    rcases hc with hc | rfl | hc | rfl | hc
    · have := hnick c hc
      simp only [isSpace, Bool.not_eq_true', beq_eq_false_iff_ne, ne_eq]
      rintro rfl
      exact absurd this (by decide)
    · decide
    · simp [isSpace_false_of_not_mem huser.2.2 c hc]
    · decide
    · simp [isSpace_false_of_not_mem hhost.1 c hc]
  have hcmdP : ∀ c ∈ cmd, (!isSpace c) = true := fun c hc => by
    simp [isSpace_false_of_not_mem hcmd.2 c hc]
  have hline : (':' :: (nick ++ '!' :: (user ++ '@' :: (host ++ ' ' :: (cmd ++ ' ' ::
      (a ++ ' ' :: (b ++ ' ' :: ':' :: trailing))))))) =
      ':' :: ((nick ++ '!' :: (user ++ '@' :: host)) ++ ' ' :: (cmd ++ ' ' ::
      (a ++ ' ' :: (b ++ ' ' :: ':' :: trailing)))) := by simp
  -- the prefix is matched and removed
  have hcmd0 : (cmd ++ ' ' :: (a ++ ' ' :: (b ++ ' ' :: ':' :: trailing))).dropWhile isSpace
      = cmd ++ ' ' :: (a ++ ' ' :: (b ++ ' ' :: ':' :: trailing)) :=
    dropWhile_stop isSpace cmd hcmd.1 (isSpace_false_of_not_mem hcmd.2) _
  have hpre : matchPrefix (':' :: ((nick ++ '!' :: (user ++ '@' :: host)) ++ ' ' ::
      (cmd ++ ' ' :: (a ++ ' ' :: (b ++ ' ' :: ':' :: trailing))))) =
      some (nick ++ '!' :: (user ++ '@' :: host),
        cmd ++ ' ' :: (a ++ ' ' :: (b ++ ' ' :: ':' :: trailing))) := by
    unfold matchPrefix
    simp only
    rw [takeWhile_append_stop _ _ _ _ hP (by decide),
      dropWhile_append_stop _ _ _ _ hP (by decide)]
    have h1 : (' ' :: (cmd ++ ' ' :: (a ++ ' ' :: (b ++ ' ' :: ':' :: trailing)))).dropWhile
        isSpace = cmd ++ ' ' :: (a ++ ' ' :: (b ++ ' ' :: ':' :: trailing)) := by
      rw [List.dropWhile_cons]
      simpa [isSpace] using hcmd0
    rw [h1]
    cases nick <;> simp
  -- the prefix is decomposed
  have hwho : matchNickUserHost (nick ++ '!' :: (user ++ '@' :: host)) =
      some (nick, some user, some host) := by
    unfold matchNickUserHost
    have hu : ∀ c ∈ user, (c != '@') = true := by
      intro c hc
      simp only [bne_iff_ne, ne_eq]
      rintro rfl
      exact huser.2.1 hc
    simp only
    rw [takeWhile_append_stop _ _ _ _ hnick (by decide),
      dropWhile_append_stop _ _ _ _ hnick (by decide)]
    simp only
    rw [takeWhile_append_stop _ _ _ _ hu (by decide),
      dropWhile_append_stop _ _ _ _ hu (by decide)]
    have hue : user.isEmpty = false := by
      cases user with
      | nil => exact absurd rfl huser.1
      | cons _ _ => rfl
    have hh : host.all (fun c => !isLineTerminator c) = true := by
      rw [List.all_eq_true]
      intro c hc
      simp [hhost.2 c hc]
    simp [hue, hh]
  -- the command is matched and removed
  have hmc : matchCommand (cmd ++ ' ' :: (a ++ ' ' :: (b ++ ' ' :: ':' :: trailing))) =
      some cmd := by
    unfold matchCommand
    simp only
    rw [takeWhile_append_stop _ _ _ _ hcmdP (by decide)]
    cases cmd with
    | nil => exact absurd rfl hcmd.1
    | cons _ _ => rfl
  have hdc : dropCommand (cmd ++ ' ' :: (a ++ ' ' :: (b ++ ' ' :: ':' :: trailing))) =
      a ++ ' ' :: (b ++ ' ' :: ':' :: trailing) := by
    unfold dropCommand
    simp only
    rw [takeWhile_append_stop _ _ _ _ hcmdP (by decide),
      dropWhile_append_stop _ _ _ _ hcmdP (by decide)]
    have h0 : (a ++ ' ' :: (b ++ ' ' :: ':' :: trailing)).dropWhile isSpace =
        a ++ ' ' :: (b ++ ' ' :: ':' :: trailing) :=
      dropWhile_stop isSpace a ha.1 (isSpace_false_of_not_mem ha.2.1) _
    have h1 : (' ' :: (a ++ ' ' :: (b ++ ' ' :: ':' :: trailing))).dropWhile isSpace =
        a ++ ' ' :: (b ++ ' ' :: ':' :: trailing) := by
      rw [List.dropWhile_cons]
      simpa [isSpace] using h0
    rw [h1]
    cases cmd with
    | nil => exact absurd rfl hcmd.1
    | cons _ _ => simp
  -- the parameters are split
  have hargs : parseArgs (a ++ ' ' :: (b ++ ' ' :: ':' :: trailing)) = [a, b, trailing] := by
    have := parseArgs_framed [a, b] trailing (by
      intro w hw
      simp only [List.mem_cons, List.mem_singleton, List.not_mem_nil, or_false] at hw
      rcases hw with rfl | rfl
      · exact ha
      · exact hb) ht
    simpa [join] using this
  rw [hline, parseMessage_prefixed replyFor _ _ _ _ hpre hmc, hwho, hdc, hargs]
  exact ⟨_, rfl, rfl, rfl, rfl, rfl, rfl, rfl, rfl⟩

/-- The amended claim C1 at the line `:nick!user@host PRIVMSG a b :hello : world`. -/
theorem parseMessage_full_line_witness :
    ∃ m, parseMessage noReplies
        (':' :: ("nick".toList ++ '!' :: ("user".toList ++ '@' :: ("host".toList ++ ' ' ::
          ("PRIVMSG".toList ++ ' ' :: ("a".toList ++ ' ' :: ("b".toList ++ ' ' :: ':' ::
            "hello : world".toList))))))) false = some m ∧
      m.pfx = some ("nick".toList ++ '!' :: ("user".toList ++ '@' :: "host".toList)) ∧
      m.nick = some "nick".toList ∧ m.user = some "user".toList ∧
      m.host = some "host".toList ∧ m.server = none ∧ m.rawCommand = "PRIVMSG".toList ∧
      m.args = ["a".toList, "b".toList, "hello : world".toList] :=
  parseMessage_full_line noReplies "nick".toList "user".toList "host".toList
    "PRIVMSG".toList "a".toList "b".toList "hello : world".toList
    (by decide) (by decide) (by decide) (by decide) (by decide) (by decide) (by decide)

/-- Claim C1 fails as stated.  In the line `:n!u@hLx CMD a b :t`, with `L` the
line separator U+2028, the nick `n`, the user `u`, the host `hLx` (which holds
no space), the command and the parameters are as the claim requires, and the
parser reports no nick, no user and no host but the server `n!u@hLx`, because
`.` does not match a line terminator in the host.  The same holds with a
carriage return for `L`. -/
theorem parseMessage_host_line_terminator :
    (∀ c ∈ "n".toList, isNickChar c = true) ∧
    ("u".toList ≠ [] ∧ '@' ∉ "u".toList ∧ ' ' ∉ "u".toList) ∧
    ' ' ∉ "h\u2028x".toList ∧ ' ' ∉ "h\rx".toList ∧
    IsWord "CMD".toList ∧ IsWord "a".toList ∧ IsWord "b".toList ∧ "t".toList ≠ [] ∧
    parseMessage noReplies
        (':' :: ("n".toList ++ '!' :: ("u".toList ++ '@' :: ("h\u2028x".toList ++ ' ' ::
          ("CMD".toList ++ ' ' :: ("a".toList ++ ' ' :: ("b".toList ++ ' ' :: ':' ::
            "t".toList))))))) false =
      some { pfx := some "n!u@h\u2028x".toList, nick := none, user := none, host := none,
             server := some "n!u@h\u2028x".toList, command := "CMD".toList,
             rawCommand := "CMD".toList, commandType := "normal".toList,
             args := ["a".toList, "b".toList, "t".toList] } ∧
    parseMessage noReplies
        (':' :: ("n".toList ++ '!' :: ("u".toList ++ '@' :: ("h\rx".toList ++ ' ' ::
          ("CMD".toList ++ ' ' :: ("a".toList ++ ' ' :: ("b".toList ++ ' ' :: ':' ::
            "t".toList))))))) false =
      some { pfx := some "n!u@h\rx".toList, nick := none, user := none, host := none,
             server := some "n!u@h\rx".toList, command := "CMD".toList,
             rawCommand := "CMD".toList, commandType := "normal".toList,
             args := ["a".toList, "b".toList, "t".toList] } := by
  refine ⟨by decide, by decide, by decide, by decide, by decide, by decide, by decide,
    by decide, ?_, ?_⟩ <;> decide

/-! ## Lines without a command token, and lines that are only a command token -/

/-- Claim C2 fails on the code: on the empty line, on a line that starts with a
space, on a line of spaces and on a line that is only a prefix, `parseMessage`
raises (the command expression does not match and `match[1]` is read from
`null`) instead of returning a message, whatever `stripColors` is. -/
theorem parseMessage_raises_without_command (replyFor : Str → Option Reply)
    (stripColors : Bool) :
    parseMessage replyFor [] stripColors = none ∧
    parseMessage replyFor " QUIT".toList stripColors = none ∧
    parseMessage replyFor "   ".toList stripColors = none ∧
    parseMessage replyFor ":irc.example.com ".toList stripColors = none := by
  cases stripColors <;> exact ⟨rfl, rfl, rfl, rfl⟩

theorem parseArgs_word (tok : Str) (htok : IsWord tok) : parseArgs tok = [tok] := by
  obtain ⟨hne, hsp, hcol⟩ := htok
  have hcont : tok.contains ':' = false := by
    simpa using hcol
  have hemp : tok.isEmpty = false := by
    cases tok with
    | nil => exact absurd rfl hne
    | cons _ _ => rfl
  have hsplit : splitSpaces tok = [tok] :=
    splitRuns_word _ _ (isSpace_false_of_not_mem hsp)
  unfold parseArgs
  simp only [hcont, hemp, hsplit, Bool.false_eq_true, if_false]

theorem matchCommand_word (tok : Str) (hne : tok ≠ []) (hsp : ' ' ∉ tok) :
    matchCommand tok = some tok ∧ dropCommand tok = tok := by
  have hP : ∀ c ∈ tok, (!isSpace c) = true := fun c hc => by
    simp [isSpace_false_of_not_mem hsp c hc]
  have hemp : tok.isEmpty = false := by
    cases tok with
    | nil => exact absurd rfl hne
    | cons _ _ => rfl
  constructor
  · simp [matchCommand, takeWhile_all _ _ hP, hemp]
  · simp [dropCommand, dropWhile_all _ _ hP]

/-- Claim C3 fails on the code: for a line that is only a command token (a word),
with or without a prefix `p` in front, the raw command is the token and the
arguments are the one-element list holding the token again, not the empty list.
The command is removed by `/^[^ ]+ +/`, which asks for a space after the token
and so removes nothing here. -/
theorem parseMessage_bare_command (replyFor : Str → Option Reply) (p tok : Str)
    (hp : p ≠ [] ∧ ' ' ∉ p) (htok : IsWord tok) :
    (∃ m, parseMessage replyFor tok false = some m ∧ m.pfx = none ∧
      m.rawCommand = tok ∧ m.args = [tok]) ∧
    (∃ m, parseMessage replyFor (':' :: (p ++ ' ' :: tok)) false = some m ∧
      m.pfx = some p ∧ m.rawCommand = tok ∧ m.args = [tok]) := by
  obtain ⟨hmc, hdc⟩ := matchCommand_word tok htok.1 htok.2.1
  have hargs := parseArgs_word tok htok
  constructor
  · have hpre : matchPrefix tok = none := by
      cases tok with
      | nil => rfl
      | cons x xs =>
        have hx : x ≠ ':' := by
          rintro rfl
          exact htok.2.2 (by simp)
        unfold matchPrefix
        split
        · rename_i heq
          simp only [List.cons.injEq] at heq
          exact absurd heq.1 hx
        · rfl
    rw [parseMessage_unprefixed replyFor _ _ hpre hmc, hdc, hargs]
    exact ⟨_, rfl, rfl, rfl, rfl⟩
  · have hP : ∀ c ∈ p, (!isSpace c) = true := fun c hc => by
      simp [isSpace_false_of_not_mem hp.2 c hc]
    have hpre : matchPrefix (':' :: (p ++ ' ' :: tok)) = some (p, tok) := by
      unfold matchPrefix
      simp only
      rw [takeWhile_append_stop _ _ _ _ hP (by decide),
        dropWhile_append_stop _ _ _ _ hP (by decide)]
      have h0 : tok.dropWhile isSpace = tok := by
        simpa using dropWhile_stop isSpace tok htok.1 (isSpace_false_of_not_mem htok.2.1) []
      have h1 : (' ' :: tok).dropWhile isSpace = tok := by
        rw [List.dropWhile_cons]
        simpa [isSpace] using h0
      rw [h1]
      cases p with
      | nil => exact absurd rfl hp.1
      | cons _ _ => simp
    rw [parseMessage_prefixed replyFor _ _ _ _ hpre hmc, hdc, hargs]
    exact ⟨_, rfl, rfl, rfl, rfl⟩

/-- Claim C3 at `QUIT` and `:nick!u@h QUIT`: the arguments are `["QUIT"]`. -/
theorem parseMessage_bare_command_witness :
    (∃ m, parseMessage noReplies "QUIT".toList false = some m ∧ m.pfx = none ∧
      m.rawCommand = "QUIT".toList ∧ m.args = ["QUIT".toList]) ∧
    (∃ m, parseMessage noReplies (':' :: ("nick!u@h".toList ++ ' ' :: "QUIT".toList)) false
        = some m ∧
      m.pfx = some "nick!u@h".toList ∧ m.rawCommand = "QUIT".toList ∧
      m.args = ["QUIT".toList]) :=
  parseMessage_bare_command noReplies "nick!u@h".toList "QUIT".toList (by decide) (by decide)

/-! ## The send pipeline and `disconnect` -/

theorem markLast_eq (l : List Str) (hne : l ≠ []) :
    markLast l = l.dropLast ++ [(':' :: l.getLast hne)] := by
  induction l with
  | nil => exact absurd rfl hne
  | cons x xs ih =>
    cases xs with
    | nil => rfl
    | cons y ys =>
      have := ih (by simp)
      simp only [markLast, List.dropLast_cons₂, List.cons_append, List.getLast_cons_cons]
      rw [this]

theorem commandText_eq (command : Str) (rest : List Str) (hne : rest ≠ []) :
    commandText command rest =
      command ++ ' ' :: join [' '] (rest.dropLast ++ [(':' :: rest.getLast hne)]) := by
  cases rest with
  | nil => exact absurd rfl hne
  | cons x xs =>
    have h := markLast_eq (x :: xs) (by simp)
    simp only [commandText, markLast, List.drop_succ_cons, List.drop_zero]
    rw [h]
    simp

/-- Claim C4.  `Client.prototype.send(command, a1, ..., an)` with at least one
argument, on a connection that is not flagged `requestedDisconnect`, emits
`sendLine` with the text `command a1 ... a(n-1) :an` (single spaces, a colon
in front of the last argument whatever it is) and then writes that text followed
by CR LF to the socket, and does nothing else; on a flagged connection it
leaves the client as it is: no event, nothing written. -/
theorem protoSend_frames (c : Client) (conn : Conn) (command : Str) (rest : List Str)
    (hconn : c.conn = some conn) (hne : rest ≠ []) :
    (conn.requestedDisconnect = false →
      protoSend c command rest = Result.ok { c with trace := c.trace ++
        [Effect.emit "sendLine".toList
          [Val.str (command ++ ' ' :: join [' '] (rest.dropLast ++ [(':' :: rest.getLast hne)]))],
         Effect.write (command ++ ' ' ::
           join [' '] (rest.dropLast ++ [(':' :: rest.getLast hne)]) ++ ['\r', '\n'])] }) ∧
    (conn.requestedDisconnect = true → protoSend c command rest = Result.ok c) := by
  constructor
  · intro hflag
    simp only [protoSend, hconn, hflag, Client.emit, Client.record, commandText_eq command rest hne]
    simp
  · intro hflag
    simp [protoSend, hconn, hflag]

/-- Claim C4 at `send("USER", "nodebot", "8", "*", "nodeJS IRC client")` on an
open connection: `sendLine` carries `USER nodebot 8 * :nodeJS IRC client` and
the same text with CR LF is written. -/
theorem protoSend_frames_witness :
    protoSend openClient "USER".toList
        ["nodebot".toList, "8".toList, "*".toList, "nodeJS IRC client".toList] =
      Result.ok { openClient with trace :=
        [Effect.emit "sendLine".toList [Val.str "USER nodebot 8 * :nodeJS IRC client".toList],
         Effect.write "USER nodebot 8 * :nodeJS IRC client\r\n".toList] } ∧
    protoSend flaggedClient "USER".toList
        ["nodebot".toList, "8".toList, "*".toList, "nodeJS IRC client".toList] =
      Result.ok flaggedClient :=
  ⟨(protoSend_frames openClient ⟨false, "open".toList⟩ "USER".toList
      ["nodebot".toList, "8".toList, "*".toList, "nodeJS IRC client".toList] rfl
      (by decide)).1 rfl,
   (protoSend_frames flaggedClient ⟨true, "open".toList⟩ "USER".toList
      ["nodebot".toList, "8".toList, "*".toList, "nodeJS IRC client".toList] rfl
      (by decide)).2 rfl⟩

/-- Claim C5 fails on the code: `disconnect("bye")` and `disconnect()` on a
client whose socket is open destroy the socket without writing anything to it.
`disconnect` flags the connection before it calls `send("QUIT", message)`, and
`send` drops what is sent on a flagged connection. -/
theorem disconnect_drops_quit :
    disconnect openClient (some "bye".toList) false =
      Result.ok { flaggedClient with trace := [Effect.destroy] } ∧
    disconnect openClient none false =
      Result.ok { flaggedClient with trace := [Effect.destroy] } := by
  constructor <;> decide

theorem send_flagged_trace (c : Client) (conn : Conn) (command : Str) (rest : List Str)
    (hconn : c.conn = some conn) (hflag : conn.requestedDisconnect = true) :
    ∃ c', send c command rest = Result.ok c' ∧ c'.trace = c.trace := by
  unfold send
  cases hq : c.cmdQueue with
  | some q => exact ⟨_, rfl, rfl⟩
  | none => exact ⟨c, by simp [protoSend, hconn, hflag], rfl⟩

theorem mem_write_record (c : Client) (e : Effect) (d : Str) (he : e ≠ Effect.write d) :
    Effect.write d ∈ (c.record e).trace ↔ Effect.write d ∈ c.trace := by
  simp only [Client.record, List.mem_append, List.mem_singleton]
  constructor
  · rintro (h | h)
    · exact h
    · exact absurd h.symm he
  · exact Or.inl

/-- Whatever the client and the arguments, `disconnect` writes nothing to the
socket: every write in the trace it leaves was there before. -/
theorem disconnect_writes_nothing (c : Client) (message : Option Str) (callback : Bool)
    (d : Str) (h : Effect.write d ∈ (disconnect c message callback).state.trace) :
    Effect.write d ∈ c.trace := by
  -- the two timers are stopped
  have h1 : Effect.write d ∈ (stopHeartbeat c).trace → Effect.write d ∈ c.trace := by
    unfold stopHeartbeat
    split
    · exact (mem_write_record c _ d (by simp)).1
    · exact id
  generalize hc1 : stopHeartbeat c = c1 at h1
  have h2 : Effect.write d ∈ (if c1.retryTimeout then
      { c1.record (Effect.clear Timer.retry) with retryTimeout := false } else c1).trace →
      Effect.write d ∈ c1.trace := by
    split
    · exact (mem_write_record c1 _ d (by simp)).1
    · exact id
  unfold disconnect at h
  simp only [hc1] at h
  generalize hc2 : (if c1.retryTimeout then
      { c1.record (Effect.clear Timer.retry) with retryTimeout := false } else c1) = c2 at h h2
  apply h1
  apply h2
  cases hconn : c2.conn with
  | none =>
    simp only [hconn] at h
    cases callback
    · simpa [Result.state] using h
    · exact (mem_write_record c2 Effect.callback d (by simp)).1
        (by simpa [Result.state] using h)
  | some conn =>
    simp only [hconn] at h
    generalize hm : (match message with
      | some m => if m.isEmpty then goodbye else m
      | none => goodbye) = msg at h
    generalize hc3 : ({ c2 with conn := some { conn with requestedDisconnect := true } } :
      Client) = c3 at h
    have htr3 : c3.trace = c2.trace := by rw [← hc3]
    have hr : ∃ c4, (if conn.readyState = "open".toList then send c3 "QUIT".toList [msg]
        else Result.ok c3) = Result.ok c4 ∧ c4.trace = c3.trace := by
      split
      · exact send_flagged_trace c3 _ _ _ (by rw [← hc3]) rfl
      · exact ⟨c3, rfl, rfl⟩
    obtain ⟨c4, hr4, htr4⟩ := hr
    rw [hr4] at h
    simp only [Result.andThen] at h
    rw [← htr3, ← htr4]
    cases callback
    · exact (mem_write_record c4 Effect.destroy d (by simp)).1
        (by simpa [Result.state] using h)
    · exact (mem_write_record c4 Effect.destroy d (by simp)).1
        ((mem_write_record (c4.record Effect.destroy) Effect.callback d (by simp)).1
          (by simpa [Result.state] using h))

/-! ## Dictionaries -/

theorem setKey_new {β : Type} (k : Str) (v : β) (t : List (Str × β))
    (h : hasKey k t = false) : setKey k v t = t ++ [(k, v)] := by
  induction t with
  | nil => rfl
  | cons p rest ih =>
    obtain ⟨k', v'⟩ := p
    simp only [hasKey, Bool.or_eq_false_iff] at h
    simp [setKey, h.1, ih h.2]

theorem setKey_last {β : Type} (k : Str) (v w : β) (t : List (Str × β))
    (h : hasKey k t = false) : setKey k w (t ++ [(k, v)]) = t ++ [(k, w)] := by
  induction t with
  | nil => simp [setKey]
  | cons p rest ih =>
    obtain ⟨k', v'⟩ := p
    simp only [hasKey, Bool.or_eq_false_iff] at h
    simp [setKey, h.1, ih h.2]

theorem lookup_last {β : Type} (k : Str) (v : β) (t : List (Str × β))
    (h : hasKey k t = false) : lookup k (t ++ [(k, v)]) = some v := by
  induction t with
  | nil => simp [lookup]
  | cons p rest ih =>
    obtain ⟨k', v'⟩ := p
    simp only [hasKey, Bool.or_eq_false_iff] at h
    simp [lookup, h.1, ih h.2]

theorem lookup_none_of_not_hasKey {β : Type} (k : Str) (t : List (Str × β))
    (h : hasKey k t = false) : lookup k t = none := by
  induction t with
  | nil => rfl
  | cons p rest ih =>
    obtain ⟨k', v'⟩ := p
    simp only [hasKey, Bool.or_eq_false_iff] at h
    simp [lookup, h.1, ih h.2]

theorem delKey_last {β : Type} (k : Str) (v : β) (t : List (Str × β))
    (h : hasKey k t = false) : delKey k (t ++ [(k, v)]) = t := by
  induction t with
  | nil => simp [delKey]
  | cons p rest ih =>
    obtain ⟨k', v'⟩ := p
    simp only [hasKey, Bool.or_eq_false_iff] at h
    simp [delKey, h.1, ih h.2]

/-! ## The WHOIS replies -/

/-- Claim C6 fails on the code.  Nothing in the source assigns `_whoisData`: the
client that the constructor creates, whatever the options, has no WHOIS
dictionary.  On that client each of the replies `rpl_whoisuser`,
`rpl_whoisidle`, `rpl_whoischannels` and `rpl_endofwhois`, whatever its
arguments, raises when `this._whoisData[nick]` is read, and leaves the client
as it is: no `whois` event is emitted and no record is kept. -/
theorem whois_raises (opt : Options) (m1 m2 m3 m4 : Message)
    (h1 : m1.command = "rpl_whoisuser".toList)
    (h2 : m2.command = "rpl_whoisidle".toList)
    (h3 : m3.command = "rpl_whoischannels".toList)
    (h4 : m4.command = "rpl_endofwhois".toList) :
    ∃ c : Client, construct opt = some (Result.ok c) ∧ c._whoisData = none ∧
      rawListener c m1 = some (Result.throw c) ∧
      rawListener c m2 = some (Result.throw c) ∧
      rawListener c m3 = some (Result.throw c) ∧
      rawListener c m4 = some (Result.throw c) := by
  have hc : ∃ c : Client, construct opt = some (Result.ok c) ∧ c._whoisData = none := by
    unfold construct
    cases hf : opt.floodProtection <;> cases ha : opt.autoConnect <;>
      simp [activateFloodProtection, dequeue, connect, Result.andThen, Client.record,
        Client.emit]
  obtain ⟨c, hcons, hnone⟩ := hc
  refine ⟨c, hcons, hnone, ?_, ?_, ?_, ?_⟩
  · have e : rawListener c m1 = caseWhoisUser c m1 := by
      simp [rawListener, h1]
    rw [e]
    simp [caseWhoisUser, _addWhoisData, hnone, andThenSome]
  · have e : rawListener c m2 = caseWhoisIdle c m2 := by
      simp [rawListener, h2]
    rw [e]
    simp [caseWhoisIdle, _addWhoisData, hnone]
  · have e : rawListener c m3 = caseWhoisChannels c m3 := by
      simp [rawListener, h3]
    rw [e]
    unfold caseWhoisChannels
    cases m3.args[2]? <;> simp [_addWhoisData, hnone]
  · have e : rawListener c m4 = caseEndOfWhois c m4 := by
      simp [rawListener, h4]
    rw [e]
    simp [caseEndOfWhois, _clearWhoisData, hnone, Result.andThen]

/-- Claim C6 for `new Client("irc.example.com", "base")` with the default
options and the replies for the nick `alice`. -/
theorem whois_raises_witness :
    ∃ c : Client,
      construct (Options.defaults "irc.example.com".toList "base".toList) =
        some (Result.ok c) ∧ c._whoisData = none ∧
      rawListener c (serverMessage "rpl_whoisuser".toList
        ["me".toList, "alice".toList, "al".toList, "example.org".toList, "*".toList,
         "Alice A".toList]) = some (Result.throw c) ∧
      rawListener c (serverMessage "rpl_whoisidle".toList
        ["me".toList, "alice".toList, "42".toList, "seconds idle".toList]) =
        some (Result.throw c) ∧
      rawListener c (serverMessage "rpl_whoischannels".toList
        ["me".toList, "alice".toList, "@#lean  #irc ".toList]) = some (Result.throw c) ∧
      rawListener c (serverMessage "rpl_endofwhois".toList
        ["me".toList, "alice".toList, "End of /WHOIS list.".toList]) =
        some (Result.throw c) :=
  whois_raises (Options.defaults "irc.example.com".toList "base".toList)
    (serverMessage "rpl_whoisuser".toList
        ["me".toList, "alice".toList, "al".toList, "example.org".toList, "*".toList,
         "Alice A".toList])
    (serverMessage "rpl_whoisidle".toList
        ["me".toList, "alice".toList, "42".toList, "seconds idle".toList])
    (serverMessage "rpl_whoischannels".toList
        ["me".toList, "alice".toList, "@#lean  #irc ".toList])
    (serverMessage "rpl_endofwhois".toList
        ["me".toList, "alice".toList, "End of /WHOIS list.".toList])
    rfl rfl rfl rfl

theorem addWhoisData_new (c : Client) (t : List (Str × Record)) (X key : Str) (value : Field)
    (h : c._whoisData = some t) (hX : hasKey X t = false) (hin : inheritedKey X = false) :
    _addWhoisData c (some X) key value false = some (Result.ok
      { c with
        _whoisData := some (t ++ [(X, setKey key value [("nick".toList, Field.str X)])]) }) := by
  simp [_addWhoisData, h, keyOf, hin, lookup_none_of_not_hasKey X t hX, setKey_new X _ t hX,
    Field.ofOpt]

theorem addWhoisData_more (c : Client) (t : List (Str × Record)) (X key : Str) (r : Record)
    (value : Field) (h : c._whoisData = some (t ++ [(X, r)])) (hX : hasKey X t = false)
    (hin : inheritedKey X = false) :
    _addWhoisData c (some X) key value false = some (Result.ok
      { c with _whoisData := some (t ++ [(X, setKey key value r)]) }) := by
  simp [_addWhoisData, h, keyOf, hin, lookup_last X r t hX, setKey_last X r _ t hX]

/-- What the WHOIS replies would do if a dictionary were installed from outside
this file.  On a client whose `_whoisData` is an object with the own properties
`data`, none of them for the nick `X`, a nick that names no inherited property,
the replies `rpl_whoisuser`, `rpl_whoisidle`, `rpl_whoischannels` and
`rpl_endofwhois` for `X`, dispatched in that order, all return; the first three
emit nothing, and the last one emits one `whois` event whose record holds the
nick `X`, the user, host and real name from the arguments 2, 3 and 5 of the
first reply, the idle time from argument 2 of the second and, as channels,
argument 2 of the third one trimmed and split at runs of whitespace.  The
client reached differs from the first one in its trace only. -/
theorem whois_sequence (c : Client) (data : List (Str × Record)) (X chans : Str)
    (m1 m2 m3 m4 : Message)
    (hdata : c._whoisData = some data) (hX : hasKey X data = false)
    (hin : inheritedKey X = false)
    (h1 : m1.command = "rpl_whoisuser".toList ∧ m1.args[1]? = some X)
    (h2 : m2.command = "rpl_whoisidle".toList ∧ m2.args[1]? = some X)
    (h3 : m3.command = "rpl_whoischannels".toList ∧ m3.args[1]? = some X ∧
      m3.args[2]? = some chans)
    (h4 : m4.command = "rpl_endofwhois".toList ∧ m4.args[1]? = some X) :
    ∃ c1 c2 c3,
      rawListener c m1 = some (Result.ok c1) ∧ c1.trace = c.trace ∧
      rawListener c1 m2 = some (Result.ok c2) ∧ c2.trace = c.trace ∧
      rawListener c2 m3 = some (Result.ok c3) ∧ c3.trace = c.trace ∧
      rawListener c3 m4 = some (Result.ok { c with trace := c.trace ++
        [Effect.emit "whois".toList [Val.record
          [("nick".toList, Field.str X),
           ("user".toList, Field.ofOpt m1.args[2]?),
           ("host".toList, Field.ofOpt m1.args[3]?),
           ("realname".toList, Field.ofOpt m1.args[5]?),
           ("idle".toList, Field.ofOpt m2.args[2]?),
           ("channels".toList, Field.strs (splitWhiteSpace (trim chans)))]]] }) := by
  obtain ⟨hc1, ha1⟩ := h1
  obtain ⟨hc2, ha2⟩ := h2
  obtain ⟨hc3, ha3, hch⟩ := h3
  obtain ⟨hc4, ha4⟩ := h4
  -- rpl_whoisuser
  have e1 : rawListener c m1 = caseWhoisUser c m1 := by
    simp [rawListener, hc1]
  have s1 : caseWhoisUser c m1 = some (Result.ok { c with _whoisData := some (data ++
      [(X, [("nick".toList, Field.str X), ("user".toList, Field.ofOpt m1.args[2]?),
            ("host".toList, Field.ofOpt m1.args[3]?),
            ("realname".toList, Field.ofOpt m1.args[5]?)])]) }) := by
    unfold caseWhoisUser
    rw [ha1, addWhoisData_new c data X _ _ hdata hX hin]
    simp only [andThenSome]
    rw [addWhoisData_more _ data X _ _ _ rfl hX hin]
    simp only [andThenSome]
    rw [addWhoisData_more _ data X _ _ _ rfl hX hin]
    simp [setKey]
  refine ⟨{ c with _whoisData := some (data ++
      [(X, [("nick".toList, Field.str X), ("user".toList, Field.ofOpt m1.args[2]?),
            ("host".toList, Field.ofOpt m1.args[3]?),
            ("realname".toList, Field.ofOpt m1.args[5]?)])]) },
    { c with _whoisData := some (data ++
      [(X, [("nick".toList, Field.str X), ("user".toList, Field.ofOpt m1.args[2]?),
            ("host".toList, Field.ofOpt m1.args[3]?),
            ("realname".toList, Field.ofOpt m1.args[5]?),
            ("idle".toList, Field.ofOpt m2.args[2]?)])]) },
    { c with _whoisData := some (data ++
      [(X, [("nick".toList, Field.str X), ("user".toList, Field.ofOpt m1.args[2]?),
            ("host".toList, Field.ofOpt m1.args[3]?),
            ("realname".toList, Field.ofOpt m1.args[5]?),
            ("idle".toList, Field.ofOpt m2.args[2]?),
            ("channels".toList, Field.strs (splitWhiteSpace (trim chans)))])]) },
    by rw [e1, s1], rfl, ?_, rfl, ?_, rfl, ?_⟩
  · -- rpl_whoisidle
    have e2 : ∀ d : Client, rawListener d m2 = caseWhoisIdle d m2 := by
      intro d
      simp [rawListener, hc2]
    rw [e2]
    unfold caseWhoisIdle
    rw [ha2, addWhoisData_more _ data X _ _ _ rfl hX hin]
    simp [setKey]
  · -- rpl_whoischannels
    have e3 : ∀ d : Client, rawListener d m3 = caseWhoisChannels d m3 := by
      intro d
      simp [rawListener, hc3]
    rw [e3]
    unfold caseWhoisChannels
    rw [ha3, hch]
    simp only
    rw [addWhoisData_more _ data X _ _ _ rfl hX hin]
    simp [setKey]
  · -- rpl_endofwhois
    have e4 : ∀ d : Client, rawListener d m4 = caseEndOfWhois d m4 := by
      intro d
      simp [rawListener, hc4]
    rw [e4]
    unfold caseEndOfWhois _clearWhoisData
    rw [ha4]
    simp only [keyOf, Option.getD_some, hin, Bool.false_eq_true, if_false, Option.map_some',
      Result.andThen, lookup_last X _ data hX, delKey_last X _ data hX,
      Client.emit, Client.record, ← hdata]

/-- The sequence for the nick `alice` on a client on which an empty WHOIS
dictionary has been installed. -/
theorem whois_sequence_witness :
    ∃ c1 c2 c3,
      rawListener openClient (serverMessage "rpl_whoisuser".toList
        ["me".toList, "alice".toList, "al".toList, "example.org".toList, "*".toList,
         "Alice A".toList]) = some (Result.ok c1) ∧ c1.trace = openClient.trace ∧
      rawListener c1 (serverMessage "rpl_whoisidle".toList
        ["me".toList, "alice".toList, "42".toList, "seconds idle".toList])
        = some (Result.ok c2) ∧ c2.trace = openClient.trace ∧
      rawListener c2 (serverMessage "rpl_whoischannels".toList
        ["me".toList, "alice".toList, "@#lean  #irc ".toList])
        = some (Result.ok c3) ∧ c3.trace = openClient.trace ∧
      rawListener c3 (serverMessage "rpl_endofwhois".toList
        ["me".toList, "alice".toList, "End of /WHOIS list.".toList])
        = some (Result.ok { openClient with trace := openClient.trace ++
        [Effect.emit "whois".toList [Val.record
          [("nick".toList, Field.str "alice".toList),
           ("user".toList, Field.ofOpt (some "al".toList)),
           ("host".toList, Field.ofOpt (some "example.org".toList)),
           ("realname".toList, Field.ofOpt (some "Alice A".toList)),
           ("idle".toList, Field.ofOpt (some "42".toList)),
           ("channels".toList,
            Field.strs (splitWhiteSpace (trim "@#lean  #irc ".toList)))]]] }) :=
  whois_sequence openClient [] "alice".toList "@#lean  #irc ".toList
    (serverMessage "rpl_whoisuser".toList
        ["me".toList, "alice".toList, "al".toList, "example.org".toList, "*".toList,
         "Alice A".toList])
    (serverMessage "rpl_whoisidle".toList
        ["me".toList, "alice".toList, "42".toList, "seconds idle".toList])
    (serverMessage "rpl_whoischannels".toList
        ["me".toList, "alice".toList, "@#lean  #irc ".toList])
    (serverMessage "rpl_endofwhois".toList
        ["me".toList, "alice".toList, "End of /WHOIS list.".toList])
    rfl rfl (by decide) ⟨rfl, rfl⟩ ⟨rfl, rfl⟩ ⟨rfl, rfl, rfl⟩ ⟨rfl, rfl⟩

/-! ## Splitting at runs of separators, and tokens -/

theorem tokens_cons (p : Char → Bool) (c : Char) (cs : Str) :
    tokens p (c :: cs) =
      if p c then tokens p cs
      else
        match cs with
        | [] => [[c]]
        | d :: _ =>
          if p d then [c] :: tokens p cs
          else
            match tokens p cs with
            | [] => [[c]]
            | w :: ws => (c :: w) :: ws := by
  cases cs <;> rfl

theorem splitRuns_head_sep (p : Char → Bool) (d : Char) (cs : Str) (hd : p d = true) :
    ∃ ws, splitRuns p (d :: cs) = [] :: ws := by
  induction cs generalizing d with
  | nil => exact ⟨[[]], by simp [splitRuns_cons, hd]⟩
  | cons e cs ih =>
    rw [splitRuns_cons]
    by_cases he : p e = true
    · obtain ⟨ws, h⟩ := ih e he
      exact ⟨ws, by simp [hd, he, h]⟩
    · exact ⟨splitRuns p (e :: cs), by simp [hd, he]⟩

theorem splitRuns_head_word (p : Char → Bool) (d : Char) (cs : Str) (hd : p d = false) :
    ∃ w ws, splitRuns p (d :: cs) = (d :: w) :: ws := by
  rw [splitRuns_cons]
  cases h : splitRuns p cs with
  | nil => exact ⟨[], [], by simp [hd]⟩
  | cons w ws => exact ⟨w, ws, by simp [hd]⟩

/-- The tokens are the non-empty pieces of the split. -/
theorem tokens_eq_filter (p : Char → Bool) (s : Str) :
    tokens p s = (splitRuns p s).filter (fun w => !w.isEmpty) := by
  induction s with
  | nil => rfl
  | cons c cs ih =>
    rw [tokens_cons, splitRuns_cons]
    by_cases hc : p c = true
    · simp only [hc, if_true]
      cases cs with
      | nil => rfl
      | cons d cs' =>
        by_cases hd : p d = true
        · simp only [hd, if_true]
          exact ih
        · simp only [hd, Bool.false_eq_true, if_false]
          rw [ih]
          rfl
    · simp only [hc, Bool.false_eq_true, if_false]
      cases cs with
      | nil => rfl
      | cons d cs' =>
        by_cases hd : p d = true
        · obtain ⟨ws, h⟩ := splitRuns_head_sep p d cs' hd
          rw [h] at ih
          simp only [hd, if_true, h, ih]
          simp
        · have hd' : p d = false := by simpa using hd
          obtain ⟨w, ws, h⟩ := splitRuns_head_word p d cs' hd'
          rw [h] at ih
          simp only [hd, Bool.false_eq_true, if_false, h, ih]
          simp

theorem splitRuns_tail_nonempty (p : Char → Bool) (s : Str)
    (hlast : ∀ d, s.getLast? = some d → p d = false) :
    ∀ w ∈ (splitRuns p s).tail, w ≠ [] := by
  induction s with
  | nil => simp [splitRuns]
  | cons c cs ih =>
    cases cs with
    | nil =>
      have hc : p c = false := hlast c rfl
      simp [splitRuns_cons, hc, splitRuns]
    | cons d cs' =>
      have hlast' : ∀ e, (d :: cs').getLast? = some e → p e = false := by
        intro e he
        exact hlast e (by simpa [List.getLast?_cons_cons] using he)
      have ih' := ih hlast'
      rw [splitRuns_cons]
      by_cases hc : p c = true
      · by_cases hd : p d = true
        · simpa [hc, hd] using ih'
        · have hd' : p d = false := by simpa using hd
          obtain ⟨w, ws, h⟩ := splitRuns_head_word p d cs' hd'
          simp only [hc, hd, if_true, Bool.false_eq_true, if_false, List.tail_cons]
          intro v hv
          rw [h] at hv ih'
          rcases List.mem_cons.1 hv with rfl | hv
          · simp
          · exact ih' v (by simpa using hv)
      · simp only [hc, Bool.false_eq_true, if_false]
        cases h : splitRuns p (d :: cs') with
        | nil => simp
        | cons w ws =>
          rw [h] at ih'
          simpa using ih'

/-- On a string that starts and ends outside the class of separators, the
pieces of the split are the tokens. -/
theorem splitRuns_eq_tokens (p : Char → Bool) (c : Char) (cs : Str) (hc : p c = false)
    (hlast : ∀ d, (c :: cs).getLast? = some d → p d = false) :
    splitRuns p (c :: cs) = tokens p (c :: cs) := by
  rw [tokens_eq_filter]
  symm
  rw [List.filter_eq_self]
  intro w hw
  obtain ⟨v, vs, h⟩ := splitRuns_head_word p c cs hc
  have ht := splitRuns_tail_nonempty p (c :: cs) hlast
  rw [h] at hw ht
  rcases List.mem_cons.1 hw with rfl | hw
  · rfl
  · have := ht w (by simpa using hw)
    cases w with
    | nil => exact absurd rfl this
    | cons _ _ => rfl

theorem tokens_ne_nil (p : Char → Bool) (s : Str) : ∀ w ∈ tokens p s, w ≠ [] := by
  intro w hw
  rw [tokens_eq_filter, List.mem_filter] at hw
  intro h
  rw [h] at hw
  simp at hw

/-! ## `trim` -/

theorem dropWhile_snoc_stop (p : Char → Bool) (x : Str) (c : Char) (hc : p c = false) :
    (x ++ [c]).dropWhile p = x.dropWhile p ++ [c] := by
  induction x with
  | nil => simp [List.dropWhile_cons, hc]
  | cons a as ih =>
    by_cases ha : p a = true
    · simp [List.dropWhile_cons, ha, ih]
    · simp [List.dropWhile_cons, ha]

theorem dropWhile_head (p : Char → Bool) (s : Str) (h : ∃ ch ∈ s, p ch = false) :
    ∃ c r, s.dropWhile p = c :: r ∧ p c = false := by
  induction s with
  | nil => simp at h
  | cons a as ih =>
    by_cases ha : p a = true
    · obtain ⟨ch, hch, hp⟩ := h
      rcases List.mem_cons.1 hch with rfl | hch
      · rw [ha] at hp
        exact absurd hp (by simp)
      · obtain ⟨c, r, h1, h2⟩ := ih ⟨ch, hch, hp⟩
        exact ⟨c, r, by simp [List.dropWhile_cons, ha, h1], h2⟩
    · exact ⟨a, as, by simp [List.dropWhile_cons, ha], by simpa using ha⟩

/-- A string that holds a character that is not whitespace is trimmed to a
string that starts and ends with such a character. -/
theorem trim_shape (s : Str) (h : ∃ ch ∈ s, isWhiteSpace ch = false) :
    ∃ c r, trim s = c :: r ∧ isWhiteSpace c = false ∧
      ∀ d, (c :: r).getLast? = some d → isWhiteSpace d = false := by
  obtain ⟨c, r, h1, h2⟩ := dropWhile_head isWhiteSpace s h
  have h3 : trim s = c :: (r.reverse.dropWhile isWhiteSpace).reverse := by
    unfold trim
    rw [h1, List.reverse_cons, dropWhile_snoc_stop _ _ _ h2]
    simp
  refine ⟨c, _, h3, h2, ?_⟩
  intro d hd
  by_cases hr : ∃ ch ∈ r.reverse, isWhiteSpace ch = false
  · obtain ⟨e, r', h4, h5⟩ := dropWhile_head isWhiteSpace r.reverse hr
    rw [h4] at hd
    have hl : (c :: (e :: r').reverse).getLast? = some e := by
      rw [List.reverse_cons, ← List.cons_append, List.getLast?_append]
      rfl
    rw [hl] at hd
    rw [← Option.some.inj hd]
    exact h5
  · have hall : ∀ ch ∈ r.reverse, isWhiteSpace ch = true := by
      intro ch hch
      by_contra hne
      exact hr ⟨ch, hch, by simpa using hne⟩
    rw [dropWhile_all _ _ hall] at hd
    rw [← Option.some.inj hd]
    exact h2

theorem tokens_of_seps (p : Char → Bool) (y : Str) (hy : ∀ ch ∈ y, p ch = true) :
    tokens p y = [] := by
  induction y with
  | nil => rfl
  | cons a as ih =>
    rw [tokens_cons]
    simp [hy a (by simp), ih (fun ch hch => hy ch (by simp [hch]))]

theorem tokens_append_seps (p : Char → Bool) (x y : Str) (hy : ∀ ch ∈ y, p ch = true) :
    tokens p (x ++ y) = tokens p x := by
  induction x with
  | nil => simpa [tokens] using tokens_of_seps p y hy
  | cons c cs ih =>
    rw [List.cons_append, tokens_cons, tokens_cons, ih]
    cases cs with
    | cons d cs' => rfl
    | nil =>
      cases y with
      | nil => rfl
      | cons d ds =>
        have hd : p d = true := hy d (by simp)
        simp [hd, tokens]

theorem tokens_dropWhile (p : Char → Bool) (s : Str) :
    tokens p (s.dropWhile p) = tokens p s := by
  induction s with
  | nil => rfl
  | cons a as ih =>
    by_cases ha : p a = true
    · rw [List.dropWhile_cons, tokens_cons]
      simp [ha, ih]
    · simp [List.dropWhile_cons, ha]

theorem tokens_trim (s : Str) : tokens isWhiteSpace (trim s) = tokens isWhiteSpace s := by
  have h1 : tokens isWhiteSpace (s.dropWhile isWhiteSpace) = tokens isWhiteSpace s :=
    tokens_dropWhile _ s
  unfold trim
  generalize s.dropWhile isWhiteSpace = u at h1
  rw [← h1]
  have h2 : u = (u.reverse.dropWhile isWhiteSpace).reverse ++
      (u.reverse.takeWhile isWhiteSpace).reverse := by
    rw [← List.reverse_append, List.takeWhile_append_dropWhile, List.reverse_reverse]
  have h3 : ∀ ch ∈ (u.reverse.takeWhile isWhiteSpace).reverse, isWhiteSpace ch = true := by
    intro ch hch
    rw [List.mem_reverse] at hch
    exact (List.mem_takeWhile_imp hch)
  have h4 := tokens_append_seps isWhiteSpace (u.reverse.dropWhile isWhiteSpace).reverse
    _ h3
  rw [← h2] at h4
  exact h4.symm

/-- What the `rpl_whoischannels` case stores is the list of the
whitespace-separated tokens of the argument, when the argument holds a
character that is not whitespace; otherwise it is the list holding the empty
string. -/
theorem splitWhiteSpace_trim (s : Str) :
    ((∃ ch ∈ s, isWhiteSpace ch = false) →
      splitWhiteSpace (trim s) = tokens isWhiteSpace s) ∧
    ((∀ ch ∈ s, isWhiteSpace ch = true) → splitWhiteSpace (trim s) = [[]]) := by
  constructor
  · intro h
    obtain ⟨c, r, h1, h2, h3⟩ := trim_shape s h
    rw [← tokens_trim, h1]
    exact splitRuns_eq_tokens isWhiteSpace c r h2 h3
  · intro h
    unfold trim
    rw [dropWhile_all _ _ h]
    rfl

/-! ## The names reply -/

theorem hasKey_eq_false_iff {β : Type} (k : Str) (t : List (Str × β)) :
    hasKey k t = false ↔ k ∉ t.map Prod.fst := by
  induction t with
  | nil => simp [hasKey]
  | cons p rest ih =>
    obtain ⟨k', v'⟩ := p
    simp only [hasKey, Bool.or_eq_false_iff, ih, List.map_cons, List.mem_cons, not_or,
      beq_eq_false_iff_ne, ne_eq]
    constructor
    · rintro ⟨h1, h2⟩
      exact ⟨fun h => h1 h.symm, h2⟩
    · rintro ⟨h1, h2⟩
      exact ⟨fun h => h1 h.symm, h2⟩

theorem foldl_setKey_fresh {β : Type} (pairs acc : List (Str × β))
    (h : ((acc ++ pairs).map Prod.fst).Nodup) :
    pairs.foldl (fun acc p => setKey p.1 p.2 acc) acc = acc ++ pairs := by
  induction pairs generalizing acc with
  | nil => simp
  | cons p ps ih =>
    have hp : hasKey p.1 acc = false := by
      rw [hasKey_eq_false_iff]
      intro hmem
      have h' := h
      simp only [List.map_append, List.map_cons] at h'
      exact (List.disjoint_left.1 (List.nodup_append.1 h').2.2) hmem (List.mem_cons_self _ _)
    have hnd : ((acc ++ [p] ++ ps).map Prod.fst).Nodup := by simpa using h
    simp only [List.foldl_cons]
    rw [setKey_new p.1 p.2 acc hp, ih (acc ++ [p]) hnd]
    simp

theorem foldl_object_fresh {β : Type} (K : Str) (pairs acc : List (Str × β))
    (h : ((acc ++ pairs).map Prod.fst).Nodup) :
    pairs.foldl (fun acc p => if p.1 = K then acc else setKey p.1 p.2 acc) acc =
      acc ++ pairs.filter (fun p => decide (p.1 ≠ K)) := by
  induction pairs generalizing acc with
  | nil => simp
  | cons p ps ih =>
    simp only [List.foldl_cons]
    by_cases hp : p.1 = K
    · have hnd : ((acc ++ ps).map Prod.fst).Nodup := by
        have h' := h
        simp only [List.map_append, List.map_cons] at h'
        simp only [List.map_append]
        exact h'.sublist (List.Sublist.append_left (List.sublist_cons_self _ _) _)
      rw [if_pos hp, ih acc hnd]
      simp [List.filter_cons, hp]
    · have hfresh : hasKey p.1 acc = false := by
        rw [hasKey_eq_false_iff]
        intro hmem
        have h' := h
        simp only [List.map_append, List.map_cons] at h'
        exact (List.disjoint_left.1 (List.nodup_append.1 h').2.2) hmem (List.mem_cons_self _ _)
      have hnd : ((acc ++ [p] ++ ps).map Prod.fst).Nodup := by simpa using h
      rw [if_neg hp, setKey_new p.1 p.2 acc hfresh, ih (acc ++ [p]) hnd]
      simp [List.filter_cons, hp]

/-- `_.object` of pairs with distinct keys is the dictionary listing the pairs
whose key is not `__proto__`. -/
theorem object_distinct {β : Type} (pairs : List (Str × β))
    (h : (pairs.map Prod.fst).Nodup) :
    object pairs = pairs.filter (fun p => decide (p.1 ≠ "__proto__".toList)) := by
  unfold object
  rw [foldl_object_fresh "__proto__".toList pairs [] (by simpa using h)]
  rfl

theorem namePair_cons (table : Table) (t : Str) (ht : t ≠ []) :
    namePair table t = (nickOfToken table t, modeOfToken table t) := by
  cases t with
  | nil => exact absurd rfl ht
  | cons ch r =>
    simp only [namePair, keyOf, List.head?_cons, Option.map_some', Option.getD_some,
      List.drop_succ_cons, List.drop_zero, nickOfToken, modeOfToken]
    split <;> rfl

/-- What the `"rpl_namreply"` case does for a message whose fourth argument
`list` holds a character that is not whitespace: the `names` event carries the
channel `args[2]`, the mapping and the message.  With the tokens being the
maximal runs of characters other than the space in `list` trimmed of the
whitespace around it, and the tokens standing for distinct nicks, the mapping
lists, for each token `t` in order whose nick is not `__proto__`, the pair of
`t` without its first character and the table's entry for that character when
the character is a key of `modeForPrefix`, and the pair of `t` and the empty
string otherwise; it has no other key. -/
theorem names_reply (c : Client) (message : Message) (list : Str)
    (hcmd : message.command = "rpl_namreply".toList)
    (hlist : message.args[3]? = some list)
    (hblank : ∃ ch ∈ list, isWhiteSpace ch = false)
    (hdistinct : ((tokens isSpace (trim list)).map (nickOfToken c.modeForPrefix)).Nodup) :
    rawListener c message = some (Result.ok (c.emit "names".toList
      [Val.ofOpt message.args[2]?,
       Val.names (((tokens isSpace (trim list)).map
         (fun t => (nickOfToken c.modeForPrefix t, modeOfToken c.modeForPrefix t))).filter
           (fun p => decide (p.1 ≠ "__proto__".toList))),
       Val.msg message])) := by
  have e : rawListener c message = some (caseNamReply c message) := by
    simp [rawListener, hcmd]
  obtain ⟨ch, r, h1, h2, h3⟩ := trim_shape list hblank
  have hsp : ∀ d, isWhiteSpace d = false → isSpace d = false := by
    intro d hd
    simp only [isSpace, beq_eq_false_iff_ne, ne_eq]
    rintro rfl
    exact absurd hd (by decide)
  have hsplit : splitSpaces (trim list) = tokens isSpace (trim list) := by
    rw [h1]
    exact splitRuns_eq_tokens isSpace ch r (hsp ch h2) (fun d hd => hsp d (h3 d hd))
  have hmap : (tokens isSpace (trim list)).map (namePair c.modeForPrefix) =
      (tokens isSpace (trim list)).map
        (fun t => (nickOfToken c.modeForPrefix t, modeOfToken c.modeForPrefix t)) := by
    apply List.map_congr_left
    intro t ht
    exact namePair_cons _ t (tokens_ne_nil _ _ t ht)
  rw [e]
  unfold caseNamReply
  rw [hlist]
  simp only
  rw [hsplit, hmap, object_distinct _ (by simpa [List.map_map, Function.comp_def] using hdistinct)]

/-- The example of the spec: for the trailing argument `@alice +bob carol` and
the table `{"@": "o", "+": "v"}` the mapping is
`{alice: "o", bob: "v", carol: ""}`. -/
theorem names_reply_witness :
    rawListener namesClient (serverMessage "rpl_namreply".toList
        ["me".toList, "=".toList, "#chan".toList, "@alice +bob carol".toList]) =
      some (Result.ok (namesClient.emit "names".toList
        [Val.str "#chan".toList,
         Val.names [("alice".toList, some "o".toList), ("bob".toList, some "v".toList),
                    ("carol".toList, some [])],
         Val.msg (serverMessage "rpl_namreply".toList
           ["me".toList, "=".toList, "#chan".toList, "@alice +bob carol".toList])])) :=
  (names_reply namesClient (serverMessage "rpl_namreply".toList
      ["me".toList, "=".toList, "#chan".toList, "@alice +bob carol".toList])
    "@alice +bob carol".toList rfl rfl ⟨'@', by decide, by decide⟩ (by decide)).trans
    (by decide)

/-- Claim C7 fails on the code.  For the trailing argument `@alice`, tab,
`+bob`, whose whitespace-separated tokens are `@alice` and `+bob`, the mapping
of the `names` event has the single key `alice`, tab, `+bob`: the entries are
split at spaces only, not at whitespace.  For the trailing argument `a`, tab,
`b` it has the single key `a`, tab, `b`.  For a trailing argument of two
spaces, which has no token, the mapping has the empty string as a key.  For the
trailing argument `@alice __proto__ +bob` the mapping has no key for the token
`__proto__`. -/
theorem names_reply_splits_at_spaces_only :
    tokens isWhiteSpace "@alice\t+bob".toList = ["@alice".toList, "+bob".toList] ∧
    rawListener namesClient (serverMessage "rpl_namreply".toList
        ["me".toList, "=".toList, "#chan".toList, "@alice\t+bob".toList]) =
      some (Result.ok (namesClient.emit "names".toList
        [Val.str "#chan".toList, Val.names [("alice\t+bob".toList, some "o".toList)],
         Val.msg (serverMessage "rpl_namreply".toList
           ["me".toList, "=".toList, "#chan".toList, "@alice\t+bob".toList])])) ∧
    tokens isWhiteSpace "a\tb".toList = ["a".toList, "b".toList] ∧
    rawListener openClient (serverMessage "rpl_namreply".toList
        ["me".toList, "=".toList, "#chan".toList, "a\tb".toList]) =
      some (Result.ok (openClient.emit "names".toList
        [Val.str "#chan".toList, Val.names [("a\tb".toList, some [])],
         Val.msg (serverMessage "rpl_namreply".toList
           ["me".toList, "=".toList, "#chan".toList, "a\tb".toList])])) ∧
    tokens isWhiteSpace "  ".toList = [] ∧
    rawListener openClient (serverMessage "rpl_namreply".toList
        ["me".toList, "=".toList, "#chan".toList, "  ".toList]) =
      some (Result.ok (openClient.emit "names".toList
        [Val.str "#chan".toList, Val.names [([], some [])],
         Val.msg (serverMessage "rpl_namreply".toList
           ["me".toList, "=".toList, "#chan".toList, "  ".toList])])) ∧
    tokens isWhiteSpace "@alice __proto__ +bob".toList =
      ["@alice".toList, "__proto__".toList, "+bob".toList] ∧
    rawListener namesClient (serverMessage "rpl_namreply".toList
        ["me".toList, "=".toList, "#chan".toList, "@alice __proto__ +bob".toList]) =
      some (Result.ok (namesClient.emit "names".toList
        [Val.str "#chan".toList,
         Val.names [("alice".toList, some "o".toList), ("bob".toList, some "v".toList)],
         Val.msg (serverMessage "rpl_namreply".toList
           ["me".toList, "=".toList, "#chan".toList, "@alice __proto__ +bob".toList])])) := by
  refine ⟨by decide, by decide, by decide, by decide, by decide, by decide, by decide,
    by decide⟩

/-! ## The MODE case -/

theorem addingAfter_snoc (pre : List Char) (ch : Char) :
    addingAfter (pre ++ [ch]) =
      if ch = '+' then true else if ch = '-' then false else addingAfter pre := by
  unfold addingAfter
  by_cases h1 : ch = '+'
  · subst h1
    simp [List.filter_append, isSign]
  · by_cases h2 : ch = '-'
    · subst h2
      simp [List.filter_append, isSign]
    · simp [List.filter_append, isSign, h1, h2]

theorem argsUsed_snoc (table : Table) (pre : List Char) (ch : Char) :
    argsUsed table (pre ++ [ch]) =
      argsUsed table pre + (if (!isSign ch && takesArg table ch) = true then 1 else 0) := by
  unfold argsUsed
  by_cases h : (!isSign ch && takesArg table ch) = true
  · simp [List.filter_append, h]
  · simp [List.filter_append, h]

theorem argsUsed_le_append (table : Table) (pre rest : List Char) :
    argsUsed table pre ≤ argsUsed table (pre ++ rest) := by
  unfold argsUsed
  simp [List.filter_append]

theorem modeLoop_events (table : Table) (msg : Message) (flags : List Char)
    (modeArgs : List Str) (hargs : argsUsed table flags ≤ modeArgs.length) :
    ∀ (rest pre : List Char) (c : Client), flags = pre ++ rest → c.prefixForMode = table →
      modeLoop msg rest (addingAfter pre) (modeArgs.drop (argsUsed table pre)) c =
        Result.ok
          { c with
            trace := c.trace ++ modeEventsFrom table msg flags modeArgs pre.length rest } := by
  intro rest
  induction rest with
  | nil =>
    intro pre c _ _
    simp [modeLoop, modeEventsFrom]
  | cons ch rest ih =>
    intro pre c hflags htable
    have hflags' : flags = (pre ++ [ch]) ++ rest := by simp [hflags]
    have htake : flags.take pre.length = pre := by simp [hflags]
    have hlen : (pre ++ [ch]).length = pre.length + 1 := by simp
    have ih' := fun c' h => ih (pre ++ [ch]) c' hflags' h
    rw [hlen] at ih'
    by_cases h1 : ch = '+'
    · subst h1
      have := ih' c htable
      rw [addingAfter_snoc, argsUsed_snoc] at this
      simpa [modeLoop, modeEventsFrom, List.enumFrom, isSign, List.filter_cons] using this
    by_cases h2 : ch = '-'
    · subst h2
      have := ih' c htable
      rw [addingAfter_snoc, argsUsed_snoc] at this
      simpa [modeLoop, modeEventsFrom, List.enumFrom, isSign, List.filter_cons] using this
    have hsign : isSign ch = false := by simp [isSign, h1, h2]
    have hev : modeEventsFrom table msg flags modeArgs pre.length (ch :: rest) =
        modeEventAt table msg flags modeArgs pre.length ch ::
          modeEventsFrom table msg flags modeArgs (pre.length + 1) rest := by
      simp [modeEventsFrom, List.enumFrom, List.filter_cons, hsign]
    rw [hev]
    unfold modeLoop
    simp only [beq_iff_eq, h1, h2, if_false, htable]
    by_cases hk : hasKey [ch] table = true
    · -- a user mode
      have := ih' (c.emit (modeEvent (addingAfter pre))
          [Val.ofOpt msg.args[0]?, Val.ofOpt msg.nick, Val.str [ch],
           Val.ofOpt (modeArgs.drop (argsUsed table pre)).head?, Val.msg msg]) htable
      rw [addingAfter_snoc, argsUsed_snoc] at this
      simp only [h1, h2, if_false, hsign, takesArg, hk, Bool.not_false, Bool.true_or,
        Bool.and_self, if_true] at this
      simp only [hk, if_true, List.drop_drop]
      rw [this]
      simp [Client.emit, Client.record, modeEventAt, htake, hk, modeEvent, List.head?_drop,
        htable]
    · have hk' : hasKey [ch] table = false := by simpa using hk
      simp only [hk, Bool.false_eq_true, if_false]
      by_cases hb : isBKL ch = true
      · -- a channel mode with an argument
        have hlt : argsUsed table pre < modeArgs.length := by
          have h3 := argsUsed_le_append table (pre ++ [ch]) rest
          rw [← hflags', argsUsed_snoc] at h3
          simp only [hsign, takesArg, hb, Bool.not_false, Bool.or_true, Bool.and_self,
            if_true] at h3
          omega
        have hdrop : modeArgs.drop (argsUsed table pre) =
            modeArgs[argsUsed table pre] :: modeArgs.drop (argsUsed table pre + 1) :=
          List.drop_eq_getElem_cons hlt
        have := ih' (c.emit (modeEvent (addingAfter pre))
          [Val.ofOpt msg.args[0]?, Val.ofOpt msg.nick, Val.str [ch],
           Val.ofOpt (if (modeArgs[argsUsed table pre]).length = 0 then none
             else some modeArgs[argsUsed table pre]), Val.msg msg]) htable
        rw [addingAfter_snoc, argsUsed_snoc] at this
        simp only [h1, h2, if_false, hsign, takesArg, hb, Bool.not_false, Bool.or_true,
          Bool.and_self, if_true] at this
        simp only [hb, if_true]
        rw [hdrop]
        simp only
        rw [this]
        simp only [Client.emit, Client.record, modeEventAt, htake, hk, hb, modeEvent,
          List.getElem?_eq_getElem hlt, List.length_eq_zero, Bool.false_eq_true, if_false,
          if_true, List.append_assoc, List.singleton_append, htable]
        by_cases he : modeArgs[argsUsed table pre] = []
        · simp [he, Val.ofOpt]
        · simp [he, Val.ofOpt]
      · -- a channel mode without an argument
        have hb' : isBKL ch = false := by simpa using hb
        have := ih' (c.emit (modeEvent (addingAfter pre))
          [Val.ofOpt msg.args[0]?, Val.ofOpt msg.nick, Val.str [ch], Val.undef,
           Val.msg msg]) htable
        rw [addingAfter_snoc, argsUsed_snoc] at this
        simp only [h1, h2, if_false, hsign, takesArg, hk', hb', Bool.not_false,
          Bool.or_self, Bool.and_false, Bool.false_eq_true, Nat.add_zero] at this
        simp only [hb, Bool.false_eq_true, if_false]
        rw [this]
        simp [Client.emit, Client.record, modeEventAt, htake, hk, hb, modeEvent, htable]

/-- There is one event for each character of the mode string that is not a sign. -/
theorem modeEventsFrom_length (table : Table) (msg : Message) (flags : List Char)
    (modeArgs : List Str) (n : Nat) (rest : List Char) :
    (modeEventsFrom table msg flags modeArgs n rest).length =
      (rest.filter (fun ch => !isSign ch)).length := by
  induction rest generalizing n with
  | nil => rfl
  | cons ch rest ih =>
    have := ih (n + 1)
    unfold modeEventsFrom at this ⊢
    by_cases h : isSign ch = true
    · simpa [List.enumFrom, List.filter_cons, h] using this
    · simpa [List.enumFrom, List.filter_cons, h] using this

/-- Claim C8.  For a `MODE` message with the channel `chan`, the mode string
`flags` and mode arguments `modeArgs` that are at least as many as the letters
of `flags` that take one, the dispatcher returns and emits, in the order of the
mode string, one event for each character of `flags` other than `+` and `-`
and nothing else.  The event for the letter at position `i` is `+mode` when the
last sign character before position `i` is not `-` and `-mode` when it is; it
carries the channel, the nick of the message, the letter, an argument and the
message.  The argument is the mode argument whose index is the number of
argument-taking letters before position `i` when the letter is a key of
`prefixForMode`; that same mode argument, or nothing when it is the empty
string, when the letter is otherwise one of `b`, `k`, `l`; and nothing for any
other letter. -/
theorem mode_events (c : Client) (message : Message) (chan : Str) (flags : List Char)
    (modeArgs : List Str)
    (hcmd : message.command = "MODE".toList)
    (hargs : message.args = chan :: flags :: modeArgs)
    (hsupply : argsUsed c.prefixForMode flags ≤ modeArgs.length) :
    rawListener c message = some (Result.ok
      { c with
        trace := c.trace ++
          modeEventsFrom c.prefixForMode { message with args := [chan, flags] } flags
            modeArgs 0 flags }) := by
  have e : rawListener c message = some (caseMode c message) := by
    simp [rawListener, hcmd]
  rw [e]
  unfold caseMode
  rw [hargs]
  have h := modeLoop_events c.prefixForMode { message with args := [chan, flags] } flags
    modeArgs hsupply flags [] c rfl rfl
  simpa [addingAfter, argsUsed] using h

/-- Claim C8 for `MODE #chan +ov-k+n alice bob` followed by an empty argument,
with `o` and `v` the keys of `prefixForMode`: `+mode o alice`, `+mode v bob`,
`-mode k` without an argument, `+mode n` without an argument. -/
theorem mode_events_witness :
    rawListener namesClient (userMessage "MODE".toList
        ["#chan".toList, "+ov-k+n".toList, "alice".toList, "bob".toList, []]) =
      some (Result.ok
        { namesClient with
          trace :=
            [Effect.emit "+mode".toList
               [Val.str "#chan".toList, Val.str "op".toList, Val.str "o".toList,
                Val.str "alice".toList,
                Val.msg (userMessage "MODE".toList ["#chan".toList, "+ov-k+n".toList])],
             Effect.emit "+mode".toList
               [Val.str "#chan".toList, Val.str "op".toList, Val.str "v".toList,
                Val.str "bob".toList,
                Val.msg (userMessage "MODE".toList ["#chan".toList, "+ov-k+n".toList])],
             Effect.emit "-mode".toList
               [Val.str "#chan".toList, Val.str "op".toList, Val.str "k".toList,
                Val.undef,
                Val.msg (userMessage "MODE".toList ["#chan".toList, "+ov-k+n".toList])],
             Effect.emit "+mode".toList
               [Val.str "#chan".toList, Val.str "op".toList, Val.str "n".toList,
                Val.undef,
                Val.msg (userMessage "MODE".toList ["#chan".toList, "+ov-k+n".toList])]] }) :=
  (mode_events namesClient (userMessage "MODE".toList
      ["#chan".toList, "+ov-k+n".toList, "alice".toList, "bob".toList, []])
    "#chan".toList "+ov-k+n".toList ["alice".toList, "bob".toList, []] rfl rfl
    (by decide)).trans (by decide)

/-! ## Nick collisions -/

theorem nicknameInUse_step (c : Client) (conn : Conn) (m : Message)
    (hconn : c.conn = some conn) (hflag : conn.requestedDisconnect = false)
    (hq : c.cmdQueue = none) (hm : m.command = "err_nicknameinuse".toList) :
    rawListener c m = some (Result.ok
      { c with
        opt := { c.opt with nickMod := some (c.opt.nickMod.getD 0 + 1) }
        nick := some (c.opt.nick ++ Nat.toDigits 10 (c.opt.nickMod.getD 0 + 1))
        trace := c.trace ++
          [Effect.emit "sendLine".toList
             [Val.str ("NICK :".toList ++ (c.opt.nick ++
               Nat.toDigits 10 (c.opt.nickMod.getD 0 + 1)))],
           Effect.write ("NICK :".toList ++ (c.opt.nick ++
             Nat.toDigits 10 (c.opt.nickMod.getD 0 + 1)) ++ "\r\n".toList)] }) := by
  have e : rawListener c m = some (caseNicknameInUse c m) := by
    simp [rawListener, hm]
  rw [e]
  simp [caseNicknameInUse, send, protoSend, hq, hconn, hflag, Result.andThen, Client.emit,
    Client.record, commandText, markLast, join]

theorem nicknameInUse_run (base : Str) (conn : Conn)
    (hflag : conn.requestedDisconnect = false) (ms : List Message)
    (hms : ∀ x ∈ ms, x.command = "err_nicknameinuse".toList) :
    ∀ (c : Client), c.conn = some conn → c.cmdQueue = none → c.opt.nick = base →
      ∃ c1, dispatchAll c ms = some (Result.ok c1) ∧ c1.conn = some conn ∧
        c1.cmdQueue = none ∧ c1.opt.nick = base ∧
        c1.opt.nickMod.getD 0 = c.opt.nickMod.getD 0 + ms.length := by
  induction ms with
  | nil =>
    intro c hconn hq hbase
    exact ⟨c, rfl, hconn, hq, hbase, rfl⟩
  | cons m ms ih =>
    intro c hconn hq hbase
    have hstep := nicknameInUse_step c conn m hconn hflag hq (hms m (by simp))
    obtain ⟨c1, h1, h2, h3, h4, h5⟩ := ih (fun x hx => hms x (by simp [hx])) _
      (show (({ c with
        opt := { c.opt with nickMod := some (c.opt.nickMod.getD 0 + 1) }
        nick := some (c.opt.nick ++ Nat.toDigits 10 (c.opt.nickMod.getD 0 + 1))
        trace := c.trace ++
          [Effect.emit "sendLine".toList
             [Val.str ("NICK :".toList ++ (c.opt.nick ++
               Nat.toDigits 10 (c.opt.nickMod.getD 0 + 1)))],
           Effect.write ("NICK :".toList ++ (c.opt.nick ++
             Nat.toDigits 10 (c.opt.nickMod.getD 0 + 1)) ++ "\r\n".toList)] } : Client).conn
        = some conn) from hconn) hq hbase
    refine ⟨c1, ?_, h2, h3, h4, ?_⟩
    · simp only [dispatchAll, hstep]
      exact h1
    · rw [h5]
      simp only [Option.getD_some, List.length_cons]
      omega

/-- Claim C9, as amended.  On a client that has seen no collision before, whose
connection is not flagged `requestedDisconnect` and that has no flood
protection, with `k - 1` replies `err_nicknameinuse` dispatched before
(`ms`, so that `k` is `ms.length + 1`), the `k`-th such reply emits `sendLine`
with `NICK :base<k>` and writes that line to the socket, `base` being the nick
the client is configured with and `<k>` the decimal numeral of `k`, and sets
the nick of the client to `base<k>`. -/
theorem nick_collisions (c : Client) (conn : Conn) (ms : List Message) (m : Message)
    (hfirst : c.opt.nickMod = none)
    (hconn : c.conn = some conn) (hflag : conn.requestedDisconnect = false)
    (hq : c.cmdQueue = none)
    (hms : ∀ x ∈ ms, x.command = "err_nicknameinuse".toList)
    (hm : m.command = "err_nicknameinuse".toList) :
    ∃ c1 c2, dispatchAll c ms = some (Result.ok c1) ∧
      rawListener c1 m = some (Result.ok c2) ∧
      c2.trace = c1.trace ++
        [Effect.emit "sendLine".toList
           [Val.str ("NICK :".toList ++ (c.opt.nick ++ Nat.toDigits 10 (ms.length + 1)))],
         Effect.write ("NICK :".toList ++ (c.opt.nick ++ Nat.toDigits 10 (ms.length + 1)) ++
           "\r\n".toList)] ∧
      c2.nick = some (c.opt.nick ++ Nat.toDigits 10 (ms.length + 1)) := by
  obtain ⟨c1, h1, h2, h3, h4, h5⟩ := nicknameInUse_run c.opt.nick conn hflag ms hms c hconn hq rfl
  have hstep := nicknameInUse_step c1 conn m h2 hflag h3 hm
  rw [h5, hfirst, h4] at hstep
  simp only [Option.getD_none, Nat.zero_add] at hstep
  exact ⟨c1, _, h1, hstep, rfl, rfl⟩

/-- Claim C9 for the second collision of a client configured with the nick
`base`: `NICK :base2` is sent and the nick becomes `base2`. -/
theorem nick_collisions_witness :
    ∃ c1 c2, dispatchAll openClient
        [serverMessage "err_nicknameinuse".toList ["*".toList, "base".toList]] =
        some (Result.ok c1) ∧
      rawListener c1 (serverMessage "err_nicknameinuse".toList ["*".toList, "base1".toList]) =
        some (Result.ok c2) ∧
      c2.trace = c1.trace ++
        [Effect.emit "sendLine".toList [Val.str "NICK :base2".toList],
         Effect.write "NICK :base2\r\n".toList] ∧
      c2.nick = some "base2".toList :=
  nick_collisions openClient ⟨false, "open".toList⟩
    [serverMessage "err_nicknameinuse".toList ["*".toList, "base".toList]]
    (serverMessage "err_nicknameinuse".toList ["*".toList, "base1".toList])
    rfl rfl rfl rfl (by decide) rfl

/-- Claim C9 fails as stated.  On a client whose connection is flagged
`requestedDisconnect` the first collision sets the nick to `base1` and sends
nothing: the trace stays empty.  On a client with flood protection it only
queues the call `send("NICK", "base1")`. -/
theorem nick_collision_without_wire_line :
    rawListener flaggedClient
        (serverMessage "err_nicknameinuse".toList ["*".toList, "base".toList]) =
      some (Result.ok
        { flaggedClient with
          opt := { flaggedClient.opt with nickMod := some 1 }
          nick := some "base1".toList
          trace := [] }) ∧
    rawListener floodClient
        (serverMessage "err_nicknameinuse".toList ["*".toList, "base".toList]) =
      some (Result.ok
        { floodClient with
          opt := { floodClient.opt with nickMod := some 1 }
          nick := some "base1".toList
          cmdQueue := some [("NICK".toList, ["base1".toList])]
          trace := [] }) := by
  constructor <;> decide

/-! ## Registration -/

/-- Claim C10.  Dispatching a message whose command is `001` returns; it sets
the hostname of the client to the prefix of the message and its nick to the
first argument, whatever the nick was; it emits one `registered` event carrying
the message; and only after that event does it clear the heartbeat timer, if
one was armed, and arm the heartbeat timer (every 120000 ms).  Nothing else
changes. -/
theorem welcome_registers (c : Client) (message : Message)
    (hcmd : message.command = "001".toList) :
    rawListener c message = some (Result.ok
      { c with
        hostname := message.pfx
        nick := message.args[0]?
        heartbeatTimeout := true
        trace := c.trace ++ [Effect.emit "registered".toList [Val.msg message]] ++
          (if c.heartbeatTimeout then [Effect.clear Timer.heartbeat] else []) ++
          [Effect.arm Timer.heartbeat 120000] }) := by
  have e : rawListener c message = some (case001 c message) := by
    simp [rawListener, hcmd]
  rw [e]
  cases h : c.heartbeatTimeout <;>
    simp [case001, startHeartbeat, stopHeartbeat, Client.emit, Client.record, h]

/-- Claim C10 for `:irc.example.com 001 newnick :Welcome` on a client whose nick
was set to `base` when it registered. -/
theorem welcome_registers_witness :
    rawListener { openClient with nick := some "base".toList }
        (serverMessage "001".toList ["newnick".toList, "Welcome".toList]) =
      some (Result.ok
        { openClient with
          hostname := some "irc.example.com".toList
          nick := some "newnick".toList
          heartbeatTimeout := true
          trace :=
            [Effect.emit "registered".toList
               [Val.msg (serverMessage "001".toList ["newnick".toList, "Welcome".toList])],
             Effect.arm Timer.heartbeat 120000] }) :=
  welcome_registers { openClient with nick := some "base".toList }
    (serverMessage "001".toList ["newnick".toList, "Welcome".toList]) rfl

/-! ## The capabilities reply -/

theorem lookup_setKey_self {β : Type} (k : Str) (v : β) (t : List (Str × β)) :
    lookup k (setKey k v t) = some v := by
  induction t with
  | nil => simp [setKey, lookup]
  | cons p rest ih =>
    obtain ⟨k', v'⟩ := p
    by_cases h : k' = k
    · simp [setKey, lookup, h]
    · simp [setKey, lookup, h, ih]

theorem lookup_setKey_ne {β : Type} (k k' : Str) (v : β) (t : List (Str × β))
    (h : k ≠ k') : lookup k (setKey k' v t) = lookup k t := by
  induction t with
  | nil =>
    have : ¬ k' = k := fun e => h e.symm
    simp [setKey, lookup, this]
  | cons p rest ih =>
    obtain ⟨k'', v''⟩ := p
    by_cases h1 : k'' = k'
    · subst h1
      have : ¬ k'' = k := fun e => h e.symm
      simp [setKey, lookup, this]
    · by_cases h2 : k'' = k
      · subst h2
        simp [setKey, lookup, h1]
      · simp [setKey, lookup, h1, h2, ih]

/-- The keys that are not mode letters keep their entry in `prefixForMode`. -/
theorem pairModes_fst_other (k : Str) :
    ∀ (ms ss : List Char) (t : Table × Table), (∀ m ∈ ms, k ≠ [m]) →
      lookup k (pairModes ms ss t).1 = lookup k t.1 := by
  intro ms
  induction ms with
  | nil => intro ss t _; rfl
  | cons m ms ih =>
    intro ss t h
    rw [pairModes, ih _ _ (fun x hx => h x (by simp [hx]))]
    exact lookup_setKey_ne k [m] _ _ (h m (by simp))

/-- The keys that are not symbols keep their entry in `modeForPrefix`. -/
theorem pairModes_snd_other (k : Str) :
    ∀ (ms ss : List Char) (t : Table × Table), ms.length = ss.length →
      (∀ x ∈ ss, k ≠ [x]) → lookup k (pairModes ms ss t).2 = lookup k t.2 := by
  intro ms
  induction ms with
  | nil => intro ss t _ _; rfl
  | cons m ms ih =>
    intro ss t hlen h
    cases ss with
    | nil => simp at hlen
    | cons x xs =>
      rw [pairModes]
      simp only [List.drop_succ_cons, List.drop_zero, List.head?_cons, Option.map_some',
        keyOf, Option.getD_some]
      rw [ih _ _ (by simpa using hlen) (fun y hy => h y (by simp [hy]))]
      exact lookup_setKey_ne k [x] _ _ (h x (by simp))

/-- Each mode letter is mapped to the symbol at its position. -/
theorem pairModes_fst_at :
    ∀ (ms ss : List Char) (t : Table × Table) (i : Nat) (hi : i < ms.length)
      (hs : i < ss.length), ms.Nodup →
      lookup [ms[i]] (pairModes ms ss t).1 = some (some [ss[i]]) := by
  intro ms
  induction ms with
  | nil => intro ss t i hi; simp at hi
  | cons m ms ih =>
    intro ss t i hi hs hnd
    cases ss with
    | nil => simp at hs
    | cons x xs =>
      rw [List.nodup_cons] at hnd
      cases i with
      | zero =>
        rw [pairModes]
        simp only [List.getElem_cons_zero]
        rw [pairModes_fst_other [m] ms _ _ (by
          intro y hy heq
          simp only [List.cons.injEq, and_true] at heq
          exact hnd.1 (heq ▸ hy))]
        simp [lookup_setKey_self]
      | succ j =>
        rw [pairModes]
        simp only [List.getElem_cons_succ, List.drop_succ_cons, List.drop_zero]
        exact ih xs _ j (by simpa using hi) (by simpa using hs) hnd.2

/-- Each symbol is mapped to the mode letter at its position. -/
theorem pairModes_snd_at :
    ∀ (ms ss : List Char) (t : Table × Table) (i : Nat) (hi : i < ms.length)
      (hs : i < ss.length), ms.length = ss.length → ss.Nodup →
      lookup [ss[i]] (pairModes ms ss t).2 = some (some [ms[i]]) := by
  intro ms
  induction ms with
  | nil => intro ss t i hi; simp at hi
  | cons m ms ih =>
    intro ss t i hi hs hlen hnd
    cases ss with
    | nil => simp at hs
    | cons x xs =>
      rw [List.nodup_cons] at hnd
      have hlen' : ms.length = xs.length := by simpa using hlen
      cases i with
      | zero =>
        rw [pairModes]
        simp only [List.drop_succ_cons, List.drop_zero, List.head?_cons, Option.map_some',
          keyOf, Option.getD_some, List.getElem_cons_zero]
        rw [pairModes_snd_other [x] ms xs _ hlen' (by
          intro y hy heq
          simp only [List.cons.injEq, and_true] at heq
          exact hnd.1 (heq ▸ hy))]
        simp [lookup_setKey_self]
      | succ j =>
        rw [pairModes]
        simp only [List.getElem_cons_succ, List.drop_succ_cons, List.drop_zero]
        exact ih xs _ j (by simpa using hi) (by simpa using hs) hlen' hnd.2

/-- The token `PREFIX=(modes)symbols` is matched with its two groups. -/
theorem matchPrefixToken_token (modes symbols : List Char)
    (hmodes : ∀ ch ∈ modes, ch ≠ ')' ∧ isLineTerminator ch = false)
    (hsymbols : ∀ ch ∈ symbols, isLineTerminator ch = false) :
    matchPrefixToken ("PREFIX=(".toList ++ (modes ++ ')' :: symbols)) =
      some (modes, symbols) := by
  have hP : ∀ ch ∈ modes, (ch != ')' && !isLineTerminator ch) = true := by
    intro ch hch
    obtain ⟨h1, h2⟩ := hmodes ch hch
    simp [h1, h2]
  have hS : ∀ ch ∈ symbols, (!isLineTerminator ch) = true := by
    intro ch hch
    simp [hsymbols ch hch]
  have hm : matchModes (modes ++ ')' :: symbols) = some (modes, symbols) := by
    unfold matchModes
    rw [dropWhile_append_stop _ _ _ _ hP (by decide),
      takeWhile_append_stop _ _ _ _ hP (by decide)]
    simp only
    rw [takeWhile_all _ _ hS]
  show matchPrefixToken ('P' :: 'R' :: 'E' :: 'F' :: 'I' :: 'X' :: '=' :: '(' ::
    (modes ++ ')' :: symbols)) = _
  rw [matchPrefixToken]
  have hp : "PREFIX=(".toList.isPrefixOf ('P' :: 'R' :: 'E' :: 'F' :: 'I' :: 'X' :: '=' ::
      '(' :: (modes ++ ')' :: symbols)) = true := by
    simp [List.isPrefixOf]
  simp only [hp, if_true, List.drop_succ_cons, List.drop_zero, hm]

theorem foldl_learn_none (args : List Str) (h : ∀ a ∈ args, matchPrefixToken a = none)
    (c : Client) : args.foldl learnPrefixToken c = c := by
  induction args generalizing c with
  | nil => rfl
  | cons a rest ih =>
    have ha : learnPrefixToken c a = c := by simp [learnPrefixToken, h a (by simp)]
    rw [List.foldl_cons, ha]
    exact ih (fun x hx => h x (by simp [hx])) c

/-- What the `"005"` case does for a message that holds one token
`PREFIX=(modes)symbols`. -/
theorem case005_token (c : Client) (message : Message) (before after : List Str)
    (modes symbols : List Char)
    (hcmd : message.command = "005".toList)
    (hargs : message.args =
      before ++ ("PREFIX=(".toList ++ (modes ++ ')' :: symbols)) :: after)
    (hothers : ∀ a ∈ before ++ after, matchPrefixToken a = none)
    (hmodes : ∀ ch ∈ modes, ch ≠ ')' ∧ isLineTerminator ch = false)
    (hsymbols : ∀ ch ∈ symbols, isLineTerminator ch = false) :
    rawListener c message = some (Result.ok
      { c with
        prefixForMode := (pairModes modes symbols (c.prefixForMode, c.modeForPrefix)).1
        modeForPrefix := (pairModes modes symbols (c.prefixForMode, c.modeForPrefix)).2 }) := by
  have e : rawListener c message = some (case005 c message) := by
    simp [rawListener, hcmd]
  rw [e]
  unfold case005
  rw [hargs, List.foldl_append, List.foldl_cons,
    foldl_learn_none before (fun a ha => hothers a (by simp [ha]))]
  have hl : learnPrefixToken c ("PREFIX=(".toList ++ (modes ++ ')' :: symbols)) =
      { c with
        prefixForMode := (pairModes modes symbols (c.prefixForMode, c.modeForPrefix)).1
        modeForPrefix := (pairModes modes symbols (c.prefixForMode, c.modeForPrefix)).2 } := by
    unfold learnPrefixToken
    rw [matchPrefixToken_token modes symbols hmodes hsymbols]
  rw [hl, foldl_learn_none after (fun a ha => hothers a (by simp [ha]))]

/-- Claim C11, as amended.  A `005` message one of whose arguments is
`PREFIX=(m1...mn)s1...sn`, with `n` mode letters (characters other than `)` and
the line terminators) and `n` symbols (characters other than the line
terminators), all distinct, and whose other arguments do not match the
expression `PREFIX=\((.*?)\)(.*)`, is dispatched from empty tables: the dispatch
returns, `prefixForMode[mi]` is `si` and `modeForPrefix[si]` is `mi` at every
position `i`, and the tables have no entry under any other key. -/
theorem capabilities_from_empty (c : Client) (message : Message) (before after : List Str)
    (modes symbols : List Char)
    (hcmd : message.command = "005".toList)
    (hargs : message.args =
      before ++ ("PREFIX=(".toList ++ (modes ++ ')' :: symbols)) :: after)
    (hothers : ∀ a ∈ before ++ after, matchPrefixToken a = none)
    (hlen : modes.length = symbols.length)
    (hm : modes.Nodup) (hs : symbols.Nodup)
    (hmodes : ∀ ch ∈ modes, ch ≠ ')' ∧ isLineTerminator ch = false)
    (hsymbols : ∀ ch ∈ symbols, isLineTerminator ch = false)
    (hempty : c.prefixForMode = [] ∧ c.modeForPrefix = []) :
    ∃ c', rawListener c message = some (Result.ok c') ∧
      (∀ (i : Nat) (hi : i < modes.length) (hj : i < symbols.length),
        lookup [modes[i]] c'.prefixForMode = some (some [symbols[i]]) ∧
        lookup [symbols[i]] c'.modeForPrefix = some (some [modes[i]])) ∧
      (∀ k, (∀ m ∈ modes, k ≠ [m]) → lookup k c'.prefixForMode = none) ∧
      (∀ k, (∀ x ∈ symbols, k ≠ [x]) → lookup k c'.modeForPrefix = none) := by
  refine ⟨_, case005_token c message before after modes symbols hcmd hargs hothers hmodes
    hsymbols, ?_, ?_, ?_⟩
  · intro i hi hj
    exact ⟨pairModes_fst_at modes symbols _ i hi hj hm,
      pairModes_snd_at modes symbols _ i hi hj hlen hs⟩
  · intro k hk
    show lookup k (pairModes modes symbols (c.prefixForMode, c.modeForPrefix)).1 = none
    rw [pairModes_fst_other k modes symbols _ hk, hempty.1]
    rfl
  · intro k hk
    show lookup k (pairModes modes symbols (c.prefixForMode, c.modeForPrefix)).2 = none
    rw [pairModes_snd_other k modes symbols _ hlen hk, hempty.2]
    rfl

/-- Claim C11 for `005 me PREFIX=(ov)@+ CHANTYPES=# :are supported by this server`
on a client with empty tables. -/
theorem capabilities_from_empty_witness :
    ∃ c', rawListener openClient (serverMessage "005".toList
        ["me".toList, "PREFIX=(ov)@+".toList, "CHANTYPES=#".toList,
         "are supported by this server".toList]) = some (Result.ok c') ∧
      (∀ (i : Nat) (hi : i < ['o', 'v'].length) (hj : i < ['@', '+'].length),
        lookup [['o', 'v'][i]] c'.prefixForMode = some (some [['@', '+'][i]]) ∧
        lookup [['@', '+'][i]] c'.modeForPrefix = some (some [['o', 'v'][i]])) ∧
      (∀ k, (∀ m ∈ ['o', 'v'], k ≠ [m]) → lookup k c'.prefixForMode = none) ∧
      (∀ k, (∀ x ∈ ['@', '+'], k ≠ [x]) → lookup k c'.modeForPrefix = none) :=
  capabilities_from_empty openClient
    (serverMessage "005".toList
      ["me".toList, "PREFIX=(ov)@+".toList, "CHANTYPES=#".toList,
       "are supported by this server".toList])
    ["me".toList] ["CHANTYPES=#".toList, "are supported by this server".toList]
    ['o', 'v'] ['@', '+'] rfl rfl (by decide) rfl (by decide) (by decide) (by decide)
    (by decide) ⟨rfl, rfl⟩

/-- Claim C11 fails as stated.  The message `005 me PREFIX=(ov)@+ PREFIX=(h)%` has
the argument `PREFIX=(ov)@+`, and dispatching it from empty tables leaves the
entries of `h` and `%` in the tables as well: every argument that matches the
expression is used. -/
theorem capabilities_two_tokens :
    rawListener openClient (serverMessage "005".toList
        ["me".toList, "PREFIX=(ov)@+".toList, "PREFIX=(h)%".toList]) =
      some (Result.ok
        { openClient with
          prefixForMode := [("o".toList, some "@".toList), ("v".toList, some "+".toList),
                            ("h".toList, some "%".toList)]
          modeForPrefix := [("@".toList, some "o".toList), ("+".toList, some "v".toList),
                            ("%".toList, some "h".toList)] }) := by
  decide

/-- Claim C12, as amended.  Whatever `prefixForMode` and `modeForPrefix` hold
before, a `005` message one of whose arguments is a token
`PREFIX=(m1...mn)s1...sn` as in claim C11, and whose other arguments do not
match the expression, is dispatched with this result: `prefixForMode[mi]` is
`si` and `modeForPrefix[si]` is `mi` at every position `i`, and under every
other key the two tables hold what they held before. -/
theorem capabilities_update (c : Client) (message : Message) (before after : List Str)
    (modes symbols : List Char)
    (hcmd : message.command = "005".toList)
    (hargs : message.args =
      before ++ ("PREFIX=(".toList ++ (modes ++ ')' :: symbols)) :: after)
    (hothers : ∀ a ∈ before ++ after, matchPrefixToken a = none)
    (hlen : modes.length = symbols.length)
    (hm : modes.Nodup) (hs : symbols.Nodup)
    (hmodes : ∀ ch ∈ modes, ch ≠ ')' ∧ isLineTerminator ch = false)
    (hsymbols : ∀ ch ∈ symbols, isLineTerminator ch = false) :
    ∃ c', rawListener c message = some (Result.ok c') ∧
      (∀ (i : Nat) (hi : i < modes.length) (hj : i < symbols.length),
        lookup [modes[i]] c'.prefixForMode = some (some [symbols[i]]) ∧
        lookup [symbols[i]] c'.modeForPrefix = some (some [modes[i]])) ∧
      (∀ k, (∀ m ∈ modes, k ≠ [m]) →
        lookup k c'.prefixForMode = lookup k c.prefixForMode) ∧
      (∀ k, (∀ x ∈ symbols, k ≠ [x]) →
        lookup k c'.modeForPrefix = lookup k c.modeForPrefix) := by
  refine ⟨_, case005_token c message before after modes symbols hcmd hargs hothers hmodes
    hsymbols, ?_, ?_, ?_⟩
  · intro i hi hj
    exact ⟨pairModes_fst_at modes symbols _ i hi hj hm,
      pairModes_snd_at modes symbols _ i hi hj hlen hs⟩
  · intro k hk
    exact pairModes_fst_other k modes symbols _ hk
  · intro k hk
    exact pairModes_snd_other k modes symbols _ hlen hk

/-- Claim C12 for `005 me PREFIX=(h)%` on a client whose tables hold the pairs of
`PREFIX=(ov)@+`. -/
theorem capabilities_update_witness :
    ∃ c', rawListener namesClient (serverMessage "005".toList
        ["me".toList, "PREFIX=(h)%".toList]) = some (Result.ok c') ∧
      (∀ (i : Nat) (hi : i < ['h'].length) (hj : i < ['%'].length),
        lookup [['h'][i]] c'.prefixForMode = some (some [['%'][i]]) ∧
        lookup [['%'][i]] c'.modeForPrefix = some (some [['h'][i]])) ∧
      (∀ k, (∀ m ∈ ['h'], k ≠ [m]) →
        lookup k c'.prefixForMode = lookup k namesClient.prefixForMode) ∧
      (∀ k, (∀ x ∈ ['%'], k ≠ [x]) →
        lookup k c'.modeForPrefix = lookup k namesClient.modeForPrefix) :=
  capabilities_update namesClient
    (serverMessage "005".toList ["me".toList, "PREFIX=(h)%".toList])
    ["me".toList] [] ['h'] ['%'] rfl rfl (by decide) rfl (by decide) (by decide)
    (by decide) (by decide)

/-- Claim C12 fails as stated: the tables are never emptied.  After
`PREFIX=(ohv)@%+` a second announcement `PREFIX=(ov)@+` leaves the pair of `h`
and `%` in both tables, which is no pair of that token.  After `PREFIX=(o)@` a
second announcement `PREFIX=(h)@` leaves `prefixForMode[o] = @` while
`modeForPrefix[@]` is `h`: the tables are not inverse maps. -/
theorem capabilities_not_rebuilt :
    dispatchAll openClient
        [serverMessage "005".toList ["me".toList, "PREFIX=(ohv)@%+".toList],
         serverMessage "005".toList ["me".toList, "PREFIX=(ov)@+".toList]] =
      some (Result.ok
        { openClient with
          prefixForMode := [("o".toList, some "@".toList), ("h".toList, some "%".toList),
                            ("v".toList, some "+".toList)]
          modeForPrefix := [("@".toList, some "o".toList), ("%".toList, some "h".toList),
                            ("+".toList, some "v".toList)] }) ∧
    dispatchAll openClient
        [serverMessage "005".toList ["me".toList, "PREFIX=(o)@".toList],
         serverMessage "005".toList ["me".toList, "PREFIX=(h)@".toList]] =
      some (Result.ok
        { openClient with
          prefixForMode := [("o".toList, some "@".toList), ("h".toList, some "@".toList)]
          modeForPrefix := [("@".toList, some "h".toList)] }) := by
  constructor <;> decide

/-! ## CTCP -/

theorem ctcpText_framed (T junk : Str) (hT : '\x01' ∉ T) :
    ctcpText ('\x01' :: (T ++ '\x01' :: junk)) = T := by
  have hP : ∀ ch ∈ T, (ch != '\x01') = true := by
    intro ch hch
    simp only [bne_iff_ne, ne_eq]
    rintro rfl
    exact hT hch
  unfold ctcpText
  simp only [List.drop_succ_cons, List.drop_zero]
  have hc : (T ++ '\x01' :: junk).contains '\x01' = true := by simp
  rw [hc, if_pos rfl, takeWhile_append_stop _ _ _ _ hP (by decide)]

theorem isCTCP_framed (T junk : Str) : isCTCP ('\x01' :: (T ++ '\x01' :: junk)) = true := by
  simp [isCTCP]

theorem splitChar_cons (sep c : Char) (cs : Str) :
    splitChar sep (c :: cs) =
      if c == sep then [] :: splitChar sep cs
      else
        match splitChar sep cs with
        | [] => [[c]]
        | w :: ws => (c :: w) :: ws := rfl

theorem splitChar_ne_nil (sep : Char) (s : Str) : splitChar sep s ≠ [] := by
  induction s with
  | nil => simp [splitChar]
  | cons c cs ih =>
    rw [splitChar_cons]
    split
    · simp
    · split <;> simp

theorem splitChar_word (sep : Char) (w : Str) (hw : sep ∉ w) : splitChar sep w = [w] := by
  induction w with
  | nil => rfl
  | cons c cs ih =>
    have hc : (c == sep) = false := by
      simp only [beq_eq_false_iff_ne, ne_eq]
      rintro rfl
      exact hw (by simp)
    rw [splitChar_cons, hc, ih (fun h => hw (by simp [h]))]
    rfl

theorem splitChar_word_sep (sep : Char) (w rest : Str) (hw : sep ∉ w) :
    splitChar sep (w ++ sep :: rest) = w :: splitChar sep rest := by
  induction w with
  | nil => simp [splitChar_cons]
  | cons c cs ih =>
    have hc : (c == sep) = false := by
      simp only [beq_eq_false_iff_ne, ne_eq]
      rintro rfl
      exact hw (by simp)
    rw [List.cons_append, splitChar_cons, hc, ih (fun h => hw (by simp [h]))]
    rfl

theorem join_cons_cons (sep : Str) (c : Char) (w : Str) (ws : List Str) :
    join sep ((c :: w) :: ws) = c :: join sep (w :: ws) := by
  cases ws <;> simp [join]

/-- Joining the pieces of a split with the separator gives the string back. -/
theorem join_splitChar (sep : Char) (s : Str) : join [sep] (splitChar sep s) = s := by
  induction s with
  | nil => rfl
  | cons c cs ih =>
    rw [splitChar_cons]
    by_cases hc : (c == sep) = true
    · have hcs : c = sep := by simpa using hc
      rw [if_pos hc]
      cases h : splitChar sep cs with
      | nil => exact absurd h (splitChar_ne_nil sep cs)
      | cons w ws =>
        rw [h] at ih
        simp [join, ih, hcs]
    · rw [if_neg hc]
      cases h : splitChar sep cs with
      | nil => exact absurd h (splitChar_ne_nil sep cs)
      | cons w ws =>
        rw [h] at ih
        simp only
        rw [join_cons_cons, ih]

/-- A `PRIVMSG` that has neither a nick nor a server raises before anything is
emitted. -/
theorem privmsg_without_sender (c : Client) (message : Message)
    (hcmd : message.command = "PRIVMSG".toList)
    (hnick : message.nick = none) (hserver : message.server = none) :
    rawListener c message = some (Result.throw c) := by
  have e : rawListener c message = casePrivmsg c message := by
    simp [rawListener, hcmd]
  rw [e]
  simp [casePrivmsg, privmsgSender, hnick, hserver]

/-- What a CTCP-framed `PRIVMSG` with the verb `ACTION` and a remainder does,
when the message has a sender: the events `ctcp`, `ctcp-privmsg` and `action`,
the last one with the remainder as its text, and no other event. -/
theorem privmsg_action (c : Client) (message : Message) (S text junk : Str)
    (hcmd : message.command = "PRIVMSG".toList)
    (hs : privmsgSender message = some S)
    (hargs : message.args[1]? =
      some ('\x01' :: (("ACTION".toList ++ ' ' :: text) ++ '\x01' :: junk)))
    (ht : '\x01' ∉ text) :
    rawListener c message = some (Result.ok
      { c with
        trace := c.trace ++
          [Effect.emit "ctcp".toList
             [Val.str S, Val.ofOpt message.args[0]?,
              Val.str ("ACTION".toList ++ ' ' :: text), Val.str "privmsg".toList],
           Effect.emit "ctcp-privmsg".toList
             [Val.str S, Val.ofOpt message.args[0]?,
              Val.str ("ACTION".toList ++ ' ' :: text)],
           Effect.emit "action".toList
             [Val.str S, Val.ofOpt message.args[0]?, Val.str text]] }) := by
  have e : rawListener c message = casePrivmsg c message := by
    simp [rawListener, hcmd]
  have hT : '\x01' ∉ "ACTION".toList ++ ' ' :: text := by
    simp only [List.mem_append, List.mem_cons, not_or]
    exact ⟨by decide, by decide, ht⟩
  have hparts : splitChar ' ' ("ACTION".toList ++ ' ' :: text) =
      "ACTION".toList :: splitChar ' ' text :=
    splitChar_word_sep ' ' _ text (by decide)
  have hlen : (splitChar ' ' text).length > 0 :=
    List.length_pos.2 (splitChar_ne_nil ' ' text)
  have hne : ("ACTION".toList ++ ' ' :: text) ≠ "VERSION".toList := by
    intro h
    have := congrArg (fun l => l.take 1) h
    simp at this
  rw [e]
  unfold casePrivmsg
  rw [hs, hargs]
  simp only [isCTCP_framed, if_true]
  unfold _handleCTCP
  simp only [ctcpText_framed _ junk hT, hparts, hne, and_false, if_false, List.head?_cons,
    List.length_cons, List.drop_succ_cons, List.drop_zero, join_splitChar]
  have h1 : (splitChar ' ' text).length + 1 > 1 := by omega
  have h2 : ¬ (some "ACTION".toList = some "PING".toList) := by decide
  simp [h1, h2, Client.emit, Client.record, Val.ofOpt]

/-- Claim C13 fails on the code.  The line `PRIVMSG #Chan :\x01ACTION waves\x01`,
which has no prefix, is parsed into a message without nick and without server;
its dispatch raises (`message.server.split` is read from `undefined`) having
emitted nothing, and the line handler reports the exception by an `error`
event: there is no `action` event. -/
theorem action_without_sender_raises :
    parseMessage noReplies "PRIVMSG #Chan :\x01ACTION waves\x01".toList false =
      some { pfx := none, nick := none, user := none, host := none, server := none,
             command := "PRIVMSG".toList, rawCommand := "PRIVMSG".toList,
             commandType := "normal".toList,
             args := ["#Chan".toList, "\x01ACTION waves\x01".toList] } ∧
    rawListener openClient
        { pfx := none, nick := none, user := none, host := none, server := none,
          command := "PRIVMSG".toList, rawCommand := "PRIVMSG".toList,
          commandType := "normal".toList,
          args := ["#Chan".toList, "\x01ACTION waves\x01".toList] } =
      some (Result.throw openClient) ∧
    onLine noReplies openClient "PRIVMSG #Chan :\x01ACTION waves\x01".toList =
      some (Result.ok
        { openClient with
          trace :=
            [Effect.emit "recvLine".toList
               [Val.str "PRIVMSG #Chan :\x01ACTION waves\x01".toList],
             Effect.emit "error".toList [Val.exception]] }) := by
  refine ⟨by decide, by decide, by decide⟩

/-- The same line with the prefix `nick!u@h` gives the `action` event with the
text `waves`. -/
theorem action_with_sender :
    onLine noReplies openClient ":nick!u@h PRIVMSG #Chan :\x01ACTION waves\x01".toList =
      some (Result.ok
        { openClient with
          trace :=
            [Effect.emit "recvLine".toList
               [Val.str ":nick!u@h PRIVMSG #Chan :\x01ACTION waves\x01".toList],
             Effect.emit "ctcp".toList
               [Val.str "nick".toList, Val.str "#Chan".toList,
                Val.str "ACTION waves".toList, Val.str "privmsg".toList],
             Effect.emit "ctcp-privmsg".toList
               [Val.str "nick".toList, Val.str "#Chan".toList,
                Val.str "ACTION waves".toList],
             Effect.emit "action".toList
               [Val.str "nick".toList, Val.str "#Chan".toList,
                Val.str "waves".toList]] }) := by
  decide

/-- What `_handleCTCP` does for a text framed by the delimiter whose verb is
none of `ACTION` and `PING`: the events `ctcp` and `ctcp-<type>`, and
`ctcp-version` when the type is `privmsg` and the text between the delimiters
is `VERSION`. -/
theorem handleCTCP_plain (c : Client) (sender : Option Str) (dest : Val) (T junk type : Str)
    (hT : '\x01' ∉ T)
    (hverb : (splitChar ' ' T).head? ≠ some "ACTION".toList ∧
      (splitChar ' ' T).head? ≠ some "PING".toList) :
    _handleCTCP c sender dest ('\x01' :: (T ++ '\x01' :: junk)) type = Result.ok
      { c with
        trace := c.trace ++
          [Effect.emit "ctcp".toList [Val.ofOpt sender, dest, Val.str T, Val.str type],
           Effect.emit ("ctcp-".toList ++ type) [Val.ofOpt sender, dest, Val.str T]] ++
          (if type = "privmsg".toList ∧ T = "VERSION".toList then
            [Effect.emit "ctcp-version".toList [Val.ofOpt sender, dest]] else []) } := by
  unfold _handleCTCP
  simp only [ctcpText_framed T junk hT, hverb.1, hverb.2, false_and, if_false]
  by_cases h : type = "privmsg".toList ∧ T = "VERSION".toList
  · rw [if_pos h, if_pos h]
    simp [Client.emit, Client.record]
  · rw [if_neg h, if_neg h]
    simp [Client.emit, Client.record]

/-- A `NOTICE` never emits `ctcp-version` and never writes to the socket. -/
theorem notice_quiet (c : Client) (message : Message) (r : Result)
    (hcmd : message.command = "NOTICE".toList) (hr : rawListener c message = some r) :
    (∀ a, Effect.emit "ctcp-version".toList a ∈ r.state.trace →
      Effect.emit "ctcp-version".toList a ∈ c.trace) ∧
    writes r.state.trace = writes c.trace := by
  have e : rawListener c message = some (caseNotice c message) := by
    simp [rawListener, hcmd]
  rw [e] at hr
  have hr' : r = caseNotice c message := (Option.some.inj hr).symm
  subst hr'
  have hw : ∀ (t : List Effect) (n : Str) (a : List Val),
      writes (t ++ [Effect.emit n a]) = writes t := by
    intro t n a
    induction t with
    | nil => rfl
    | cons x xs ih => cases x <;> simp [writes, ih]
  have hnp : ¬ ("notice".toList = "privmsg".toList) := by decide
  unfold caseNotice
  cases message.args[1]? with
  | none => exact ⟨fun a h => h, rfl⟩
  | some text =>
    simp only
    by_cases hc : isCTCP text = true
    · simp only [hc, if_true, _handleCTCP, hnp, false_and, and_false, if_false]
      by_cases ha : (splitChar ' ' (ctcpText text)).head? = some "ACTION".toList ∧
          (splitChar ' ' (ctcpText text)).length > 1
      · simp only [ha, and_self, if_true, Result.state, Client.emit, Client.record, hw]
        refine ⟨?_, trivial⟩
        intro a h
        simp only [List.mem_append, List.mem_singleton, Effect.emit.injEq] at h
        rcases h with ((h | h) | h) | h
        · exact h
        · exact absurd h.1 (by decide)
        · exact absurd h.1 (by decide)
        · exact absurd h.1 (by decide)
      · simp only [ha, if_false, Result.state, Client.emit, Client.record, hw]
        refine ⟨?_, trivial⟩
        intro a h
        simp only [List.mem_append, List.mem_singleton, Effect.emit.injEq] at h
        rcases h with (h | h) | h
        · exact h
        · exact absurd h.1 (by decide)
        · exact absurd h.1 (by decide)
    · simp only [hc, Bool.false_eq_true, if_false, Result.state, Client.emit, Client.record, hw]
      refine ⟨?_, trivial⟩
      intro a h
      simp only [List.mem_append, List.mem_singleton, Effect.emit.injEq] at h
      rcases h with h | h
      · exact h
      · exact absurd h.1 (by decide)

/-- Claim C14, as amended.  A CTCP-framed `PRIVMSG` `m` from the sender `S`
whose text between the delimiters is `VERSION` makes the dispatcher emit
`ctcp`, `ctcp-privmsg` and then `ctcp-version` carrying the sender and the
target.  A CTCP-framed `PRIVMSG` `m'` from the sender `S'` whose text between
the delimiters is `VERSION`, a space and a remainder makes it emit `ctcp` and
`ctcp-privmsg` only.  A `NOTICE` never emits `ctcp-version`. -/
theorem version_request (c : Client) (m m' : Message) (S S' junk junk' rest : Str)
    (hm : m.command = "PRIVMSG".toList ∧ privmsgSender m = some S ∧
      m.args[1]? = some ('\x01' :: ("VERSION".toList ++ '\x01' :: junk)))
    (hm' : m'.command = "PRIVMSG".toList ∧ privmsgSender m' = some S' ∧
      m'.args[1]? = some ('\x01' :: (("VERSION".toList ++ ' ' :: rest) ++ '\x01' :: junk')) ∧
      '\x01' ∉ rest) :
    rawListener c m = some (Result.ok
      { c with
        trace := c.trace ++
          [Effect.emit "ctcp".toList
             [Val.str S, Val.ofOpt m.args[0]?, Val.str "VERSION".toList,
              Val.str "privmsg".toList],
           Effect.emit "ctcp-privmsg".toList
             [Val.str S, Val.ofOpt m.args[0]?, Val.str "VERSION".toList],
           Effect.emit "ctcp-version".toList [Val.str S, Val.ofOpt m.args[0]?]] }) ∧
    rawListener c m' = some (Result.ok
      { c with
        trace := c.trace ++
          [Effect.emit "ctcp".toList
             [Val.str S', Val.ofOpt m'.args[0]?, Val.str ("VERSION".toList ++ ' ' :: rest),
              Val.str "privmsg".toList],
           Effect.emit "ctcp-privmsg".toList
             [Val.str S', Val.ofOpt m'.args[0]?,
              Val.str ("VERSION".toList ++ ' ' :: rest)]] }) ∧
    (∀ (n : Message) (r : Result), n.command = "NOTICE".toList →
      rawListener c n = some r →
      ∀ a, Effect.emit "ctcp-version".toList a ∈ r.state.trace →
        Effect.emit "ctcp-version".toList a ∈ c.trace) := by
  obtain ⟨hcmd, hs, hargs⟩ := hm
  obtain ⟨hcmd', hs', hargs', hrest⟩ := hm'
  have e : ∀ (x : Message) (X T J : Str), x.command = "PRIVMSG".toList →
      privmsgSender x = some X → x.args[1]? = some ('\x01' :: (T ++ '\x01' :: J)) →
      rawListener c x =
        some (_handleCTCP c (some X) (Val.ofOpt x.args[0]?)
          ('\x01' :: (T ++ '\x01' :: J)) "privmsg".toList) := by
    intro x X T J h1 h2 h3
    have : rawListener c x = casePrivmsg c x := by
      simp [rawListener, h1]
    rw [this]
    unfold casePrivmsg
    rw [h2, h3]
    simp only [isCTCP_framed, if_true]
  refine ⟨?_, ?_, ?_⟩
  · rw [e m S _ junk hcmd hs hargs,
      handleCTCP_plain c (some S) _ "VERSION".toList junk _ (by decide)
        ⟨by decide, by decide⟩, if_pos ⟨rfl, rfl⟩]
    simp [Val.ofOpt]
  · have hT : '\x01' ∉ "VERSION".toList ++ ' ' :: rest := by
      simp only [List.mem_append, List.mem_cons, not_or]
      exact ⟨by decide, by decide, hrest⟩
    have hp : splitChar ' ' ("VERSION".toList ++ ' ' :: rest) =
        "VERSION".toList :: splitChar ' ' rest :=
      splitChar_word_sep ' ' _ rest (by decide)
    have hv : (splitChar ' ' ("VERSION".toList ++ ' ' :: rest)).head? ≠
          some "ACTION".toList ∧
        (splitChar ' ' ("VERSION".toList ++ ' ' :: rest)).head? ≠ some "PING".toList := by
      rw [hp, List.head?_cons]
      exact ⟨by decide, by decide⟩
    have hne : "VERSION".toList ++ ' ' :: rest ≠ "VERSION".toList := by
      intro h'
      have := congrArg List.length h'
      simp at this
    rw [e m' S' _ junk' hcmd' hs' hargs',
      handleCTCP_plain c (some S') _ _ junk' _ hT hv, if_neg (fun hh => hne hh.2)]
    simp [Val.ofOpt]
  · intro n r hn hr
    exact (notice_quiet c n r hn hr).1

/-- Claim C14 for `\x01VERSION\x01` and `\x01VERSION x\x01` sent by `op` to `me`. -/
theorem version_request_witness :
    rawListener openClient (userMessage "PRIVMSG".toList
        ["me".toList, "\x01VERSION\x01".toList]) = some (Result.ok
      { openClient with
        trace := openClient.trace ++
          [Effect.emit "ctcp".toList
             [Val.str "op".toList, Val.ofOpt (some "me".toList), Val.str "VERSION".toList,
              Val.str "privmsg".toList],
           Effect.emit "ctcp-privmsg".toList
             [Val.str "op".toList, Val.ofOpt (some "me".toList), Val.str "VERSION".toList],
           Effect.emit "ctcp-version".toList
             [Val.str "op".toList, Val.ofOpt (some "me".toList)]] }) ∧
    rawListener openClient (userMessage "PRIVMSG".toList
        ["me".toList, "\x01VERSION x\x01".toList]) = some (Result.ok
      { openClient with
        trace := openClient.trace ++
          [Effect.emit "ctcp".toList
             [Val.str "op".toList, Val.ofOpt (some "me".toList),
              Val.str ("VERSION".toList ++ ' ' :: "x".toList), Val.str "privmsg".toList],
           Effect.emit "ctcp-privmsg".toList
             [Val.str "op".toList, Val.ofOpt (some "me".toList),
              Val.str ("VERSION".toList ++ ' ' :: "x".toList)]] }) ∧
    (∀ (n : Message) (r : Result), n.command = "NOTICE".toList →
      rawListener openClient n = some r →
      ∀ a, Effect.emit "ctcp-version".toList a ∈ r.state.trace →
        Effect.emit "ctcp-version".toList a ∈ openClient.trace) :=
  version_request openClient
    (userMessage "PRIVMSG".toList ["me".toList, "\x01VERSION\x01".toList])
    (userMessage "PRIVMSG".toList ["me".toList, "\x01VERSION x\x01".toList])
    "op".toList "op".toList [] [] "x".toList ⟨rfl, rfl, rfl⟩ ⟨rfl, rfl, rfl, by decide⟩

/-- Claim C14 fails as stated.  For `\x01VERSION x\x01`, whose verb is `VERSION`
and which has a remainder, the dispatcher emits `ctcp` and `ctcp-privmsg` and no
`ctcp-version`: the event is emitted only when the whole text is `VERSION`. -/
theorem version_with_remainder :
    rawListener openClient (userMessage "PRIVMSG".toList
        ["me".toList, "\x01VERSION x\x01".toList]) =
      some (Result.ok
        { openClient with
          trace :=
            [Effect.emit "ctcp".toList
               [Val.str "op".toList, Val.str "me".toList, Val.str "VERSION x".toList,
                Val.str "privmsg".toList],
             Effect.emit "ctcp-privmsg".toList
               [Val.str "op".toList, Val.str "me".toList, Val.str "VERSION x".toList]] }) := by
  decide

/-- A `NOTICE` only emits events: the state is changed in its trace alone, to
which events are added, so that nothing is written and nothing is queued. -/
theorem notice_only_emits (c : Client) (message : Message) (r : Result)
    (hcmd : message.command = "NOTICE".toList) (hr : rawListener c message = some r) :
    ∃ evs : List Effect, r.state = { c with trace := c.trace ++ evs } ∧
      ∀ e ∈ evs, ∃ n a, e = Effect.emit n a := by
  have e : rawListener c message = some (caseNotice c message) := by
    simp [rawListener, hcmd]
  rw [e] at hr
  have hr' : r = caseNotice c message := (Option.some.inj hr).symm
  subst hr'
  have hnp : ¬ ("notice".toList = "privmsg".toList) := by decide
  unfold caseNotice
  cases message.args[1]? with
  | none => exact ⟨[], by simp [Result.state], by simp⟩
  | some text =>
    simp only
    by_cases hc : isCTCP text = true
    · simp only [hc, if_true, _handleCTCP, hnp, false_and, and_false, if_false]
      by_cases ha : (splitChar ' ' (ctcpText text)).head? = some "ACTION".toList ∧
          (splitChar ' ' (ctcpText text)).length > 1
      · simp only [ha, and_self, if_true, Result.state, Client.emit, Client.record,
          List.append_assoc]
        exact ⟨_, rfl, by simp⟩
      · simp only [ha, if_false, Result.state, Client.emit, Client.record,
          List.append_assoc]
        exact ⟨_, rfl, by simp⟩
    · simp only [hc, Bool.false_eq_true, if_false, Result.state, Client.emit, Client.record]
      exact ⟨_, rfl, by simp⟩

/-- What `_handleCTCP` does for a `PRIVMSG` whose text is framed by the
delimiter and whose verb is `PING`: the events `ctcp` and `ctcp-privmsg`, and
then the reply through `ctcp` when the text has more than one part. -/
theorem handleCTCP_ping (c : Client) (sender : Option Str) (dest : Val) (T junk : Str)
    (hT : '\x01' ∉ T) (hverb : (splitChar ' ' T).head? = some "PING".toList) :
    _handleCTCP c sender dest ('\x01' :: (T ++ '\x01' :: junk)) "privmsg".toList =
      if (splitChar ' ' T).length > 1 then
        ctcp { c with
               trace := c.trace ++
                 [Effect.emit "ctcp".toList
                    [Val.ofOpt sender, dest, Val.str T, Val.str "privmsg".toList],
                  Effect.emit "ctcp-privmsg".toList [Val.ofOpt sender, dest, Val.str T]] }
          sender "notice".toList T
      else
        Result.ok
          { c with
            trace := c.trace ++
              [Effect.emit "ctcp".toList
                 [Val.ofOpt sender, dest, Val.str T, Val.str "privmsg".toList],
               Effect.emit "ctcp-privmsg".toList [Val.ofOpt sender, dest, Val.str T]] } := by
  have hnv : T ≠ "VERSION".toList := by
    intro h
    rw [h] at hverb
    revert hverb
    decide
  have hna : ¬ (some "PING".toList = some "ACTION".toList) := by decide
  unfold _handleCTCP
  simp only [ctcpText_framed T junk hT, hverb, hnv, hna, and_false, false_and, if_false,
    true_and]
  by_cases h : (splitChar ' ' T).length > 1
  · rw [if_pos h, if_pos h]
    simp [Client.emit, Client.record]
  · rw [if_neg h, if_neg h]
    simp [Client.emit, Client.record]

/-- Claim C15, as amended.  On a client without flood protection whose
connection is not flagged, a CTCP-framed `PRIVMSG` `m` from the sender `S` whose
text `T` between the delimiters is `PING`, a space and a remainder makes the
dispatcher emit `ctcp` and `ctcp-privmsg` and then send the wire line
`NOTICE S :\x01T\x01`; a CTCP-framed `PRIVMSG` `m'` whose text between the
delimiters is `PING` alone makes it emit `ctcp` and `ctcp-privmsg` and send
nothing; a `NOTICE` writes nothing and queues nothing. -/
theorem ping_reply (c : Client) (conn : Conn) (m m' : Message) (S S' junk junk' rest : Str)
    (hc : c.conn = some conn ∧ conn.requestedDisconnect = false ∧ c.cmdQueue = none)
    (hm : m.command = "PRIVMSG".toList ∧ privmsgSender m = some S ∧
      m.args[1]? = some ('\x01' :: (("PING".toList ++ ' ' :: rest) ++ '\x01' :: junk)) ∧
      '\x01' ∉ rest)
    (hm' : m'.command = "PRIVMSG".toList ∧ privmsgSender m' = some S' ∧
      m'.args[1]? = some ('\x01' :: ("PING".toList ++ '\x01' :: junk'))) :
    rawListener c m = some (Result.ok
      { c with
        trace := c.trace ++
          [Effect.emit "ctcp".toList
             [Val.str S, Val.ofOpt m.args[0]?, Val.str ("PING".toList ++ ' ' :: rest),
              Val.str "privmsg".toList],
           Effect.emit "ctcp-privmsg".toList
             [Val.str S, Val.ofOpt m.args[0]?, Val.str ("PING".toList ++ ' ' :: rest)]] ++
          wire ("NOTICE ".toList ++ S ++ " :".toList ++
            '\x01' :: (("PING".toList ++ ' ' :: rest) ++ ['\x01'])) }) ∧
    rawListener c m' = some (Result.ok
      { c with
        trace := c.trace ++
          [Effect.emit "ctcp".toList
             [Val.str S', Val.ofOpt m'.args[0]?, Val.str "PING".toList,
              Val.str "privmsg".toList],
           Effect.emit "ctcp-privmsg".toList
             [Val.str S', Val.ofOpt m'.args[0]?, Val.str "PING".toList]] }) ∧
    (∀ (n : Message) (r : Result), n.command = "NOTICE".toList →
      rawListener c n = some r →
      writes r.state.trace = writes c.trace ∧ r.state.cmdQueue = c.cmdQueue) := by
  obtain ⟨hconn, hflag, hq⟩ := hc
  obtain ⟨hcmd, hs, hargs, hrest⟩ := hm
  obtain ⟨hcmd', hs', hargs'⟩ := hm'
  have e : ∀ (x : Message) (X T J : Str), x.command = "PRIVMSG".toList →
      privmsgSender x = some X → x.args[1]? = some ('\x01' :: (T ++ '\x01' :: J)) →
      rawListener c x =
        some (_handleCTCP c (some X) (Val.ofOpt x.args[0]?)
          ('\x01' :: (T ++ '\x01' :: J)) "privmsg".toList) := by
    intro x X T J h1 h2 h3
    have : rawListener c x = casePrivmsg c x := by
      simp [rawListener, h1]
    rw [this]
    unfold casePrivmsg
    rw [h2, h3]
    simp only [isCTCP_framed, if_true]
  refine ⟨?_, ?_, ?_⟩
  · have hT : '\x01' ∉ "PING".toList ++ ' ' :: rest := by
      simp only [List.mem_append, List.mem_cons, not_or]
      exact ⟨by decide, by decide, hrest⟩
    have hp : splitChar ' ' ("PING".toList ++ ' ' :: rest) =
        "PING".toList :: splitChar ' ' rest :=
      splitChar_word_sep ' ' _ rest (by decide)
    have hlen : (splitChar ' ' rest).length > 0 :=
      List.length_pos.mpr (splitChar_ne_nil ' ' rest)
    have hverb : (splitChar ' ' ("PING".toList ++ ' ' :: rest)).head? = some "PING".toList := by
      rw [hp, List.head?_cons]
    have hl : (splitChar ' ' ("PING".toList ++ ' ' :: rest)).length > 1 := by
      rw [hp, List.length_cons]
      omega
    rw [e m S _ junk hcmd hs hargs, handleCTCP_ping c (some S) _ _ junk hT hverb, if_pos hl]
    simp [ctcp, notice, send, protoSend, hq, hconn, hflag, Client.emit, Client.record,
      wire, commandText, markLast, join, strOf, Val.ofOpt]
  · rw [e m' S' _ junk' hcmd' hs' hargs',
      handleCTCP_ping c (some S') _ "PING".toList junk' (by decide) (by decide),
      if_neg (by decide)]
    simp [Val.ofOpt]
  · intro n r hn hr
    obtain ⟨evs, hst, hev⟩ := notice_only_emits c n r hn hr
    refine ⟨(notice_quiet c n r hn hr).2, ?_⟩
    rw [hst]

/-- Claim C15 for `\x01PING 123\x01` and `\x01PING\x01` sent by `op` to `me`. -/
theorem ping_reply_witness :
    rawListener openClient (userMessage "PRIVMSG".toList
        ["me".toList, "\x01PING 123\x01".toList]) = some (Result.ok
      { openClient with
        trace := openClient.trace ++
          [Effect.emit "ctcp".toList
             [Val.str "op".toList, Val.ofOpt (some "me".toList),
              Val.str ("PING".toList ++ ' ' :: "123".toList), Val.str "privmsg".toList],
           Effect.emit "ctcp-privmsg".toList
             [Val.str "op".toList, Val.ofOpt (some "me".toList),
              Val.str ("PING".toList ++ ' ' :: "123".toList)]] ++
          wire ("NOTICE ".toList ++ "op".toList ++ " :".toList ++
            '\x01' :: (("PING".toList ++ ' ' :: "123".toList) ++ ['\x01'])) }) ∧
    rawListener openClient (userMessage "PRIVMSG".toList
        ["me".toList, "\x01PING\x01".toList]) = some (Result.ok
      { openClient with
        trace := openClient.trace ++
          [Effect.emit "ctcp".toList
             [Val.str "op".toList, Val.ofOpt (some "me".toList), Val.str "PING".toList,
              Val.str "privmsg".toList],
           Effect.emit "ctcp-privmsg".toList
             [Val.str "op".toList, Val.ofOpt (some "me".toList), Val.str "PING".toList]] }) ∧
    (∀ (n : Message) (r : Result), n.command = "NOTICE".toList →
      rawListener openClient n = some r →
      writes r.state.trace = writes openClient.trace ∧
        r.state.cmdQueue = openClient.cmdQueue) :=
  ping_reply openClient { requestedDisconnect := false, readyState := "open".toList }
    (userMessage "PRIVMSG".toList ["me".toList, "\x01PING 123\x01".toList])
    (userMessage "PRIVMSG".toList ["me".toList, "\x01PING\x01".toList])
    "op".toList "op".toList [] [] "123".toList ⟨rfl, rfl, rfl⟩ ⟨rfl, rfl, rfl, by decide⟩
    ⟨rfl, rfl, rfl⟩

/-- Claim C15 fails as stated.  The request `\x01PING\x01`, whose verb is `PING`
and which has no remainder, sent by `op` to `me`, makes the dispatcher emit
`ctcp` and `ctcp-privmsg` and write nothing: no `NOTICE` goes out. -/
theorem ping_without_remainder :
    rawListener openClient (userMessage "PRIVMSG".toList
        ["me".toList, "\x01PING\x01".toList]) =
      some (Result.ok
        { openClient with
          trace :=
            [Effect.emit "ctcp".toList
               [Val.str "op".toList, Val.str "me".toList, Val.str "PING".toList,
                Val.str "privmsg".toList],
             Effect.emit "ctcp-privmsg".toList
               [Val.str "op".toList, Val.str "me".toList, Val.str "PING".toList]] }) := by
  decide

/-- Claim C16, as amended.  A message whose command is `ERROR`, or whose
`commandType` is `error` and whose command is not a label of the `switch` of the
dispatcher, makes the dispatcher emit `error` with the message, and do nothing
else. -/
theorem error_event (c : Client) (message : Message)
    (h : message.command = "ERROR".toList ∨
      (message.commandType = "error".toList ∧ message.command ∉ caseLabels)) :
    rawListener c message = some (Result.ok (c.emit "error".toList [Val.msg message])) := by
  rcases h with h | ⟨ht, hl⟩
  · simp [rawListener, h, caseError]
  · simp only [caseLabels, List.map, List.mem_cons, List.mem_nil_iff, or_false, not_or] at hl
    unfold rawListener
    simp only [hl, if_false]
    unfold caseDefault
    rw [if_pos ht]

/-- Claim C16 for the line `ERROR :Closing Link` and for the reply
`err_nosuchnick`. -/
theorem error_event_witness :
    rawListener openClient (serverMessage "ERROR".toList ["Closing Link".toList]) =
      some (Result.ok (openClient.emit "error".toList
        [Val.msg (serverMessage "ERROR".toList ["Closing Link".toList])])) ∧
    rawListener openClient
        (errorReply "err_nosuchnick".toList ["me".toList, "No such nick".toList]) =
      some (Result.ok (openClient.emit "error".toList
        [Val.msg (errorReply "err_nosuchnick".toList ["me".toList, "No such nick".toList])])) :=
  ⟨error_event openClient _ (Or.inl rfl),
   error_event openClient _ (Or.inr ⟨rfl, by decide⟩)⟩

/-- Claim C16 fails as stated.  The replies `err_nicknameinuse`, `err_nomotd`
and `err_umodeunknownflag`, whose `commandType` is `error`, have cases of their
own in the dispatcher: the first sends a `NICK` line, the second emits `motd`,
the third does nothing, and none of them emits `error`. -/
theorem error_replies_without_event :
    (errorReply "err_nicknameinuse".toList ["*".toList, "base".toList]).commandType =
        "error".toList ∧
    (rawListener openClient
        (errorReply "err_nicknameinuse".toList ["*".toList, "base".toList])).map
      (fun r => eventNames r.state.trace) = some ["sendLine".toList] ∧
    (rawListener openClient
        (errorReply "err_nomotd".toList ["me".toList, "MOTD File is missing".toList])).map
      (fun r => eventNames r.state.trace) = some ["motd".toList] ∧
    (rawListener openClient
        (errorReply "err_umodeunknownflag".toList
          ["me".toList, "Unknown MODE flag".toList])).map
      (fun r => eventNames r.state.trace) = some [] := by
  decide

/-! ## Flood protection -/

theorem writes_append (a b : List Effect) : writes (a ++ b) = writes a ++ writes b := by
  induction a with
  | nil => rfl
  | cons x xs ih => cases x <;> simp [writes, ih]

/-- The invariant of a run of a client with flood protection, from a queue
`q0`: the run returns; on a connection that is not flagged, what has been
written followed by what is queued is what was queued at the start followed by
what was passed to `send`; on a flagged connection nothing has been written. -/
theorem floodRun_invariant (conn : Conn) (acts : List FloodAction) :
    ∀ (c : Client) (q0 : List (Str × List Str)), c.conn = some conn →
      c.cmdQueue = some q0 →
      ∃ (c' : Client) (q : List (Str × List Str)) (w : List Effect),
        floodRun c acts = Result.ok c' ∧ c'.conn = some conn ∧ c'.cmdQueue = some q ∧
        c'.trace = c.trace ++ w ∧
        (conn.requestedDisconnect = false →
          writes w ++ q.map lineOf = q0.map lineOf ++ sentLines acts) ∧
        (conn.requestedDisconnect = true → writes w = []) := by
  induction acts with
  | nil =>
    intro c q0 hconn hq
    exact ⟨c, q0, [], rfl, hconn, hq, by simp, by simp [writes, sentLines],
      fun _ => rfl⟩
  | cons a acts ih =>
    intro c q0 hconn hq
    cases a with
    | send command rest =>
      obtain ⟨c', q, w, hrun, hc', hq', ht, hu, hf⟩ :=
        ih { c with cmdQueue := some (q0 ++ [(command, rest)]) }
          (q0 ++ [(command, rest)]) hconn rfl
      refine ⟨c', q, w, ?_, hc', hq', ht, ?_, hf⟩
      · simp only [floodRun, floodStep, send, hq, Result.andThen]
        exact hrun
      · intro h
        rw [hu h]
        simp [sentLines]
    | tick =>
      cases q0 with
      | nil =>
        obtain ⟨c', q, w, hrun, hc', hq', ht, hu, hf⟩ := ih c [] hconn hq
        refine ⟨c', q, w, ?_, hc', hq', ht, ?_, hf⟩
        · simp only [floodRun, floodStep, dequeue, hq, Result.andThen]
          exact hrun
        · intro h
          rw [hu h]
          simp [sentLines]
      | cons call queue =>
        cases hflag : conn.requestedDisconnect with
        | false =>
          obtain ⟨c', q, w, hrun, hc', hq', ht, hu, _⟩ :=
            ih { c with
                 cmdQueue := some queue
                 trace := c.trace ++ wire (commandText call.1 call.2) }
              queue hconn rfl
          refine ⟨c', q, wire (commandText call.1 call.2) ++ w, ?_, hc', hq', ?_, ?_, ?_⟩
          · simp only [floodRun, floodStep, dequeue, hq, protoSend, hconn, hflag,
              Result.andThen, Client.emit, Client.record, Bool.not_false, if_true]
            simp only [hconn] at hrun
            rw [← hrun]
            simp [wire]
          · rw [ht]
            simp
          · intro _
            rw [writes_append, List.append_assoc, hu hflag]
            simp [wire, writes, lineOf, sentLines]
          · intro h
            exact absurd h (by simp)
        | true =>
          obtain ⟨c', q, w, hrun, hc', hq', ht, _, hf⟩ :=
            ih { c with cmdQueue := some queue } queue hconn rfl
          refine ⟨c', q, w, ?_, hc', hq', ht, ?_, ?_⟩
          · simp only [floodRun, floodStep, dequeue, hq, protoSend, hconn, hflag,
              Result.andThen, Bool.not_true]
            simp only [hconn] at hrun
            simpa using hrun
          · intro h
            exact absurd h (by simp)
          · intro _
            exact hf hflag

/-- Claim C17.  On a client with a connection on which flood protection has
been activated, every run of calls of `send` and ticks of the flood timer
returns, and after it: the lines written during the run are a prefix of the
lines passed to `send`, in the order of the calls, and on a connection that is
not flagged they are followed in that order by the lines still queued; a
further call of `send` returns without adding to the trace, so that it writes
nothing; a further tick returns and writes nothing on a flagged connection,
and otherwise nothing when the queue is empty and exactly the line of the
oldest queued call when it is not. -/
theorem flood_fifo (c : Client) (conn : Conn) (acts : List FloodAction)
    (hconn : c.conn = some conn) (hq : c.cmdQueue = some []) :
    ∃ (c' : Client) (q : List (Str × List Str)) (w : List Effect),
      floodRun c acts = Result.ok c' ∧ c'.cmdQueue = some q ∧
      c'.trace = c.trace ++ w ∧ writes w <+: sentLines acts ∧
      (conn.requestedDisconnect = false → writes w ++ q.map lineOf = sentLines acts) ∧
      (∀ (command : Str) (rest : List Str), ∃ c'' : Client,
        floodStep c' (FloodAction.send command rest) = Result.ok c'' ∧
        c''.trace = c'.trace) ∧
      (∃ (c'' : Client) (w' : List Effect),
        floodStep c' FloodAction.tick = Result.ok c'' ∧ c''.trace = c'.trace ++ w' ∧
        writes w' =
          if conn.requestedDisconnect then [] else (q.take 1).map lineOf) := by
  obtain ⟨c', q, w, hrun, hc', hq', ht, hu, hf⟩ := floodRun_invariant conn acts c [] hconn hq
  refine ⟨c', q, w, hrun, hq', ht, ?_, ?_, ?_, ?_⟩
  · cases hflag : conn.requestedDisconnect with
    | false =>
      have := hu hflag
      simp only [List.map_nil, List.nil_append] at this
      exact ⟨q.map lineOf, this⟩
    | true =>
      rw [hf hflag]
      exact List.nil_prefix
  · intro h
    have := hu h
    simpa using this
  · intro command rest
    exact ⟨{ c' with cmdQueue := some (q ++ [(command, rest)]) },
      by simp [floodStep, send, hq'], rfl⟩
  · cases q with
    | nil =>
      refine ⟨c', [], ?_, by simp, ?_⟩
      · simp [floodStep, dequeue, hq']
      · cases conn.requestedDisconnect <;> simp [writes]
    | cons call queue =>
      cases hflag : conn.requestedDisconnect with
      | false =>
        refine ⟨{ c' with
                  cmdQueue := some queue
                  trace := c'.trace ++ wire (commandText call.1 call.2) },
          wire (commandText call.1 call.2), ?_, rfl, ?_⟩
        · simp [floodStep, dequeue, hq', protoSend, hc', hflag, Client.emit, Client.record,
            wire]
        · simp [wire, writes, lineOf]
      | true =>
        refine ⟨{ c' with cmdQueue := some queue }, [], ?_, by simp, ?_⟩
        · simp [floodStep, dequeue, hq', protoSend, hc', hflag]
        · simp [writes]

/-- Claim C17 for the run `send A`, `send B`, tick, `send C` on `floodClient`. -/
theorem flood_fifo_witness :
    ∃ (c' : Client) (q : List (Str × List Str)) (w : List Effect),
      floodRun floodClient
        [FloodAction.send "A".toList [], FloodAction.send "B".toList [], FloodAction.tick,
         FloodAction.send "C".toList []] = Result.ok c' ∧ c'.cmdQueue = some q ∧
      c'.trace = floodClient.trace ++ w ∧
      writes w <+: sentLines
        [FloodAction.send "A".toList [], FloodAction.send "B".toList [], FloodAction.tick,
         FloodAction.send "C".toList []] ∧
      ((⟨false, "open".toList⟩ : Conn).requestedDisconnect = false →
        writes w ++ q.map lineOf = sentLines
          [FloodAction.send "A".toList [], FloodAction.send "B".toList [], FloodAction.tick,
           FloodAction.send "C".toList []]) ∧
      (∀ (command : Str) (rest : List Str), ∃ c'' : Client,
        floodStep c' (FloodAction.send command rest) = Result.ok c'' ∧
        c''.trace = c'.trace) ∧
      (∃ (c'' : Client) (w' : List Effect),
        floodStep c' FloodAction.tick = Result.ok c'' ∧ c''.trace = c'.trace ++ w' ∧
        writes w' =
          if (⟨false, "open".toList⟩ : Conn).requestedDisconnect then []
          else (q.take 1).map lineOf) :=
  flood_fifo floodClient ⟨false, "open".toList⟩ _ rfl rfl

/-- Claim C18 fails in the code.  On a client constructed with `floodProtection`
enabled and `autoConnect` left on, which arms the flood timer with
`floodProtectionDelay` and opens a connection, three sends issued at once write
nothing: no line has been written before the first tick.  The first tick
writes the first line, the second tick the second line and the third tick the
third. -/
theorem flood_first_line_waits (opt : Options) (a b d : Str × List Str)
    (hflood : opt.floodProtection = true) (hauto : opt.autoConnect = true) :
    ∃ c0 : Client, construct opt = some (Result.ok c0) ∧
      c0.trace = [Effect.arm Timer.flood opt.floodProtectionDelay,
        Effect.emit "connecting".toList [], Effect.socket] ∧
      c0.cmdQueue = some [] ∧
      writes (floodRun c0
        [FloodAction.send a.1 a.2, FloodAction.send b.1 b.2,
         FloodAction.send d.1 d.2]).state.trace = [] ∧
      writes (floodRun c0
        [FloodAction.send a.1 a.2, FloodAction.send b.1 b.2, FloodAction.send d.1 d.2,
         FloodAction.tick]).state.trace = [lineOf a] ∧
      writes (floodRun c0
        [FloodAction.send a.1 a.2, FloodAction.send b.1 b.2, FloodAction.send d.1 d.2,
         FloodAction.tick, FloodAction.tick]).state.trace = [lineOf a, lineOf b] ∧
      writes (floodRun c0
        [FloodAction.send a.1 a.2, FloodAction.send b.1 b.2, FloodAction.send d.1 d.2,
         FloodAction.tick, FloodAction.tick, FloodAction.tick]).state.trace =
        [lineOf a, lineOf b, lineOf d] := by
  refine ⟨{ opt := { opt with nickMod := none }, nick := none, hostname := none,
            conn := some { requestedDisconnect := false, readyState := "opening".toList },
            prefixForMode := [], modeForPrefix := [], _whoisData := none,
            heartbeatTimeout := false, pingTimeout := false, retryTimeout := false,
            cmdQueue := some [],
            trace := [Effect.arm Timer.flood opt.floodProtectionDelay,
              Effect.emit "connecting".toList [], Effect.socket] },
    ?_, rfl, rfl, ?_, ?_, ?_, ?_⟩
  · simp [construct, hflood, hauto, activateFloodProtection, dequeue, Result.andThen,
      connect, Client.emit, Client.record]
  · simp [floodRun, floodStep, send, Result.andThen, Result.state, Client.emit,
      Client.record, writes]
  · simp [floodRun, floodStep, send, dequeue, protoSend, Result.andThen, Result.state,
      Client.emit, Client.record, writes, lineOf]
  · simp [floodRun, floodStep, send, dequeue, protoSend, Result.andThen, Result.state,
      Client.emit, Client.record, writes, lineOf]
  · simp [floodRun, floodStep, send, dequeue, protoSend, Result.andThen, Result.state,
      Client.emit, Client.record, writes, lineOf]

/-- Claim C18 for the options `floodProtection: true, floodProtectionDelay: 1000`
and the sends `JOIN #a`, `JOIN #b`, `JOIN #c`. -/
theorem flood_first_line_waits_witness :
    ∃ c0 : Client, construct floodOptions = some (Result.ok c0) ∧
      c0.trace = [Effect.arm Timer.flood 1000,
        Effect.emit "connecting".toList [], Effect.socket] ∧
      c0.cmdQueue = some [] ∧
      writes (floodRun c0
        [FloodAction.send "JOIN".toList ["#a".toList],
         FloodAction.send "JOIN".toList ["#b".toList],
         FloodAction.send "JOIN".toList ["#c".toList]]).state.trace = [] ∧
      writes (floodRun c0
        [FloodAction.send "JOIN".toList ["#a".toList],
         FloodAction.send "JOIN".toList ["#b".toList],
         FloodAction.send "JOIN".toList ["#c".toList],
         FloodAction.tick]).state.trace = [lineOf ("JOIN".toList, ["#a".toList])] ∧
      writes (floodRun c0
        [FloodAction.send "JOIN".toList ["#a".toList],
         FloodAction.send "JOIN".toList ["#b".toList],
         FloodAction.send "JOIN".toList ["#c".toList],
         FloodAction.tick, FloodAction.tick]).state.trace =
        [lineOf ("JOIN".toList, ["#a".toList]), lineOf ("JOIN".toList, ["#b".toList])] ∧
      writes (floodRun c0
        [FloodAction.send "JOIN".toList ["#a".toList],
         FloodAction.send "JOIN".toList ["#b".toList],
         FloodAction.send "JOIN".toList ["#c".toList],
         FloodAction.tick, FloodAction.tick, FloodAction.tick]).state.trace =
        [lineOf ("JOIN".toList, ["#a".toList]), lineOf ("JOIN".toList, ["#b".toList]),
         lineOf ("JOIN".toList, ["#c".toList])] :=
  flood_first_line_waits floodOptions ("JOIN".toList, ["#a".toList])
    ("JOIN".toList, ["#b".toList]) ("JOIN".toList, ["#c".toList]) rfl rfl

/-- The lines of the three sends of the example, as they are written. -/
theorem flood_lines_example :
    lineOf ("JOIN".toList, ["#a".toList]) = "JOIN :#a\r\n".toList ∧
    lineOf ("JOIN".toList, ["#b".toList]) = "JOIN :#b\r\n".toList ∧
    lineOf ("JOIN".toList, ["#c".toList]) = "JOIN :#c\r\n".toList := by
  decide

/-! ## Retries -/

/-- One connection attempt that ends and is retried: on a connection that is
not flagged, and with a budget that the attempt counter has not reached, the
listener of `close` emits `close` and arms the retry timer, and the timer
calls `connect` with the attempt counter plus one. -/
theorem retryCycle_step (c : Client) (conn : Conn) (hconn : c.conn = some conn)
    (hflag : conn.requestedDisconnect = false)
    (hlt : ∀ n, c.opt.retryCount = some n → c.attempt < n) :
    retryCycle c = Result.ok
      { c with
        conn := some { requestedDisconnect := false, readyState := "opening".toList }
        attempt := c.attempt + 1
        retryArg := c.attempt + 1
        retryTimeout := false
        trace := c.trace ++ cycleTrace c.opt.retryDelay } := by
  cases hb : c.opt.retryCount with
  | none =>
    simp [retryCycle, transportClose, closeListener, hconn, hflag, hb, scheduleRetry,
      Result.andThen, retryFire, retryTimer, connect, Client.emit, Client.record, cycleTrace]
  | some n =>
    have := hlt n hb
    have h2 : ¬ (c.attempt ≥ n) := by omega
    simp [retryCycle, transportClose, closeListener, hconn, hflag, hb, h2, scheduleRetry,
      Result.andThen, retryFire, retryTimer, connect, Client.emit, Client.record, cycleTrace]

/-- A run of `k` connection attempts that end and are retried, while the
budget lasts. -/
theorem retryCycles_run (k : Nat) :
    ∀ (c : Client) (conn : Conn), c.conn = some conn → conn.requestedDisconnect = false →
      (∀ n, c.opt.retryCount = some n → c.attempt + k ≤ n) →
      ∃ ck : Client, retryCycles k c = Result.ok ck ∧ ck.opt = c.opt ∧
        ck.attempt = c.attempt + k ∧
        (∃ conn', ck.conn = some conn' ∧ conn'.requestedDisconnect = false) ∧
        ck.trace = c.trace ++ (List.replicate k (cycleTrace c.opt.retryDelay)).flatten := by
  induction k with
  | zero =>
    intro c conn hconn hflag _
    exact ⟨c, rfl, rfl, rfl, ⟨conn, hconn, hflag⟩, by simp⟩
  | succ k ih =>
    intro c conn hconn hflag hb
    have hstep := retryCycle_step c conn hconn hflag (fun n hn => by have := hb n hn; omega)
    obtain ⟨ck, hrun, hopt, hatt, hc, ht⟩ :=
      ih { c with
           conn := some { requestedDisconnect := false, readyState := "opening".toList }
           attempt := c.attempt + 1
           retryArg := c.attempt + 1
           retryTimeout := false
           trace := c.trace ++ cycleTrace c.opt.retryDelay }
        { requestedDisconnect := false, readyState := "opening".toList } rfl rfl
        (fun n hn => by have := hb n hn; simp only; omega)
    refine ⟨ck, ?_, hopt, ?_, hc, ?_⟩
    · simp only [retryCycles, hstep, Result.andThen]
      exact hrun
    · rw [hatt]
      simp only
      omega
    · rw [ht]
      simp [List.replicate_succ]

/-- Claim C19.  Let `c` be a client with the retry budget `N`, `u` a client with
no budget (`retryCount` is `null`), both on a first connection that is not
flagged, and `d` a client whose connection is flagged by `disconnect`.
On `c`, for every `k ≤ N`, `k` connection attempts that end one after the other
each emit `close` and arm the retry timer with `retryDelay`, the timer calling
`connect` with the attempt counters `1`, ..., `k`; the close of the attempt
with counter `N` emits `close` and then `abort` with `N`, and changes nothing
else but the state of the socket: no timer is armed.  On `u` every number of
attempts is retried in that way, so that `abort` is never emitted.  On `d` the
close emits `close` only. -/
theorem retry_budget (c u d : Client) (N : Nat)
    (hc : c.opt.retryCount = some N ∧ c.attempt = 0 ∧
      ∃ conn, c.conn = some conn ∧ conn.requestedDisconnect = false)
    (hu : u.opt.retryCount = none ∧ u.attempt = 0 ∧
      ∃ conn, u.conn = some conn ∧ conn.requestedDisconnect = false)
    (hd : ∃ conn, d.conn = some conn ∧ conn.requestedDisconnect = true) :
    (∀ k, k ≤ N → ∃ ck : Client, retryCycles k c = Result.ok ck ∧ ck.attempt = k ∧
      ck.trace = c.trace ++ (List.replicate k (cycleTrace c.opt.retryDelay)).flatten) ∧
    (∃ cN : Client, retryCycles N c = Result.ok cN ∧
      transportClose cN = Result.ok
        { cN with
          conn := cN.conn.map fun conn => { conn with readyState := "closed".toList }
          trace := cN.trace ++
            [Effect.emit "close".toList [], Effect.emit "abort".toList [Val.num N]] }) ∧
    (∀ k, ∃ uk : Client, retryCycles k u = Result.ok uk ∧ uk.attempt = k ∧
      uk.trace = u.trace ++ (List.replicate k (cycleTrace u.opt.retryDelay)).flatten) ∧
    transportClose d = Result.ok
      { d with
        conn := d.conn.map fun conn => { conn with readyState := "closed".toList }
        trace := d.trace ++ [Effect.emit "close".toList []] } := by
  obtain ⟨hN, hatt, conn, hconn, hflag⟩ := hc
  obtain ⟨hU, huatt, uconn, huconn, huflag⟩ := hu
  obtain ⟨dconn, hdconn, hdflag⟩ := hd
  refine ⟨?_, ?_, ?_, ?_⟩
  · intro k hk
    obtain ⟨ck, hrun, _, ha, _, ht⟩ := retryCycles_run k c conn hconn hflag
      (fun n hn => by
        rw [hN] at hn
        have := Option.some.inj hn
        omega)
    exact ⟨ck, hrun, by omega, ht⟩
  · obtain ⟨cN, hrun, hopt, ha, ⟨conn', hc', hf'⟩, _⟩ := retryCycles_run N c conn hconn hflag
      (fun n hn => by
        rw [hN] at hn
        have := Option.some.inj hn
        omega)
    refine ⟨cN, hrun, ?_⟩
    have hb : cN.opt.retryCount = some N := by rw [hopt, hN]
    have hge : cN.attempt ≥ N := by omega
    simp [transportClose, closeListener, hc', hf', hb, hge, Client.emit, Client.record]
  · intro k
    obtain ⟨uk, hrun, _, ha, _, ht⟩ := retryCycles_run k u uconn huconn huflag
      (fun n hn => by
        rw [hU] at hn
        exact absurd hn (by simp))
    exact ⟨uk, hrun, by omega, ht⟩
  · simp [transportClose, closeListener, hdconn, hdflag, Client.emit, Client.record]

/-- Claim C19 for the budget 2 on `openClient`, for `openClient` itself, which
has no budget, and for `flaggedClient`. -/
theorem retry_budget_witness :
    (∀ k, k ≤ 2 → ∃ ck : Client,
      retryCycles k { openClient with opt := { openClient.opt with retryCount := some 2 } } =
        Result.ok ck ∧ ck.attempt = k ∧
      ck.trace = openClient.trace ++
        (List.replicate k (cycleTrace openClient.opt.retryDelay)).flatten) ∧
    (∃ cN : Client,
      retryCycles 2 { openClient with opt := { openClient.opt with retryCount := some 2 } } =
        Result.ok cN ∧
      transportClose cN = Result.ok
        { cN with
          conn := cN.conn.map fun conn => { conn with readyState := "closed".toList }
          trace := cN.trace ++
            [Effect.emit "close".toList [], Effect.emit "abort".toList [Val.num 2]] }) ∧
    (∀ k, ∃ uk : Client, retryCycles k openClient = Result.ok uk ∧ uk.attempt = k ∧
      uk.trace = openClient.trace ++
        (List.replicate k (cycleTrace openClient.opt.retryDelay)).flatten) ∧
    transportClose flaggedClient = Result.ok
      { flaggedClient with
        conn := flaggedClient.conn.map fun conn =>
          { conn with readyState := "closed".toList }
        trace := flaggedClient.trace ++ [Effect.emit "close".toList []] } :=
  retry_budget { openClient with opt := { openClient.opt with retryCount := some 2 } }
    openClient flaggedClient 2 ⟨rfl, rfl, _, rfl, rfl⟩ ⟨rfl, rfl, _, rfl, rfl⟩ ⟨_, rfl, rfl⟩

/-! ## Registration -/

/-- What `send` does on a client without flood protection whose connection is
not flagged: the wire line goes out. -/
theorem send_wire (c : Client) (conn : Conn) (command : Str) (rest : List Str)
    (hconn : c.conn = some conn) (hflag : conn.requestedDisconnect = false)
    (hq : c.cmdQueue = none) :
    send c command rest =
      Result.ok { c with trace := c.trace ++ wire (commandText command rest) } := by
  simp [send, hq, protoSend, hconn, hflag, Client.emit, Client.record, wire]

/-- Claim C20.  On a client without flood protection whose connection is not
flagged, `finishConnecting` returns, and what it changes is the nick, which
becomes the configured nick, and the trace, to which it adds, in this order:
the wire line `PASS :<password>` exactly when the password is set (to a string
that is not empty); the wire line
`WEBIRC <cloakUser> <cloakPasswd> <ircvHost> :127.0.0.1` exactly when the three
options are set; the wire line `NICK :<nick>`; the wire line
`USER <userName> 8 * :<realName>`; the event `connect`. -/
theorem registration_lines (c : Client) (conn : Conn)
    (hconn : c.conn = some conn) (hflag : conn.requestedDisconnect = false)
    (hq : c.cmdQueue = none) :
    finishConnecting c = Result.ok
      { c with
        nick := some c.opt.nick
        trace := c.trace ++
          (if isSet c.opt.password then wire ("PASS :".toList ++ strOf c.opt.password)
            else []) ++
          (if isSet c.opt.cloakUser && isSet c.opt.cloakPasswd && isSet c.opt.ircvHost then
            wire ("WEBIRC ".toList ++ strOf c.opt.cloakUser ++ " ".toList ++
              strOf c.opt.cloakPasswd ++ " ".toList ++ strOf c.opt.ircvHost ++
              " :127.0.0.1".toList)
            else []) ++
          wire ("NICK :".toList ++ c.opt.nick) ++
          wire ("USER ".toList ++ c.opt.userName ++ " 8 * :".toList ++ c.opt.realName) ++
          [Effect.emit "connect".toList []] } := by
  unfold finishConnecting
  cases hp : isSet c.opt.password <;>
    cases hw : (isSet c.opt.cloakUser && isSet c.opt.cloakPasswd && isSet c.opt.ircvHost) <;>
    simp [hp, hw, send, protoSend, hq, hconn, hflag, Client.emit, Client.record, wire,
      Result.andThen, commandText, markLast, join]

/-- Claim C20 for a configuration with a password and the three cloak options,
and the lines that it writes. -/
theorem registration_lines_witness :
    finishConnecting
        { openClient with
          opt := { openClient.opt with
                   password := some "pw".toList, cloakUser := some "u".toList,
                   cloakPasswd := some "p".toList, ircvHost := some "h".toList } } =
      Result.ok
        { openClient with
          opt := { openClient.opt with
                   password := some "pw".toList, cloakUser := some "u".toList,
                   cloakPasswd := some "p".toList, ircvHost := some "h".toList }
          nick := some "base".toList
          trace := [] ++
            (if isSet (some "pw".toList) then wire ("PASS :".toList ++ strOf (some "pw".toList))
              else []) ++
            (if isSet (some "u".toList) && isSet (some "p".toList) && isSet (some "h".toList) then
              wire ("WEBIRC ".toList ++ strOf (some "u".toList) ++ " ".toList ++
                strOf (some "p".toList) ++ " ".toList ++ strOf (some "h".toList) ++
                " :127.0.0.1".toList)
              else []) ++
            wire ("NICK :".toList ++ "base".toList) ++
            wire ("USER ".toList ++ "nodebot".toList ++ " 8 * :".toList ++
              "nodeJS IRC client".toList) ++
            [Effect.emit "connect".toList []] } ∧
    writes (finishConnecting
        { openClient with
          opt := { openClient.opt with
                   password := some "pw".toList, cloakUser := some "u".toList,
                   cloakPasswd := some "p".toList, ircvHost := some "h".toList } }).state.trace =
      ["PASS :pw\r\n".toList, "WEBIRC u p h :127.0.0.1\r\n".toList, "NICK :base\r\n".toList,
       "USER nodebot 8 * :nodeJS IRC client\r\n".toList] ∧
    writes (finishConnecting openClient).state.trace =
      ["NICK :base\r\n".toList, "USER nodebot 8 * :nodeJS IRC client\r\n".toList] :=
  ⟨registration_lines _ { requestedDisconnect := false, readyState := "open".toList }
    rfl rfl rfl, by decide, by decide⟩

/-! ## Timers after `disconnect` -/

/-- Claim C21 fails on the code.  `disconnect` on a client with a connection
returns with the heartbeat interval and the retry timer cleared, so that
neither fires afterwards; it does not clear the ping timeout: on a client whose
ping timeout is pending, the timeout is still pending when `disconnect` has
returned, and when it fires it emits `netError` and destroys the socket. -/
theorem disconnect_keeps_ping_timeout (c : Client) (conn : Conn) (message : Option Str)
    (callback : Bool) (hconn : c.conn = some conn) (hping : c.pingTimeout = true) :
    ∃ c' : Client, disconnect c message callback = Result.ok c' ∧
      c'.heartbeatTimeout = false ∧ c'.retryTimeout = false ∧ c'.pingTimeout = true ∧
      heartbeatFire c' = Result.ok c' ∧ retryFire c' = Result.ok c' ∧
      pingFire c' = Result.ok
        { c' with
          pingTimeout := false
          trace := c'.trace ++
            [Effect.emit "netError".toList [Val.str "ping timeout, reconnecting".toList],
             Effect.destroy] } := by
  have key : ∃ c' : Client, disconnect c message callback = Result.ok c' ∧
      c'.heartbeatTimeout = false ∧ c'.retryTimeout = false ∧ c'.pingTimeout = true ∧
      c'.conn = some { conn with requestedDisconnect := true } := by
    unfold disconnect
    cases hh : c.heartbeatTimeout <;> cases hr : c.retryTimeout <;>
      cases hq : c.cmdQueue <;> cases callback <;>
      by_cases ho : conn.readyState = ['o', 'p', 'e', 'n'] <;>
      simp [stopHeartbeat, hh, hr, hq, hconn, hping, ho, send, protoSend, Client.record,
        Result.andThen]
  obtain ⟨c', hd, h1, h2, h3, h4⟩ := key
  refine ⟨c', hd, h1, h2, h3, ?_, ?_, ?_⟩
  · simp [heartbeatFire, h1]
  · simp [retryFire, h2]
  · simp [pingFire, h3, pingTimeoutExpired, h4, Client.emit, Client.record]

/-- Claim C21 for `disconnect()` on `pingedClient`. -/
theorem disconnect_keeps_ping_timeout_witness :
    ∃ c' : Client, disconnect pingedClient none false = Result.ok c' ∧
      c'.heartbeatTimeout = false ∧ c'.retryTimeout = false ∧ c'.pingTimeout = true ∧
      heartbeatFire c' = Result.ok c' ∧ retryFire c' = Result.ok c' ∧
      pingFire c' = Result.ok
        { c' with
          pingTimeout := false
          trace := c'.trace ++
            [Effect.emit "netError".toList [Val.str "ping timeout, reconnecting".toList],
             Effect.destroy] } :=
  disconnect_keeps_ping_timeout pingedClient
    { requestedDisconnect := false, readyState := "open".toList } none false rfl rfl

/-- How the state of claim C21 comes about, and what follows.  On `openClient`
the welcome `001` arms the heartbeat; the heartbeat sends `PING` and arms the
ping timeout; `disconnect()` clears the heartbeat and destroys the socket; the
ping timeout then fires: `netError` is emitted after the disconnect. -/
theorem ping_timeout_after_disconnect :
    ((rawListener openClient
        (serverMessage "001".toList ["base".toList, "Welcome".toList])).map fun r =>
      (((r.andThen heartbeat).andThen fun c => disconnect c none false).andThen
        pingFire).state.trace.drop 1) =
      some
        [Effect.arm Timer.heartbeat 120000,
         Effect.emit "sendLine".toList [Val.str "PING irc.example.com ".toList],
         Effect.write "PING irc.example.com \r\n".toList,
         Effect.arm Timer.ping 30000,
         Effect.clear Timer.heartbeat,
         Effect.destroy,
         Effect.emit "netError".toList [Val.str "ping timeout, reconnecting".toList],
         Effect.destroy] := by
  decide

/-! ## The prefix of a message -/

theorem takeWhile_append_dropWhile (p : Char → Bool) (s : Str) :
    s.takeWhile p ++ s.dropWhile p = s := by
  induction s with
  | nil => rfl
  | cons c cs ih =>
    by_cases h : p c = true
    · simp [List.takeWhile_cons, List.dropWhile_cons, h, ih]
    · simp [List.takeWhile_cons, List.dropWhile_cons, h]

theorem mem_takeWhile_imp (p : Char → Bool) (s : Str) :
    ∀ ch ∈ s.takeWhile p, p ch = true := by
  induction s with
  | nil => simp
  | cons c cs ih =>
    intro ch hch
    by_cases h : p c = true
    · simp only [List.takeWhile_cons, h, if_true, List.mem_cons] at hch
      rcases hch with rfl | hch
      · exact h
      · exact ih ch hch
    · simp [List.takeWhile_cons, h] at hch

/-- A line that does not start with a colon has no prefix. -/
theorem matchPrefix_no_colon (l : Str) (h : l.head? ≠ some ':') : matchPrefix l = none := by
  cases l with
  | nil => rfl
  | cons x xs =>
    have hx : x ≠ ':' := by
      rintro rfl
      exact h rfl
    unfold matchPrefix
    split
    · rename_i heq
      simp only [List.cons.injEq] at heq
      exact absurd heq.1 hx
    · rfl

/-- A line that starts with a colon, a token and a space has the token as its
prefix. -/
theorem matchPrefix_token (tok rest : Str) (hne : tok ≠ []) (hsp : ' ' ∉ tok) :
    matchPrefix (':' :: (tok ++ ' ' :: rest)) = some (tok, rest.dropWhile isSpace) := by
  have hP : ∀ c ∈ tok, (!isSpace c) = true := fun c hc => by
    simp [isSpace_false_of_not_mem hsp c hc]
  unfold matchPrefix
  simp only
  rw [takeWhile_append_stop _ _ _ _ hP (by decide),
    dropWhile_append_stop _ _ _ _ hP (by decide)]
  have h1 : (' ' :: rest).dropWhile isSpace = rest.dropWhile isSpace := by
    rw [List.dropWhile_cons]
    simp [isSpace]
  rw [h1]
  cases tok with
  | nil => exact absurd rfl hne
  | cons _ _ => simp

/-- What the prefix expression yields fits the grammar. -/
theorem matchNickUserHost_sound (p nick : Str) (user host : Option Str)
    (h : matchNickUserHost p = some (nick, user, host)) : FitsGrammar p nick user host := by
  unfold matchNickUserHost at h
  have hsplit := takeWhile_append_dropWhile isNickChar p
  have hnick := mem_takeWhile_imp isNickChar p
  generalize p.takeWhile isNickChar = n at h hsplit hnick
  generalize hd : p.dropWhile isNickChar = d at h hsplit
  simp only at h
  cases d with
  | nil =>
    simp only [Option.some.injEq, Prod.mk.injEq] at h
    obtain ⟨rfl, rfl, rfl⟩ := h
    exact ⟨hnick, Or.inl ⟨rfl, rfl, by simpa using hsplit.symm⟩⟩
  | cons x r =>
    by_cases hx : x = '!'
    · subst hx
      simp only at h
      have hsplit2 := takeWhile_append_dropWhile (fun c => c != '@') r
      have huser := mem_takeWhile_imp (fun c => c != '@') r
      generalize r.takeWhile (fun c => c != '@') = u at h hsplit2 huser
      generalize r.dropWhile (fun c => c != '@') = e at h hsplit2
      cases e with
      | nil => simp at h
      | cons y hst =>
        by_cases hy : y = '@'
        · subst hy
          simp only at h
          by_cases hc : (!u.isEmpty && hst.all (fun c => !isLineTerminator c)) = true
          · rw [if_pos hc] at h
            simp only [Option.some.injEq, Prod.mk.injEq] at h
            obtain ⟨rfl, rfl, rfl⟩ := h
            simp only [Bool.and_eq_true, Bool.not_eq_true', List.all_eq_true] at hc
            refine ⟨hnick, Or.inr ⟨u, hst, rfl, rfl, ?_, ?_, ?_, ?_⟩⟩
            · intro hu
              rw [hu] at hc
              simp at hc
            · intro hmem
              have := huser '@' hmem
              simp at this
            · intro ch hch
              simpa using hc.2 ch hch
            · rw [← hsplit, ← hsplit2]
          · rw [if_neg hc] at h
            simp at h
        · exfalso
          revert h
          split <;> simp_all
    · exfalso
      revert h
      split <;> simp_all

/-- A prefix that fits the grammar is decomposed by the prefix expression in
that way. -/
theorem matchNickUserHost_complete (p nick : Str) (user host : Option Str)
    (h : FitsGrammar p nick user host) : matchNickUserHost p = some (nick, user, host) := by
  obtain ⟨hnick, h | ⟨u, hst, rfl, rfl, hu, hat, hhost, rfl⟩⟩ := h
  · obtain ⟨rfl, rfl, rfl⟩ := h
    unfold matchNickUserHost
    simp only
    rw [takeWhile_all _ _ hnick, dropWhile_all _ _ hnick]
  · have huP : ∀ c ∈ u, (c != '@') = true := by
      intro c hc
      simp only [bne_iff_ne, ne_eq]
      rintro rfl
      exact hat hc
    unfold matchNickUserHost
    simp only
    rw [takeWhile_append_stop _ _ _ _ hnick (by decide),
      dropWhile_append_stop _ _ _ _ hnick (by decide)]
    simp only
    rw [takeWhile_append_stop _ _ _ _ huP (by decide),
      dropWhile_append_stop _ _ _ _ huP (by decide)]
    have hue : u.isEmpty = false := by
      cases u with
      | nil => exact absurd rfl hu
      | cons _ _ => rfl
    have hh : hst.all (fun c => !isLineTerminator c) = true := by
      rw [List.all_eq_true]
      intro c hc
      simp [hhost c hc]
    simp [hue, hh]

/-- Claim C22, as amended.  Let `parseMessage` accept a line and return `m`, and
let `l` be the line that it takes apart (the line given, after the removal of
the colour codes when `stripColors` is set).  If `l` does not start with a
colon, then `m` has no prefix, nick, user, host or server.  If `l` is a colon, a
non-empty token `tok` without a space, a space and a rest, then the prefix of
`m` is `tok`, and either `tok` fits the grammar (see `FitsGrammar`: possibly
empty nick of nick characters, and optionally `!`, a non-empty user without
`@`, `@`, and a host without a line terminator), `m` has the nick, the user and
the host of that decomposition and no server; or `tok` does not fit the grammar
in any way, the server of `m` is `tok`, and `m` has no nick, user or host. -/
theorem prefix_fields (replyFor : Str → Option Reply) (line : Str) (stripColors : Bool)
    (m : Message) (h : parseMessage replyFor line stripColors = some m) :
    ((parsedLine line stripColors).head? ≠ some ':' →
      m.pfx = none ∧ m.nick = none ∧ m.user = none ∧ m.host = none ∧ m.server = none) ∧
    (∀ tok rest : Str, parsedLine line stripColors = ':' :: (tok ++ ' ' :: rest) →
      tok ≠ [] → ' ' ∉ tok →
      m.pfx = some tok ∧
      ((∃ nick, m.nick = some nick ∧ FitsGrammar tok nick m.user m.host ∧ m.server = none) ∨
       (m.server = some tok ∧ m.nick = none ∧ m.user = none ∧ m.host = none ∧
         ∀ nick user host, ¬ FitsGrammar tok nick user host))) := by
  have hl : parseMessage replyFor line stripColors =
      parseMessage replyFor (parsedLine line stripColors) false := by
    cases stripColors <;> simp [parseMessage, parsedLine]
  rw [hl] at h
  generalize parsedLine line stripColors = l at h
  constructor
  · intro hhead
    have hpre := matchPrefix_no_colon l hhead
    cases hmc : matchCommand l with
    | none => simp [parseMessage, hpre, hmc] at h
    | some raw =>
      rw [parseMessage_unprefixed replyFor l raw hpre hmc] at h
      have := (Option.some.inj h).symm
      subst this
      exact ⟨rfl, rfl, rfl, rfl, rfl⟩
  · intro tok rest hline hne hsp
    have hpre : matchPrefix l = some (tok, rest.dropWhile isSpace) := by
      rw [hline]
      exact matchPrefix_token tok rest hne hsp
    cases hmc : matchCommand (rest.dropWhile isSpace) with
    | none => simp [parseMessage, hpre, hmc] at h
    | some raw =>
      rw [parseMessage_prefixed replyFor l tok _ raw hpre hmc] at h
      have := (Option.some.inj h).symm
      subst this
      refine ⟨rfl, ?_⟩
      cases hw : matchNickUserHost tok with
      | none =>
        right
        refine ⟨rfl, rfl, rfl, rfl, ?_⟩
        intro nick user host hfit
        rw [matchNickUserHost_complete tok nick user host hfit] at hw
        exact absurd hw (by simp)
      | some w =>
        left
        obtain ⟨nick, user, host⟩ := w
        exact ⟨nick, rfl, matchNickUserHost_sound tok nick user host hw, rfl⟩

/-- Claim C22 at the lines `PING :irc.example.com` (no prefix),
`:irc.example.com 001 me :Welcome` (a prefix that does not fit the grammar: the
server is set) and `:nick!u@h PRIVMSG #chan :hi` (a prefix that fits it). -/
theorem prefix_fields_witness :
    (parseMessage noReplies "PING :irc.example.com".toList false =
        some { pfx := none, nick := none, user := none, host := none, server := none,
               command := "PING".toList, rawCommand := "PING".toList,
               commandType := "normal".toList, args := ["irc.example.com".toList] } ∧
      Message.pfx (Message.mk none none none none none "PING".toList "PING".toList
        "normal".toList ["irc.example.com".toList]) = none) ∧
    (parseMessage noReplies ":irc.example.com 001 me :Welcome".toList false =
        some { pfx := some "irc.example.com".toList, nick := none, user := none,
               host := none, server := some "irc.example.com".toList,
               command := "001".toList, rawCommand := "001".toList,
               commandType := "normal".toList,
               args := ["me".toList, "Welcome".toList] } ∧
      ∀ nick user host, ¬ FitsGrammar "irc.example.com".toList nick user host) ∧
    (parseMessage noReplies ":nick!u@h PRIVMSG #chan :hi".toList false =
        some { pfx := some "nick!u@h".toList, nick := some "nick".toList,
               user := some "u".toList, host := some "h".toList, server := none,
               command := "PRIVMSG".toList, rawCommand := "PRIVMSG".toList,
               commandType := "normal".toList,
               args := ["#chan".toList, "hi".toList] } ∧
      FitsGrammar "nick!u@h".toList "nick".toList (some "u".toList) (some "h".toList)) := by
  refine ⟨⟨by decide, ?_⟩, ⟨by decide, ?_⟩, ⟨by decide, ?_⟩⟩
  · exact ((prefix_fields noReplies "PING :irc.example.com".toList false
      (Message.mk none none none none none "PING".toList "PING".toList
        "normal".toList ["irc.example.com".toList]) (by decide)).1 (by decide)).1
  · have h := (prefix_fields noReplies ":irc.example.com 001 me :Welcome".toList false
      { pfx := some "irc.example.com".toList, nick := none, user := none,
        host := none, server := some "irc.example.com".toList,
        command := "001".toList, rawCommand := "001".toList,
        commandType := "normal".toList,
        args := ["me".toList, "Welcome".toList] } (by decide)).2
      "irc.example.com".toList "001 me :Welcome".toList (by decide) (by decide) (by decide)
    rcases h.2 with ⟨nick, hn, _, _⟩ | ⟨_, _, _, _, hno⟩
    · exact absurd hn (by simp)
    · exact hno
  · have h := (prefix_fields noReplies ":nick!u@h PRIVMSG #chan :hi".toList false
      { pfx := some "nick!u@h".toList, nick := some "nick".toList,
        user := some "u".toList, host := some "h".toList, server := none,
        command := "PRIVMSG".toList, rawCommand := "PRIVMSG".toList,
        commandType := "normal".toList,
        args := ["#chan".toList, "hi".toList] } (by decide)).2
      "nick!u@h".toList "PRIVMSG #chan :hi".toList (by decide) (by decide) (by decide)
    rcases h.2 with ⟨nick, hn, hfit, _⟩ | ⟨hs, _, _, _, _⟩
    · simp only [Option.some.injEq] at hn
      subst hn
      exact hfit
    · exact absurd hs (by simp)

/-- Claim C22 fails as stated.  In the line `:n!u@hRx PING :1`, with `R` a
carriage return, the prefix has the form `nick!user@host` with the nick `n`,
the user `u` and the host `hRx`, and the parser sets the server, not the nick:
the host part of the expression is `.*`, and `.` does not match a line
terminator.  The same holds with the line separator U+2028 for `R`. -/
theorem prefix_line_terminator_gives_server :
    parseMessage noReplies ":n!u@h\rx PING :1".toList false =
      some { pfx := some "n!u@h\rx".toList, nick := none, user := none, host := none,
             server := some "n!u@h\rx".toList, command := "PING".toList,
             rawCommand := "PING".toList, commandType := "normal".toList,
             args := ["1".toList] } ∧
    parseMessage noReplies ":n!u@h\u2028x PING :1".toList false =
      some { pfx := some "n!u@h\u2028x".toList, nick := none, user := none, host := none,
             server := some "n!u@h\u2028x".toList, command := "PING".toList,
             rawCommand := "PING".toList, commandType := "normal".toList,
             args := ["1".toList] } := by
  constructor <;> decide

/-! ## Colour codes -/

/-- Dropping the characters of a match one by one is dropping them at once. -/
theorem stripFrom_drop (n : Nat) : ∀ s : Str, stripFrom n s = stripFrom 0 (s.drop n) := by
  induction n with
  | zero => intro s; rfl
  | succ n ih =>
    intro s
    cases s with
    | nil => rfl
    | cons c cs =>
      simp only [stripFrom, List.drop_succ_cons]
      exact ih cs

theorem dropDigits_two (s : Str) : dropDigits 2 s = s.drop (digits2 s) := by
  match s with
  | [] => rfl
  | [a] =>
    by_cases ha : isDigit a = true
    · simp [dropDigits, digits2, ha]
    · simp [dropDigits, digits2, ha]
  | a :: b :: r =>
    by_cases ha : isDigit a = true
    · by_cases hb : isDigit b = true
      · simp [dropDigits, digits2, ha, hb]
      · simp [dropDigits, digits2, ha, hb]
    · simp [dropDigits, digits2, ha]

theorem dropColourArgs_eq (s : Str) : dropColourArgs s = s.drop (colourLen s) := by
  unfold dropColourArgs colourLen
  rw [dropDigits_two]
  cases h : s.drop (digits2 s) with
  | nil => simp [h]
  | cons x r =>
    by_cases hx : x = ','
    · subst hx
      simp only
      rw [dropDigits_two]
      have : s.drop (digits2 s + 1 + digits2 r) = (s.drop (digits2 s)).drop (1 + digits2 r) := by
        rw [List.drop_drop]
        congr 1
        omega
      rw [this, h]
      simp [Nat.add_comm 1, List.drop_succ_cons]
    · split
      · rename_i heq
        simp only [List.cons.injEq] at heq
        exact absurd heq.1 hx
      · split
        · rename_i heq
          simp only [List.cons.injEq] at heq
          exact absurd heq.1 hx
        · exact h.symm

theorem dropColourArgs_length (s : Str) : (dropColourArgs s).length ≤ s.length := by
  rw [dropColourArgs_eq]
  simp

/-- The replacement done by the source is the removal that `clean` describes. -/
theorem stripColorCodes_eq_clean (line : Str) : stripColorCodes line = clean line := by
  unfold stripColorCodes
  have main : ∀ (n : Nat) (s : Str), s.length ≤ n → stripFrom 0 s = clean s := by
    intro n
    induction n with
    | zero =>
      intro s hs
      have : s = [] := List.length_eq_zero.1 (Nat.le_zero.1 hs)
      subst this
      simp [stripFrom, clean]
    | succ n ih =>
      intro s hs
      cases s with
      | nil => simp [stripFrom, clean]
      | cons c cs =>
        have hcs : cs.length ≤ n := by simpa using hs
        rw [clean]
        simp only [stripFrom]
        by_cases hf : isFormatChar c = true
        · simp only [hf, if_true]
          exact ih cs hcs
        · simp only [hf, Bool.false_eq_true, if_false]
          by_cases h3 : (c == '\x03') = true
          · simp only [h3, if_true]
            rw [stripFrom_drop, ← dropColourArgs_eq]
            exact ih _ (Nat.le_trans (dropColourArgs_length cs) hcs)
          · simp only [h3, Bool.false_eq_true, if_false]
            rw [ih cs hcs]
  exact main line.length line (Nat.le_refl _)

/-- A line without formatting characters and without the colour character is
left as it is. -/
theorem clean_plain (line : Str)
    (h : ∀ ch ∈ line, isFormatChar ch = false ∧ ch ≠ '\x03') : clean line = line := by
  induction line with
  | nil => simp [clean]
  | cons c cs ih =>
    have hc := h c (by simp)
    have h3 : (c == '\x03') = false := by simpa using hc.2
    rw [clean]
    simp only [hc.1, h3, Bool.false_eq_true, if_false]
    rw [ih (fun ch hch => h ch (by simp [hch]))]

/-- Nothing of what `clean` removes is left in its result: no formatting
character and no colour character. -/
theorem clean_removes (line : Str) :
    ∀ ch ∈ clean line, isFormatChar ch = false ∧ ch ≠ '\x03' := by
  have main : ∀ (n : Nat) (s : Str), s.length ≤ n →
      ∀ ch ∈ clean s, isFormatChar ch = false ∧ ch ≠ '\x03' := by
    intro n
    induction n with
    | zero =>
      intro s hs
      have : s = [] := List.length_eq_zero.1 (Nat.le_zero.1 hs)
      subst this
      simp [clean]
    | succ n ih =>
      intro s hs
      cases s with
      | nil => simp [clean]
      | cons c cs =>
        have hcs : cs.length ≤ n := by simpa using hs
        rw [clean]
        by_cases hf : isFormatChar c = true
        · simp only [hf, if_true]
          exact ih cs hcs
        · simp only [hf, Bool.false_eq_true, if_false]
          by_cases h3 : (c == '\x03') = true
          · simp only [h3, if_true]
            exact ih _ (Nat.le_trans (dropColourArgs_length cs) hcs)
          · simp only [h3, Bool.false_eq_true, if_false]
            intro ch hch
            simp only [List.mem_cons] at hch
            rcases hch with rfl | hch
            · exact ⟨by simpa using hf, by simpa using h3⟩
            · exact ih cs hcs ch hch
  exact main line.length line (Nat.le_refl _)

/-- Claim C23, as amended.  For every line and every command table,
`parseMessage(line, true)` is `parseMessage(clean(line), false)`, where `clean`
removes each of the characters `\x02`, `\x1f`, `\x16` and `\x0f` and each colour
sequence made of the colour character `\x03`, up to two digits, and optionally
a comma followed by up to two digits, and keeps every other character: a comma
right after a colour code is removed whether or not digits follow it. -/
theorem strip_colours (replyFor : Str → Option Reply) (line : Str) :
    parseMessage replyFor line true = parseMessage replyFor (clean line) false := by
  rw [← stripColorCodes_eq_clean]
  simp [parseMessage]

/-- Claim C23 fails as stated.  In `PRIVMSG #c :\x034,hello` the comma after the
colour code `\x034` is not followed by two digits, and it is removed with the
colour code: the text parsed is `hello`, not `,hello`.  In
`PRIVMSG #c :\x034,5x` the comma is followed by one digit, and both are removed
too. -/
theorem colour_comma_removed :
    parseMessage noReplies "PRIVMSG #c :\x034,hello".toList true =
      parseMessage noReplies "PRIVMSG #c :hello".toList false ∧
    parseMessage noReplies "PRIVMSG #c :\x034,hello".toList true ≠
      parseMessage noReplies "PRIVMSG #c :,hello".toList false ∧
    parseMessage noReplies "PRIVMSG #c :\x034,5x".toList true =
      parseMessage noReplies "PRIVMSG #c :x".toList false ∧
    parseMessage noReplies "PRIVMSG #c :\x034,5x".toList true ≠
      parseMessage noReplies "PRIVMSG #c :,5x".toList false := by
  refine ⟨by decide, by decide, by decide, by decide⟩

/-! ## Parsing what `send` has framed -/

/-- Claim C24.  Let `command` and `a1`, ..., `a(n-1)` (the list `ws`) be words:
non-empty strings without a space and without a colon; let `an` (`last`) be a
non-empty string.  On a connection that is not flagged,
`Client.prototype.send(command, a1, ..., an)` emits `sendLine` with a text, and
`parseMessage` with `stripColors` unset turns that text into a message with no
prefix, nick, user, host or server, with the raw command `command` and with the
arguments `a1`, ..., `an`. -/
theorem parse_undoes_send (replyFor : Str → Option Reply) (c : Client) (conn : Conn)
    (command : Str) (ws : List Str) (last : Str)
    (hconn : c.conn = some conn) (hflag : conn.requestedDisconnect = false)
    (hcommand : IsWord command) (hws : ∀ w ∈ ws, IsWord w) (hlast : last ≠ []) :
    ∃ text : Str,
      protoSend c command (ws ++ [last]) =
        Result.ok { c with trace := c.trace ++ wire text } ∧
      parseMessage replyFor text false = some
        { pfx := none, nick := none, user := none, host := none, server := none
          command := match replyFor command with
            | some r => r.name
            | none => command
          rawCommand := command
          commandType := match replyFor command with
            | some r => r.type
            | none => "normal".toList
          args := ws ++ [last] } := by
  refine ⟨commandText command (ws ++ [last]), ?_, ?_⟩
  · simp [protoSend, hconn, hflag, Client.emit, Client.record, wire]
  · obtain ⟨hne, hsp, hcol⟩ := hcommand
    have htext : commandText command (ws ++ [last]) =
        command ++ ' ' :: join [' '] (ws ++ [(':' :: last)]) := by
      rw [commandText_eq command (ws ++ [last]) (by simp)]
      simp
    have hP : ∀ ch ∈ command, (!isSpace ch) = true := fun ch hch => by
      simp [isSpace_false_of_not_mem hsp ch hch]
    -- what follows the command starts with a character that is not a space
    have hrest : ∃ x xs, join [' '] (ws ++ [(':' :: last)]) = x :: xs ∧ isSpace x = false := by
      cases ws with
      | nil => exact ⟨':', last, by simp [join], by decide⟩
      | cons w rest =>
        obtain ⟨hw1, hw2, _⟩ := hws w (by simp)
        cases w with
        | nil => exact absurd rfl hw1
        | cons y ys =>
          have hy : isSpace y = false := isSpace_false_of_not_mem hw2 y (by simp)
          cases hr : rest ++ [(':' :: last)] with
          | nil => simp at hr
          | cons z zs =>
            refine ⟨y, ys ++ [' '] ++ join [' '] (z :: zs), ?_, hy⟩
            simp [join, hr]
    obtain ⟨x, xs, hj, hx⟩ := hrest
    have hpre : matchPrefix (command ++ ' ' :: join [' '] (ws ++ [(':' :: last)])) = none := by
      cases command with
      | nil => exact absurd rfl hne
      | cons k ks =>
        have hk : k ≠ ':' := by
          rintro rfl
          exact hcol (by simp)
        exact matchPrefix_no_colon _ (by simpa using hk)
    have hmc : matchCommand (command ++ ' ' :: join [' '] (ws ++ [(':' :: last)])) =
        some command := by
      unfold matchCommand
      simp only
      rw [takeWhile_append_stop _ _ _ _ hP (by decide)]
      cases command with
      | nil => exact absurd rfl hne
      | cons _ _ => rfl
    have hdc : dropCommand (command ++ ' ' :: join [' '] (ws ++ [(':' :: last)])) =
        join [' '] (ws ++ [(':' :: last)]) := by
      unfold dropCommand
      simp only
      rw [takeWhile_append_stop _ _ _ _ hP (by decide),
        dropWhile_append_stop _ _ _ _ hP (by decide), hj]
      have h1 : (' ' :: x :: xs).dropWhile isSpace = x :: xs := by
        have hx' : x ≠ ' ' := by simpa [isSpace] using hx
        simp [List.dropWhile_cons, isSpace, hx']
      rw [h1]
      cases command with
      | nil => exact absurd rfl hne
      | cons _ _ => simp
    rw [htext, parseMessage_unprefixed replyFor _ _ hpre hmc, hdc,
      parseArgs_framed ws last hws hlast]

/-- Claim C24 for `send("USER", "nodebot", "8", "*", "nodeJS IRC client")`. -/
theorem parse_undoes_send_witness :
    ∃ text : Str,
      protoSend openClient "USER".toList
          (["nodebot".toList, "8".toList, "*".toList] ++ ["nodeJS IRC client".toList]) =
        Result.ok { openClient with trace := openClient.trace ++ wire text } ∧
      parseMessage noReplies text false = some
        { pfx := none, nick := none, user := none, host := none, server := none
          command := match noReplies "USER".toList with
            | some r => r.name
            | none => "USER".toList
          rawCommand := "USER".toList
          commandType := match noReplies "USER".toList with
            | some r => r.type
            | none => "normal".toList
          args := ["nodebot".toList, "8".toList, "*".toList] ++ ["nodeJS IRC client".toList] } :=
  parse_undoes_send noReplies openClient ⟨false, "open".toList⟩ "USER".toList
    ["nodebot".toList, "8".toList, "*".toList] "nodeJS IRC client".toList rfl rfl
    (by decide) (by decide) (by decide)

/-! ## The MODE case without a mode argument -/

/-- The loop of the `"MODE"` case, from any position up to the position `k` of
a letter `b`, `k` or `l` that is no key of the table and is reached with no
mode argument left: the events of the letters before position `k` are emitted,
and the loop raises at position `k`.  Every letter `b`, `k` or `l` before
position `k` that is no key of the table has a mode argument. -/
theorem modeLoop_raises (table : Table) (msg : Message) (flags : List Char)
    (modeArgs : List Str) (k : Nat) (ch : Char)
    (hk : flags[k]? = some ch) (hb : isBKL ch = true) (hkey : hasKey [ch] table = false)
    (hnone : modeArgs.length ≤ argsUsed table (flags.take k))
    (hfirst : ∀ (i : Nat) (x : Char), i < k → flags[i]? = some x → isBKL x = true →
      hasKey [x] table = false → argsUsed table (flags.take i) < modeArgs.length) :
    ∀ (rest pre : List Char) (c : Client), flags = pre ++ rest → pre.length ≤ k →
      c.prefixForMode = table →
      modeLoop msg rest (addingAfter pre) (modeArgs.drop (argsUsed table pre)) c =
        Result.throw
          { c with
            trace := c.trace ++
              modeEventsFrom table msg flags modeArgs pre.length
                ((flags.take k).drop pre.length) } := by
  intro rest
  induction rest with
  | nil =>
    intro pre c hflags hle _
    exfalso
    have hlt : k < flags.length := by
      by_contra hcon
      rw [List.getElem?_eq_none (by omega)] at hk
      exact absurd hk (by simp)
    rw [hflags] at hlt
    simp at hlt
    omega
  | cons x rest ih =>
    intro pre c hflags hle htable
    have hflags' : flags = (pre ++ [x]) ++ rest := by simp [hflags]
    have htake : flags.take pre.length = pre := by simp [hflags]
    have hlen : (pre ++ [x]).length = pre.length + 1 := by simp
    have hx : flags[pre.length]? = some x := by
      rw [hflags, List.getElem?_append_right (Nat.le_refl _)]
      simp
    by_cases hat : pre.length = k
    · -- the letter without a mode argument
      have hxc : x = ch := by
        rw [hat, hk] at hx
        exact (Option.some.inj hx).symm
      subst hxc
      have h1 : x ≠ '+' := by
        rintro rfl
        exact absurd hb (by decide)
      have h2 : x ≠ '-' := by
        rintro rfl
        exact absurd hb (by decide)
      have hdrop : modeArgs.drop (argsUsed table pre) = [] := by
        apply List.drop_eq_nil_of_le
        rw [← htake, hat]
        exact hnone
      have hdk : (flags.take k).drop k = [] :=
        List.drop_eq_nil_of_le (by simp [List.length_take])
      subst htable
      unfold modeLoop
      simp only [beq_iff_eq, h1, h2, if_false, hkey, Bool.false_eq_true, hb, if_true, hdrop]
      rw [hat, hdk]
      simp [modeEventsFrom]
    · have hlt : pre.length < k := by omega
      have hkl : k ≤ flags.length := by
        by_contra hcon
        rw [List.getElem?_eq_none (by omega)] at hk
        exact absurd hk (by simp)
      have hdropk : (flags.take k).drop pre.length =
          x :: (flags.take k).drop (pre.length + 1) := by
        have hl : pre.length < (flags.take k).length := by
          rw [List.length_take]
          omega
        rw [List.drop_eq_getElem_cons hl]
        congr 1
        have : (flags.take k)[pre.length]? = some x := by
          rw [List.getElem?_take_of_lt hlt]
          exact hx
        rw [List.getElem?_eq_getElem hl] at this
        exact Option.some.inj this
      have ih' := fun c' h => ih (pre ++ [x]) c' hflags' (by rw [hlen]; omega) h
      rw [hlen] at ih'
      rw [hdropk]
      by_cases h1 : x = '+'
      · subst h1
        have := ih' c htable
        rw [addingAfter_snoc, argsUsed_snoc] at this
        simpa [modeLoop, modeEventsFrom, List.enumFrom, isSign, List.filter_cons] using this
      by_cases h2 : x = '-'
      · subst h2
        have := ih' c htable
        rw [addingAfter_snoc, argsUsed_snoc] at this
        simpa [modeLoop, modeEventsFrom, List.enumFrom, isSign, List.filter_cons] using this
      have hsign : isSign x = false := by simp [isSign, h1, h2]
      have hev : ∀ tl, modeEventsFrom table msg flags modeArgs pre.length (x :: tl) =
          modeEventAt table msg flags modeArgs pre.length x ::
            modeEventsFrom table msg flags modeArgs (pre.length + 1) tl := by
        intro tl
        simp [modeEventsFrom, List.enumFrom, List.filter_cons, hsign]
      rw [hev]
      unfold modeLoop
      simp only [beq_iff_eq, h1, h2, if_false, htable]
      by_cases hkx : hasKey [x] table = true
      · -- a user mode
        have := ih' (c.emit (modeEvent (addingAfter pre))
            [Val.ofOpt msg.args[0]?, Val.ofOpt msg.nick, Val.str [x],
             Val.ofOpt (modeArgs.drop (argsUsed table pre)).head?, Val.msg msg]) htable
        rw [addingAfter_snoc, argsUsed_snoc] at this
        simp only [h1, h2, if_false, hsign, takesArg, hkx, Bool.not_false, Bool.true_or,
          Bool.and_self, if_true] at this
        simp only [hkx, if_true, List.drop_drop]
        rw [this]
        simp [Client.emit, Client.record, modeEventAt, htake, hkx, modeEvent, List.head?_drop,
          htable]
      · have hkx' : hasKey [x] table = false := by simpa using hkx
        simp only [hkx, Bool.false_eq_true, if_false]
        by_cases hbx : isBKL x = true
        · -- a channel mode with an argument
          have hlt2 : argsUsed table pre < modeArgs.length := by
            have := hfirst pre.length x hlt hx hbx hkx'
            rwa [htake] at this
          have hdrop : modeArgs.drop (argsUsed table pre) =
              modeArgs[argsUsed table pre] :: modeArgs.drop (argsUsed table pre + 1) :=
            List.drop_eq_getElem_cons hlt2
          have := ih' (c.emit (modeEvent (addingAfter pre))
            [Val.ofOpt msg.args[0]?, Val.ofOpt msg.nick, Val.str [x],
             Val.ofOpt (if (modeArgs[argsUsed table pre]).length = 0 then none
               else some modeArgs[argsUsed table pre]), Val.msg msg]) htable
          rw [addingAfter_snoc, argsUsed_snoc] at this
          simp only [h1, h2, if_false, hsign, takesArg, hbx, Bool.not_false, Bool.or_true,
            Bool.and_self, if_true] at this
          simp only [hbx, if_true]
          rw [hdrop]
          simp only
          rw [this]
          simp only [Client.emit, Client.record, modeEventAt, htake, hkx, hbx, modeEvent,
            List.getElem?_eq_getElem hlt2, List.length_eq_zero, Bool.false_eq_true, if_false,
            if_true, List.append_assoc, List.singleton_append, htable]
          by_cases he : modeArgs[argsUsed table pre] = []
          · simp [he, Val.ofOpt]
          · simp [he, Val.ofOpt]
        · -- a channel mode without an argument
          have hbx' : isBKL x = false := by simpa using hbx
          have := ih' (c.emit (modeEvent (addingAfter pre))
            [Val.ofOpt msg.args[0]?, Val.ofOpt msg.nick, Val.str [x], Val.undef,
             Val.msg msg]) htable
          rw [addingAfter_snoc, argsUsed_snoc] at this
          simp only [h1, h2, if_false, hsign, takesArg, hkx', hbx', Bool.not_false,
            Bool.or_self, Bool.and_false, Bool.false_eq_true, Nat.add_zero] at this
          simp only [hbx, Bool.false_eq_true, if_false]
          rw [this]
          simp [Client.emit, Client.record, modeEventAt, htake, hkx, hbx, modeEvent, htable]

/-- Claim C25.  Let a `MODE` message carry the channel `chan`, the mode string
`flags` and the mode arguments `modeArgs`, and let the letter at position `k` of
`flags` be `b`, `k` or `l`, be no key of `prefixForMode`, and be reached with no
mode argument left: the letters before it that take one use up at least as many
as there are, and each earlier letter `b`, `k` or `l` that is no key of
`prefixForMode` still has one.  Then the dispatch raises, and what it has
emitted before are the events of the letters before position `k`, in order:
there is no event for the letter at position `k` nor for any later letter. -/
theorem mode_raises (c : Client) (message : Message) (chan : Str) (flags : List Char)
    (modeArgs : List Str) (k : Nat) (ch : Char)
    (hcmd : message.command = "MODE".toList)
    (hargs : message.args = chan :: flags :: modeArgs)
    (hk : flags[k]? = some ch)
    (hch : isBKL ch = true ∧ hasKey [ch] c.prefixForMode = false)
    (hnone : modeArgs.length ≤ argsUsed c.prefixForMode (flags.take k))
    (hfirst : ∀ (i : Nat) (x : Char), i < k → flags[i]? = some x → isBKL x = true →
      hasKey [x] c.prefixForMode = false →
      argsUsed c.prefixForMode (flags.take i) < modeArgs.length) :
    rawListener c message = some (Result.throw
      { c with
        trace := c.trace ++
          modeEventsFrom c.prefixForMode { message with args := [chan, flags] } flags
            modeArgs 0 (flags.take k) }) := by
  have e : rawListener c message = some (caseMode c message) := by
    simp [rawListener, hcmd]
  rw [e]
  unfold caseMode
  rw [hargs]
  have h := modeLoop_raises c.prefixForMode { message with args := [chan, flags] } flags
    modeArgs k ch hk hch.1 hch.2 hnone hfirst flags [] c rfl (Nat.zero_le _) rfl
  simpa [addingAfter, argsUsed] using h

/-- Claim C25 for `MODE #chan +n-l` from `op!u@h`, without a mode argument: the
event `+mode n` is emitted and the dispatch raises at `l`. -/
theorem mode_raises_witness :
    rawListener openClient (userMessage "MODE".toList ["#chan".toList, "+n-l".toList]) =
      some (Result.throw
        { openClient with
          trace :=
            [Effect.emit "+mode".toList
               [Val.str "#chan".toList, Val.str "op".toList, Val.str "n".toList, Val.undef,
                Val.msg (userMessage "MODE".toList ["#chan".toList, "+n-l".toList])]] }) :=
  (mode_raises openClient (userMessage "MODE".toList ["#chan".toList, "+n-l".toList])
    "#chan".toList "+n-l".toList [] 3 'l' rfl rfl (by decide) (by decide) (by decide)
    (by
      intro i x hi hx hb _
      have h3 : i = 0 ∨ i = 1 ∨ i = 2 := by omega
      rcases h3 with rfl | rfl | rfl
      · have : x = '+' := by
          have h := hx
          simp at h
          exact h.symm
        subst this
        exact absurd hb (by decide)
      · have : x = 'n' := by
          have h := hx
          simp at h
          exact h.symm
        subst this
        exact absurd hb (by decide)
      · have : x = '-' := by
          have h := hx
          simp at h
          exact h.symm
        subst this
        exact absurd hb (by decide))).trans (by decide)

/-- The example of claim C25.  The line `:op!u@h MODE #chan -l` is parsed into a
message with the arguments `#chan` and `-l`; its dispatch raises at `l` having
emitted nothing, and the line handler reports the exception by an `error`
event. -/
theorem mode_without_argument_line :
    (parseMessage noReplies ":op!u@h MODE #chan -l".toList false).map (fun m => m.args) =
      some ["#chan".toList, "-l".toList] ∧
    (parseMessage noReplies ":op!u@h MODE #chan -l".toList false).bind
        (rawListener openClient) = some (Result.throw openClient) ∧
    onLine noReplies openClient ":op!u@h MODE #chan -l".toList =
      some (Result.ok
        { openClient with
          trace :=
            [Effect.emit "recvLine".toList [Val.str ":op!u@h MODE #chan -l".toList],
             Effect.emit "error".toList [Val.exception]] }) := by
  refine ⟨by decide, by decide, by decide⟩

end Irc
